import Mathlib

/-!
# Holonomic heuristic of the hybrid A* planner

A shallow embedding of `PathFinding/HybridAstar/Heuristics/HolonomicHeuristic.cpp`.

* `double` is idealised as a linearly ordered field `R`; the library functions
  `sqrt`, `cos`, `sin` and the constant `M_PI` are the fields of `Env R`.
* Pointers to `CircleNode` are addresses, natural numbers, into a heap
  `Nat → CircleNode R` with an allocation counter `brk`; `nullptr` is `none`.
  `delete` is not modelled: a freed cell is simply never read again.
* Loops that the C++ code does not bound take fuel. The loops of `GetChildren`
  and `RebuildCirclePath` get enough fuel for every run that ends, so running
  out means that the C++ loop never ends (`Outcome.diverge`); the main loop of
  `SpaceExploration` answers `Outcome.outOfFuel` when its fuel runs out.
-/

set_option autoImplicit false

namespace astar

/-! ## Data model -/

/-- Modelled from the spec: `Vector2D<double>` is declared in a header that is
not among the sources; the spec calls it a 2D real-valued coordinate. -/
structure Vector2D (R : Type) where
  x : R
  y : R
deriving DecidableEq

/-- Modelled from the spec: `Pose2D` is declared in a header that is not among
the sources; the spec calls it a point plus an orientation angle. -/
structure Pose2D (R : Type) where
  position : Vector2D R
  orientation : R
deriving DecidableEq

/-- Modelled from the spec: `Circle` is declared in a header that is not among
the sources; the code reads its members `position` and `r`. -/
structure Circle (R : Type) where
  position : Vector2D R
  r : R
deriving DecidableEq

/-- Modelled from the spec: `CircleNode` is declared in the header
`HolonomicHeuristic.hpp`, which is not among the sources. The code reads the
members `circle`, `g`, `f`, `parent`, `explored` and calls the constructor as
`CircleNode(circle, radius, g, f, parent)`; after the spec a new node is not
explored. -/
structure CircleNode (R : Type) where
  circle : Circle R
  radius : R
  g : R
  f : R
  parent : Option Nat
  explored : Bool
deriving DecidableEq

/-- Modelled from the spec: `InternalGridMap` is declared in a header that is
not among the sources. These are the three operations the heuristic consumes:
the validity of a point, the clearance of a point, and the flag "changed since
the last read". -/
structure InternalGridMap (R : Type) where
  isValidPoint : Vector2D R → Bool
  GetObstacleDistance : Vector2D R → R
  HasChanged : Bool

/-- What the translation unit takes from outside: the `libm` functions and
constant, and the order in which the two `std::priority_queue`s hand out their
elements. The comparators of the queues are declared in the absent header
`HolonomicHeuristic.hpp`, so the choice of the popped element is a parameter:
given the number of the loop round, the heap and the queue content (in
insertion order) it names the position of the element that `top()` returns. -/
structure Env (R : Type) where
  sqrt : R → R
  cos : R → R
  sin : R → R
  M_PI : R
  pickNearest : Nat → (Nat → CircleNode R) → List Nat → Nat
  pickLargest : Nat → (Nat → CircleNode R) → List Nat → Nat

/-- The members of the class `HolonomicHeuristic`, and the heap its nodes live
on. `twopi` and `piece_angle` are written by the constructor only and are the
functions `twopi` and `piece_angle` of the environment below. -/
structure HolonomicHeuristic (R : Type) where
  grid : InternalGridMap R
  start : Pose2D R
  goal : Pose2D R
  circle_path : List Nat
  nearest_open : List Nat
  largest_open : List Nat
  closed : List Nat
  heap : Nat → CircleNode R
  brk : Nat

/-- The result of running code that may loop forever or leave defined
behaviour: a returned value; a loop that never ends (`GetChildren` with
`twopi = 0`, `RebuildCirclePath` on a cyclic parent chain); a main loop that
has not ended within its fuel; a `top()` on an empty queue. -/
inductive Outcome (α : Type) where
  | ok (a : α)
  | diverge
  | outOfFuel
  | undefined

/-- The flag that an outcome of the search returns, if it returns. -/
def Outcome.flag {σ : Type} : Outcome (Bool × σ) → Option Bool
  | Outcome.ok (b, _) => some b
  | Outcome.diverge => none
  | Outcome.outOfFuel => none
  | Outcome.undefined => none

/-- The state that an outcome of the search returns, and `d` if it does not
return. -/
def Outcome.stateD {σ : Type} (o : Outcome (Bool × σ)) (d : σ) : σ :=
  match o with
  | Outcome.ok (_, s) => s
  | Outcome.diverge => d
  | Outcome.outOfFuel => d
  | Outcome.undefined => d

/-- The value that an outcome returns, and `d` if it does not return. -/
def Outcome.getD {α : Type} (o : Outcome α) (d : α) : α :=
  match o with
  | Outcome.ok a => a
  | Outcome.diverge => d
  | Outcome.outOfFuel => d
  | Outcome.undefined => d

/-- The outcome is a returned value. -/
def Outcome.isOk {α : Type} : Outcome α → Bool
  | Outcome.ok _ => true
  | Outcome.diverge => false
  | Outcome.outOfFuel => false
  | Outcome.undefined => false

section Model

variable {R : Type} [LinearOrderedField R]

/-- The member `twopi(2.0*M_PI)`. -/
def twopi (env : Env R) : R := 2 * env.M_PI

/-- The member `piece_angle = twopi / 36.0`. -/
def piece_angle (env : Env R) : R := twopi env / 36

/-- Modelled from the spec: `Vector2D::Distance2` is declared in a header that is
not among the sources; the spec calls it the squared distance of two points. -/
def Distance2 (a b : Vector2D R) : R :=
  (a.x - b.x) * (a.x - b.x) + (a.y - b.y) * (a.y - b.y)

/-- Modelled from the spec: `Vector2D::Distance` is declared in a header that is
not among the sources; the spec calls it the Euclidean distance of two points. -/
def Distance (env : Env R) (a b : Vector2D R) : R :=
  env.sqrt (Distance2 a b)

/-- Allocation `new CircleNode(...)`: the node is written at `brk`. -/
def alloc (s : HolonomicHeuristic R) (n : CircleNode R) : HolonomicHeuristic R :=
  { s with heap := Function.update s.heap s.brk n, brk := s.brk + 1 }

/-- The element of a queue at the position the environment names, and the queue
without it; `none` on an empty queue. -/
def popAt (q : List Nat) (i : Nat) : Option (Nat × List Nat) :=
  match q with
  | [] => none
  | p :: rest => some ((p :: rest).getD (i % (p :: rest).length) p,
      (p :: rest).eraseIdx (i % (p :: rest).length))

/-! ## Overlap, lines 22-36 -/

/-- Test of `HolonomicHeuristic::Overlap`. -/
def Overlap (env : Env R) (a b : Circle R) (factor : R) : Bool :=
  let smaller := if a.r > b.r then b.r else a.r
  let greater := if a.r > b.r then a.r else b.r
  decide (Distance env a.position b.position - greater < factor * smaller)

/-! ## NearestCircleNode and GetHeuristicValue, lines 39-108 and 567-579 -/

/-- The `while (it != end)` scan of `NearestCircleNode`: `rest` is what is
left of the vector from iterator `it` on, `nearest` the best position so far
and `distance` its distance. -/
def nearestScan (env : Env R) (heap : Nat → CircleNode R) (position : Vector2D R) :
    List Nat → Nat → Nat → R → Nat
  | [], _, nearest, _ => nearest
  | c :: rest, it, nearest, distance =>
    let d := Distance env position (heap c).circle.position
    if d < distance then nearestScan env heap position rest (it + 1) it d
    else nearestScan env heap position rest (it + 1) nearest distance

/-- The method `HolonomicHeuristic::NearestCircleNode`. -/
def NearestCircleNode (env : Env R) (s : HolonomicHeuristic R) (p : Pose2D R) : Option Nat :=
  match s.circle_path with
  | [] => none
  | c0 :: rest =>
    let circles := c0 :: rest
    let position := p.position
    let nearest := nearestScan env s.heap position rest 1 0
      (Distance env position (s.heap c0).circle.position)
    let next := nearest + 1
    if next < circles.length then
      let next_circle := (s.heap (circles.getD next c0)).circle.position
      let current_circle := (s.heap (circles.getD nearest c0)).circle.position
      if Distance2 current_circle next_circle > Distance2 position next_circle then
        some (circles.getD next c0)
      else some (circles.getD nearest c0)
    else some (circles.getD nearest c0)

/-- The method `HolonomicHeuristic::GetHeuristicValue`. -/
def GetHeuristicValue (env : Env R) (s : HolonomicHeuristic R) (p : Pose2D R) : R :=
  match NearestCircleNode env s p with
  | some nearest => (s.heap nearest).g + Distance env p.position (s.heap nearest).circle.position
  | none => Distance env s.goal.position p.position

/-! ## GetChildren, lines 111-175 -/

/-- The `while (angle <= twopi)` loop of `GetChildren`; `x`, `y`, `r` are the
centre and radius of the parent read before the loop, `circles` the children
pushed so far. -/
def getChildrenLoop (env : Env R) (cn : Nat) (x y r : R) :
    Nat → R → HolonomicHeuristic R → List Nat → Option (List Nat × HolonomicHeuristic R)
  | 0, _, _, _ => none
  | fuel + 1, angle, s, circles =>
    if angle ≤ twopi env then
      let ncp : Vector2D R := ⟨x + r * env.cos angle, y + r * env.sin angle⟩
      if s.grid.isValidPoint ncp = true then
        let ncr := s.grid.GetObstacleDistance ncp - 1 / 4
        if ncr > 3 / 2 then
          let ncg := r + (s.heap cn).g
          let ncf := Distance env ncp s.goal.position + ncg
          getChildrenLoop env cn x y r fuel (angle + piece_angle env)
            (alloc s ⟨⟨ncp, ncr⟩, ncr, ncg, ncf, some cn, false⟩) (circles ++ [s.brk])
        else getChildrenLoop env cn x y r fuel (angle + piece_angle env) s circles
      else getChildrenLoop env cn x y r fuel (angle + piece_angle env) s circles
    else some (circles, s)

/-- The method `HolonomicHeuristic::GetChildren`. The angle grows by
`twopi / 36` from `0` while it is at most `twopi`, so thirty-eight rounds of
fuel are enough unless `twopi = 0`, where the C++ loop never ends. -/
def GetChildren (env : Env R) (s : HolonomicHeuristic R) (cn : Nat) :
    Option (List Nat × HolonomicHeuristic R) :=
  getChildrenLoop env cn (s.heap cn).circle.position.x (s.heap cn).circle.position.y
    (s.heap cn).circle.r 38 0 s []

/-! ## RemoveAllCircleNodes, lines 178-221 -/

/-- The method `HolonomicHeuristic::RemoveAllCircleNodes`: the three containers
are emptied. -/
def RemoveAllCircleNodes (s : HolonomicHeuristic R) : HolonomicHeuristic R :=
  { s with nearest_open := [], largest_open := [], closed := [] }

/-! ## RebuildCirclePath, lines 224-293 -/

/-- The `while (nullptr != cn)` loop of `RebuildCirclePath`: `l` is the list
built by `push_front`. -/
def rebuildWalk (env : Env R) :
    Nat → Option Nat → Nat → List Nat → (Nat → CircleNode R) →
      Option (List Nat × (Nat → CircleNode R))
  | 0, _, _, _, _ => none
  | _ + 1, none, _, l, heap => some (l, heap)
  | fuel + 1, some cn, tmp, l, heap =>
    let heap1 := Function.update heap cn
      { heap cn with
        g := Distance env (heap tmp).circle.position (heap cn).circle.position + (heap tmp).g }
    rebuildWalk env fuel (heap1 cn).parent cn (cn :: l) heap1

/-- The `while (it != end)` loop of `RebuildCirclePath` that copies the list to
the vector. -/
def rebuildCopy : List Nat → Option Nat → HolonomicHeuristic R → HolonomicHeuristic R
  | [], _, s => s
  | it :: rest, parent_c_node, s =>
    let child_c_node := s.brk
    let s1 := alloc s { s.heap it with parent := parent_c_node }
    rebuildCopy rest (some child_c_node)
      { s1 with circle_path := s1.circle_path ++ [child_c_node] }

/-- The method `HolonomicHeuristic::RebuildCirclePath`. A parent chain without
a cycle visits fewer than `brk` cells, so `brk + 1` rounds of fuel are enough
for the walk; `none` stands for a walk that never reaches `nullptr`. -/
def RebuildCirclePath (env : Env R) (cn : Nat) (s : HolonomicHeuristic R) :
    Option (HolonomicHeuristic R) :=
  let tmp := s.brk
  let s1 := alloc s (s.heap cn)
  match rebuildWalk env (s1.brk + 1) (some cn) tmp [tmp] s1.heap with
  | none => none
  | some (l, heap1) => some (rebuildCopy l none { s1 with heap := heap1 })

/-! ## NotExist, lines 296-338 -/

/-- The `while (it != end)` loop of `NotExist` over the closed set. -/
def notExistScan (env : Env R) (heap : Nat → CircleNode R) (cn : Nat) : List Nat → Bool
  | [] => true
  | tmp :: rest =>
    if some tmp ≠ (heap cn).parent ∧ Overlap env (heap cn).circle (heap tmp).circle (1 / 10) = true
    then false
    else notExistScan env heap cn rest

/-- The method `HolonomicHeuristic::NotExist`. -/
def NotExist (env : Env R) (s : HolonomicHeuristic R) (cn : Nat) : Bool :=
  notExistScan env s.heap cn s.closed

/-! ## ExploreCircleNode, lines 341-386 -/

/-- The `while (it != end)` loop of `ExploreCircleNode` over the children. -/
def exploreLoop (env : Env R) : List Nat → HolonomicHeuristic R → HolonomicHeuristic R
  | [], s => s
  | child :: rest, s =>
    if NotExist env s child = true then
      exploreLoop env rest
        { s with nearest_open := s.nearest_open ++ [child],
                 largest_open := s.largest_open ++ [child] }
    else exploreLoop env rest s

/-- The method `HolonomicHeuristic::ExploreCircleNode`. -/
def ExploreCircleNode (env : Env R) (cn : Nat) (s : HolonomicHeuristic R) :
    Option (HolonomicHeuristic R) :=
  match GetChildren env s cn with
  | none => none
  | some (children, s1) => some (exploreLoop env children s1)

/-! ## ProcessNode, lines 389-420 -/

/-- Lines 391-406 of `ProcessNode`: everything up to and including the call of
`RebuildCirclePath`. -/
def ProcessNodeSearch (env : Env R) (goal cn : Nat) (s : HolonomicHeuristic R) :
    Outcome (Bool × HolonomicHeuristic R) :=
  let s1 := { s with closed := s.closed ++ [cn] }
  let s2 := { s1 with heap := Function.update s1.heap cn { s1.heap cn with explored := true } }
  match ExploreCircleNode env cn s2 with
  | none => Outcome.diverge
  | some s3 =>
    if Overlap env (s3.heap cn).circle (s3.heap goal).circle (1 / 2) = true then
      let s4 := { s3 with
        heap := Function.update s3.heap goal { s3.heap goal with parent := some cn } }
      match RebuildCirclePath env goal s4 with
      | none => Outcome.diverge
      | some s5 => Outcome.ok (true, s5)
    else Outcome.ok (false, s3)

/-- The method `HolonomicHeuristic::ProcessNode`: on success the containers are
released after the rebuild (`ShowCirclePath` only draws). -/
def ProcessNode (env : Env R) (goal cn : Nat) (s : HolonomicHeuristic R) :
    Outcome (Bool × HolonomicHeuristic R) :=
  match ProcessNodeSearch env goal cn s with
  | Outcome.ok (true, s1) => Outcome.ok (true, RemoveAllCircleNodes s1)
  | other => other

/-! ## SpaceExploration, lines 457-533 -/

/-- The main loop of `SpaceExploration`, lines 483-525, over a node processor
`proc`; the result is the state at the `return true` or at the exit of the
loop. -/
def mainLoop (env : Env R)
    (proc : Nat → HolonomicHeuristic R → Outcome (Bool × HolonomicHeuristic R)) :
    Nat → HolonomicHeuristic R → Outcome (Bool × HolonomicHeuristic R)
  | 0, _ => Outcome.outOfFuel
  | fuel + 1, s =>
    match popAt s.nearest_open (env.pickNearest fuel s.heap s.nearest_open) with
    | none => Outcome.ok (false, s)
    | some (cn, q) =>
      let s1 := { s with nearest_open := q }
      match (if (s1.heap cn).explored = false then proc cn s1 else Outcome.ok (false, s1)) with
      | Outcome.ok (true, s2) => Outcome.ok (true, s2)
      | Outcome.ok (false, s2) =>
        match popAt s2.largest_open (env.pickLargest fuel s2.heap s2.largest_open) with
        | none => Outcome.undefined
        | some (cn2, q2) =>
          let s3 := { s2 with largest_open := q2 }
          match (if (s3.heap cn2).explored = false then proc cn2 s3
                 else Outcome.ok (false, s3)) with
          | Outcome.ok (true, s4) => Outcome.ok (true, s4)
          | Outcome.ok (false, s4) => mainLoop env proc fuel s4
          | Outcome.diverge => Outcome.diverge
          | Outcome.outOfFuel => Outcome.outOfFuel
          | Outcome.undefined => Outcome.undefined
      | Outcome.diverge => Outcome.diverge
      | Outcome.outOfFuel => Outcome.outOfFuel
      | Outcome.undefined => Outcome.undefined

/-- Lines 459-478 of `SpaceExploration`: the root node is allocated, the goal
node `gcn` (a local object of the method) gets the next cell, and the root is
pushed on both queues. The result is the address of `gcn` and the state. -/
def explorationInit (env : Env R) (s : HolonomicHeuristic R) : Nat × HolonomicHeuristic R :=
  let c_start : Circle R := ⟨s.start.position, s.grid.GetObstacleDistance s.start.position⟩
  let c_goal : Circle R := ⟨s.goal.position, s.grid.GetObstacleDistance s.goal.position⟩
  let f := Distance env c_start.position s.goal.position
  let cn := s.brk
  let s1 := alloc s ⟨c_start, c_start.r, 0, f, none, false⟩
  let gcn := s1.brk
  let s2 := alloc s1 ⟨c_goal, c_goal.r, 0, 0, none, false⟩
  (gcn, { s2 with nearest_open := s2.nearest_open ++ [cn],
                  largest_open := s2.largest_open ++ [cn] })

/-- The search of `SpaceExploration` stopped where the C++ code is about to
release the nodes: at the call of `RemoveAllCircleNodes` in `ProcessNode`
(success) or after the loop (failure). -/
def SpaceExplorationSearch (env : Env R) (fuel : Nat) (s : HolonomicHeuristic R) :
    Outcome (Bool × HolonomicHeuristic R) :=
  mainLoop env (ProcessNodeSearch env (explorationInit env s).1) fuel (explorationInit env s).2

/-- The method `HolonomicHeuristic::SpaceExploration`. -/
def SpaceExploration (env : Env R) (fuel : Nat) (s : HolonomicHeuristic R) :
    Outcome (Bool × HolonomicHeuristic R) :=
  match mainLoop env (ProcessNode env (explorationInit env s).1) fuel (explorationInit env s).2 with
  | Outcome.ok (false, s1) => Outcome.ok (false, RemoveAllCircleNodes s1)
  | other => other

/-! ## UpdateHeuristic, lines 538-564, and the constructor, lines 8-19 -/

/-- The body of the `if` of `UpdateHeuristic`, lines 543-560. -/
def updateRebuild (env : Env R) (fuel : Nat) (s : HolonomicHeuristic R)
    (grid_map : InternalGridMap R) (start_ goal_ : Pose2D R) :
    Outcome (HolonomicHeuristic R) :=
  match SpaceExploration env fuel
      { s with grid := grid_map, start := start_, goal := goal_, circle_path := [] } with
  | Outcome.ok (_, s1) => Outcome.ok s1
  | Outcome.diverge => Outcome.diverge
  | Outcome.outOfFuel => Outcome.outOfFuel
  | Outcome.undefined => Outcome.undefined

/-- The method `HolonomicHeuristic::UpdateHeuristic`. The comparison
`goal != goal_` of two poses is declared in an absent header and is read as
the inequality of the two records. -/
def UpdateHeuristic (env : Env R) (fuel : Nat) (s : HolonomicHeuristic R)
    (grid_map : InternalGridMap R) (start_ goal_ : Pose2D R) :
    Outcome (HolonomicHeuristic R) :=
  if grid_map.HasChanged = true ∨ s.goal ≠ goal_ then
    updateRebuild env fuel s grid_map start_ goal_
  else Outcome.ok s

/-- The constructor `HolonomicHeuristic::HolonomicHeuristic(map)`: default
poses, empty containers, an empty heap. -/
def construct (map : InternalGridMap R) : HolonomicHeuristic R :=
  { grid := map, start := ⟨⟨0, 0⟩, 0⟩, goal := ⟨⟨0, 0⟩, 0⟩, circle_path := [],
    nearest_open := [], largest_open := [], closed := [],
    heap := fun _ => ⟨⟨⟨0, 0⟩, 0⟩, 0, 0, 0, none, false⟩, brk := 0 }

/-! ## Predicates of the statements -/

/-- The angle of the `k`-th round of the loop of `GetChildren`: `0.0`, then
`angle += piece_angle` once per round. -/
def sampleAngle (env : Env R) : Nat → R
  | 0 => 0
  | k + 1 => sampleAngle env k + piece_angle env

/-- The candidate centre of round `k` of `GetChildren` on a parent circle `pc`:
`pc.centre + pc.r · (cos θ, sin θ)` at the angle of that round. -/
def candidateCentre (env : Env R) (pc : Circle R) (k : Nat) : Vector2D R :=
  ⟨pc.position.x + pc.r * env.cos (sampleAngle env k),
    pc.position.y + pc.r * env.sin (sampleAngle env k)⟩

/-- The circle that round `k` emits, after the spec of the expansion engine:
none when the candidate centre is not a valid point or its clearance less
`0.25` is at most `1.5`. -/
def candidateCircle (env : Env R) (grid : InternalGridMap R) (pc : Circle R) (k : Nat) :
    Option (Circle R) :=
  if grid.isValidPoint (candidateCentre env pc k) = true ∧
      grid.GetObstacleDistance (candidateCentre env pc k) - 1 / 4 > 3 / 2
  then some ⟨candidateCentre env pc k, grid.GetObstacleDistance (candidateCentre env pc k) - 1 / 4⟩
  else none

/-- The three containers of the search are empty, as the constructor and
`RemoveAllCircleNodes` leave them. -/
def Quiescent (s : HolonomicHeuristic R) : Prop :=
  s.nearest_open = [] ∧ s.largest_open = [] ∧ s.closed = []

/-- The circle `c` is one that `GetChildren` emits for a parent circle `pc`:
the centre is a sample of the parent circumference and a valid point, the
radius is the clearance less `0.25` and exceeds `1.5`. -/
def ChildCircle (env : Env R) (grid : InternalGridMap R) (pc c : Circle R) : Prop :=
  (∃ k, sampleAngle env k ≤ twopi env ∧ c.position = candidateCentre env pc k) ∧
  grid.isValidPoint c.position = true ∧
  c.r = grid.GetObstacleDistance c.position - 1 / 4 ∧
  c.r > 3 / 2

/-- What `GetChildren` writes into a child `n` of a parent with circle `pc` and
cost `pg`: a child circle, and `g = pc.r + pg`,
`f = Distance(centre, goal) + g`. -/
def ChildGeom (env : Env R) (grid : InternalGridMap R) (goalPos : Vector2D R)
    (pc : Circle R) (pg : R) (n : CircleNode R) : Prop :=
  ChildCircle env grid pc n.circle ∧
  n.radius = n.circle.r ∧
  n.g = pc.r + pg ∧
  n.f = Distance env n.circle.position goalPos + n.g

/-- The address `p` holds a node of the search that started in state `s0`: the
root at `s0.brk`, or a child whose parent is an earlier cell that is in the
closed set, and whose circle overlaps, under factor `0.1`, no node that
entered the closed set before that parent. The cell `s0.brk + 1` is the goal
node and is not a search node. -/
def SearchNode (env : Env R) (s0 s : HolonomicHeuristic R) (p : Nat) : Prop :=
  s0.brk ≤ p ∧ p < s.brk ∧ p ≠ s0.brk + 1 ∧
  (p = s0.brk ∨ ∃ q, (s.heap p).parent = some q ∧ q ∈ s.closed ∧ q < p ∧
    ChildGeom env s0.grid s0.goal.position (s.heap q).circle (s.heap q).g (s.heap p) ∧
    ∀ l1 l2, s.closed = l1 ++ q :: l2 →
      ∀ t, t ∈ l1 → Overlap env (s.heap p).circle (s.heap t).circle (1 / 10) = false)

/-- The invariant of the main loop of `SpaceExploration` started in `s0`. -/
structure SearchInv (env : Env R) (s0 s : HolonomicHeuristic R) : Prop where
  grid_eq : s.grid = s0.grid
  start_eq : s.start = s0.start
  goal_eq : s.goal = s0.goal
  path_eq : s.circle_path = s0.circle_path
  brk_ge : s0.brk + 2 ≤ s.brk
  old_heap : ∀ p, p < s0.brk → s.heap p = s0.heap p
  root_circle : (s.heap s0.brk).circle =
    ⟨s0.start.position, s0.grid.GetObstacleDistance s0.start.position⟩
  root_parent : (s.heap s0.brk).parent = none
  root_g : (s.heap s0.brk).g = 0
  root_f : (s.heap s0.brk).f = Distance env s0.start.position s0.goal.position
  goal_node : s.heap (s0.brk + 1) =
    ⟨⟨s0.goal.position, s0.grid.GetObstacleDistance s0.goal.position⟩,
      s0.grid.GetObstacleDistance s0.goal.position, 0, 0, none, false⟩
  nodes : ∀ p, p ∈ s.nearest_open ∨ p ∈ s.largest_open ∨ p ∈ s.closed → SearchNode env s0 s p
  closed_nodup : s.closed.Nodup
  closed_explored : ∀ p, p ∈ s.closed → (s.heap p).explored = true
  open_explored : ∀ p, p ∈ s.nearest_open ∨ p ∈ s.largest_open →
    (s.heap p).explored = true → p ∈ s.closed

/-- What a run of the loop of `GetChildren` for the parent `cn` (circle `pc`)
does to the state: it only allocates, and the new cells, listed in `cs` after
`circles`, hold children of `cn`. -/
structure ChildrenPost (env : Env R) (cn : Nat) (pc : Circle R)
    (s s1 : HolonomicHeuristic R) (circles cs : List Nat) : Prop where
  grid_eq : s1.grid = s.grid
  start_eq : s1.start = s.start
  goal_eq : s1.goal = s.goal
  path_eq : s1.circle_path = s.circle_path
  nearest_eq : s1.nearest_open = s.nearest_open
  largest_eq : s1.largest_open = s.largest_open
  closed_eq : s1.closed = s.closed
  brk_le : s.brk ≤ s1.brk
  old_heap : ∀ p, p < s.brk → s1.heap p = s.heap p
  children_eq : cs = circles ++ List.range' s.brk (s1.brk - s.brk)
  child : ∀ c, s.brk ≤ c → c < s1.brk →
    ChildGeom env s.grid s.goal.position pc (s.heap cn).g (s1.heap c) ∧
      (s1.heap c).parent = some cn ∧ (s1.heap c).explored = false

/-- What `ExploreCircleNode` does for a parent `cn`: it allocates the children
and pushes the same cells, those that `NotExist` admits, on both queues. -/
structure ExplorePost (env : Env R) (cn : Nat) (s s1 : HolonomicHeuristic R) : Prop where
  grid_eq : s1.grid = s.grid
  start_eq : s1.start = s.start
  goal_eq : s1.goal = s.goal
  path_eq : s1.circle_path = s.circle_path
  closed_eq : s1.closed = s.closed
  brk_le : s.brk ≤ s1.brk
  old_heap : ∀ p, p < s.brk → s1.heap p = s.heap p
  child : ∀ c, s.brk ≤ c → c < s1.brk →
    ChildGeom env s.grid s.goal.position (s.heap cn).circle (s.heap cn).g (s1.heap c) ∧
      (s1.heap c).parent = some cn ∧ (s1.heap c).explored = false
  nearest_eq : s1.nearest_open = s.nearest_open ++
    (List.range' s.brk (s1.brk - s.brk)).filter (fun c => NotExist env s1 c)
  largest_eq : s1.largest_open = s.largest_open ++
    (List.range' s.brk (s1.brk - s.brk)).filter (fun c => NotExist env s1 c)

/-- No closed node overlaps, under factor `0.1`, a node that entered the closed
set before its parent did. -/
def ClosedPruned (env : Env R) (s : HolonomicHeuristic R) : Prop :=
  ∀ p q l1 l2, p ∈ s.closed → (s.heap p).parent = some q → s.closed = l1 ++ q :: l2 →
    ∀ t, t ∈ l1 → Overlap env (s.heap p).circle (s.heap t).circle (1 / 10) = false

/-- The parent links of `heap` lead from `cur` through the cells of `ch`, in
this order, to `nullptr`. -/
def IsChain (heap : Nat → CircleNode R) : Option Nat → List Nat → Prop
  | none, [] => True
  | some p, q :: rest => p = q ∧ IsChain heap (heap p).parent rest
  | none, _ :: _ => False
  | some _, [] => False

/-- The cost relation that the walk of `RebuildCirclePath` establishes between
a cell `a` and the cell `b` visited right after it (the parent of `a`):
`b.g = Distance(a.centre, b.centre) + a.g`. -/
def CostStep (env : Env R) (a b : CircleNode R) : Prop :=
  b.g = Distance env a.circle.position b.circle.position + a.g

/-- Two nodes agree in every field but `g`. -/
def SameButCost (a b : CircleNode R) : Prop :=
  a.circle = b.circle ∧ a.radius = b.radius ∧ a.f = b.f ∧ a.parent = b.parent ∧
    a.explored = b.explored

/-- What a successful search started in `s0` leaves in the state `s1` at the
moment `RebuildCirclePath` has returned: the circle path has grown by fresh
cells `newPtrs` whose circles are the circles `cs` of a chain of search nodes,
root first, followed by the goal circle twice; `cs` starts with the start
circle, every circle of `cs` is a child circle of the one before it, and its
last circle `n` overlaps the goal circle under factor `0.5`; along the new
cells every node costs what its successor costs plus the distance between the
two centres, and the last one costs `0`. -/
structure SuccessPost (env : Env R) (s0 s1 : HolonomicHeuristic R) : Prop where
  grid_eq : s1.grid = s0.grid
  start_eq : s1.start = s0.start
  goal_eq : s1.goal = s0.goal
  old_heap : ∀ p, p < s0.brk → s1.heap p = s0.heap p
  brk_ge : s0.brk + 2 ≤ s1.brk
  path : ∃ (newPtrs : List Nat) (cs : List (Circle R)) (n : Circle R),
    s1.circle_path = s0.circle_path ++ newPtrs ∧
    (∀ p, p ∈ newPtrs → s0.brk ≤ p) ∧
    newPtrs.map (fun p => (s1.heap p).circle) =
      cs ++ [⟨s0.goal.position, s0.grid.GetObstacleDistance s0.goal.position⟩,
        ⟨s0.goal.position, s0.grid.GetObstacleDistance s0.goal.position⟩] ∧
    cs.head? = some ⟨s0.start.position, s0.grid.GetObstacleDistance s0.start.position⟩ ∧
    cs.getLast? = some n ∧
    Overlap env n ⟨s0.goal.position, s0.grid.GetObstacleDistance s0.goal.position⟩ (1 / 2)
      = true ∧
    List.Chain' (fun par child => ChildCircle env s0.grid par child) cs ∧
    List.Chain' (fun prev node => CostStep env node prev) (newPtrs.map s1.heap) ∧
    (newPtrs.map (fun p => (s1.heap p).g)).getLast? = some 0

/-- A node with its parent link erased: what the copy loop of
`RebuildCirclePath` leaves of the node it copies. -/
def dropParent (n : CircleNode R) : CircleNode R := { n with parent := none }

/-- The nodes of the circle path, in order. -/
def pathNodes (s : HolonomicHeuristic R) : List (CircleNode R) :=
  s.circle_path.map s.heap

/-- The node at position `k` of the circle path. -/
def pathNode (s : HolonomicHeuristic R) (k : Nat) : CircleNode R :=
  s.heap (s.circle_path.getD k 0)

/-- The distance of a probe to the centre at position `k` of the circle path. -/
def probeDistance (env : Env R) (s : HolonomicHeuristic R) (p : Pose2D R) (k : Nat) : R :=
  Distance env p.position (pathNode s k).circle.position

/-- The states of the object that a caller can see: the state the constructor
leaves, and every state that a returning call of `UpdateHeuristic` leaves when
it starts in such a state. -/
inductive Reachable (env : Env R) : HolonomicHeuristic R → Prop
  | init (map : InternalGridMap R) : Reachable env (construct map)
  | step (fuel : Nat) (s s1 : HolonomicHeuristic R) (grid_map : InternalGridMap R)
      (start_ goal_ : Pose2D R) :
      Reachable env s → UpdateHeuristic env fuel s grid_map start_ goal_ = Outcome.ok s1 →
      Reachable env s1

/-- Lines 492-503 and 512-523 of `SpaceExploration`: the popped node is
processed if it is not explored, and skipped if it is. -/
def visit (proc : Nat → HolonomicHeuristic R → Outcome (Bool × HolonomicHeuristic R))
    (cn : Nat) (s : HolonomicHeuristic R) : Outcome (Bool × HolonomicHeuristic R) :=
  if (s.heap cn).explored = false then proc cn s else Outcome.ok (false, s)

/-- The states that the main loop of `SpaceExploration` passes through, in
order: `(true, s)` is the state at the loop test of line 483, `(false, s)` the
state at line 507, between the two halves of a round. The list ends where the
loop ends, a call of `ProcessNode` reports success or does not return, or the
fuel runs out. -/
def mainLoopPoints (env : Env R)
    (proc : Nat → HolonomicHeuristic R → Outcome (Bool × HolonomicHeuristic R)) :
    Nat → HolonomicHeuristic R → List (Bool × HolonomicHeuristic R)
  | 0, s => [(true, s)]
  | fuel + 1, s =>
    (true, s) ::
      (match popAt s.nearest_open (env.pickNearest fuel s.heap s.nearest_open) with
      | none => []
      | some (cn, q) =>
        match visit proc cn { s with nearest_open := q } with
        | Outcome.ok (false, s2) =>
          (false, s2) ::
            (match popAt s2.largest_open (env.pickLargest fuel s2.heap s2.largest_open) with
            | none => []
            | some (cn2, q2) =>
              match visit proc cn2 { s2 with largest_open := q2 } with
              | Outcome.ok (false, s4) => mainLoopPoints env proc fuel s4
              | _ => [])
        | _ => [])

/-- The states that the main loop of `SpaceExploration` passes through when the
method is called in state `s`. -/
def searchPoints (env : Env R) (fuel : Nat) (s : HolonomicHeuristic R) :
    List (Bool × HolonomicHeuristic R) :=
  mainLoopPoints env (ProcessNodeSearch env (explorationInit env s).1) fuel
    (explorationInit env s).2

/-- Every cell that the search started in `s0` has allocated and that is marked
explored is in the closed set. -/
def ExploredClosed (s0 s : HolonomicHeuristic R) : Prop :=
  ∀ p, s0.brk ≤ p → p < s.brk → (s.heap p).explored = true → p ∈ s.closed

/-- A property `I` of the state that the main loop of the search started in
`s0` keeps: it survives a pop from either queue and a call of `ProcessNode`
that reports no success. -/
structure LoopInvariant (env : Env R) (s0 : HolonomicHeuristic R)
    (I : HolonomicHeuristic R → Prop) : Prop where
  popN : ∀ (s : HolonomicHeuristic R) (q : List Nat), I s →
    (∀ p, p ∈ q → p ∈ s.nearest_open) → I { s with nearest_open := q }
  popL : ∀ (s : HolonomicHeuristic R) (q : List Nat), I s →
    (∀ p, p ∈ q → p ∈ s.largest_open) → I { s with largest_open := q }
  proc : ∀ (s s1 : HolonomicHeuristic R) (cn : Nat), SearchInv env s0 s → I s →
    SearchNode env s0 s cn → (s.heap cn).explored = false →
    ProcessNodeSearch env (s0.brk + 1) cn s = Outcome.ok (false, s1) → I s1

/-- The length of the polyline through the centres of the cells of a list: the
sum of the distances between consecutive centres. -/
def chordLength (env : Env R) (heap : Nat → CircleNode R) : List Nat → R
  | [] => 0
  | [_] => 0
  | a :: b :: rest =>
    Distance env (heap a).circle.position (heap b).circle.position +
      chordLength env heap (b :: rest)

/-- No node of the closed set overlaps the goal circle of the search started in
`s0` under factor `0.5`. -/
def GoalFree (env : Env R) (s0 s : HolonomicHeuristic R) : Prop :=
  ∀ p, p ∈ s.closed →
    Overlap env (s.heap p).circle
      ⟨s0.goal.position, s0.grid.GetObstacleDistance s0.goal.position⟩ (1 / 2) = false

/-- A bound on the length of the closed set of a search whose nodes fall into
`k` classes (the unit cells of the map, and the root); `c` is the allocation
counter at the start of the main loop. -/
def closedBound (c : Nat) : Nat → Nat
  | 0 => 0
  | k + 1 => c + 38 * (closedBound c k + 1)

/-- The search started in `s0` has allocated at most `37` cells for each node
of the closed set, besides the root and the goal node, and the children of the
closed node at position `i` have addresses below `s0.brk + 2 + 37 (i + 1)`. -/
def AllocBound (s0 s : HolonomicHeuristic R) : Prop :=
  s.brk ≤ s0.brk + 2 + 37 * s.closed.length ∧
  ∀ p q l1 l2, s0.brk ≤ p → p < s.brk → (s.heap p).parent = some q →
    s.closed = l1 ++ q :: l2 → p < s0.brk + 2 + 37 * (l1.length + 1)

/-- The class of a cell for the counting of the closed set: the unit cell of
the map that holds the centre of its circle, and a class of its own for the
root of the search started in `s0`. -/
def cellClass [FloorRing R] (s0 s : HolonomicHeuristic R) (p : Nat) : Option (ℤ × ℤ) :=
  if p = s0.brk then none
  else some (⌊(s.heap p).circle.position.x⌋, ⌊(s.heap p).circle.position.y⌋)

end Model

/-- A flat field over any ordered field: every point is valid and has clearance
`2`; the start is `(0, 0)` and the goal `(1, 0)`. -/
def flatField (R : Type) [LinearOrderedField R] : HolonomicHeuristic R :=
  { construct ⟨fun _ => true, fun _ => 2, true⟩ with
    start := ⟨⟨0, 0⟩, 0⟩, goal := ⟨⟨1, 0⟩, 0⟩ }

/-! ## Concrete environments and inputs over the rationals -/

/-- The position of the first element of a queue whose key is least. -/
def pickMin (key : CircleNode ℚ → ℚ) (heap : Nat → CircleNode ℚ) : List Nat → Nat
  | [] => 0
  | p :: rest =>
    (rest.foldl (fun (acc : Nat × Nat × ℚ) c =>
      if key (heap c) < acc.2.2 then (acc.1 + 1, acc.1, key (heap c))
      else (acc.1 + 1, acc.2.1, acc.2.2)) (1, 0, key (heap p))).2.1

/-- The integer square root by bits: `r` grows by `2 ^ b` whenever the square
stays below `n`. -/
def sqrtBits (n : Nat) : Nat → Nat → Nat
  | 0, r => r
  | b + 1, r => if (r + 2 ^ b) * (r + 2 ^ b) ≤ n then sqrtBits n b (r + 2 ^ b) else sqrtBits n b r

/-- The integer square root, rounded down, of a number below `2 ^ 256`. -/
def sqrtFloor (n : Nat) : Nat := sqrtBits n 128 0

/-- A rational stand-in for `sqrt`: exact on the squares of rationals, and the
root rounded down to six decimals elsewhere. -/
def sqrtQ (q : ℚ) : ℚ :=
  if ((sqrtFloor q.num.toNat : ℚ) / (sqrtFloor q.den : ℚ)) *
      ((sqrtFloor q.num.toNat : ℚ) / (sqrtFloor q.den : ℚ)) = q
  then (sqrtFloor q.num.toNat : ℚ) / (sqrtFloor q.den : ℚ)
  else (sqrtFloor (Int.toNat (Int.floor (q * 1000000000000))) : ℚ) / 1000000

/-- Rational approximations of `tan (5 k°)` for `k < 18`. -/
def tanHalfQ : Nat → ℚ
  | 0 => 0 | 1 => 7 / 80 | 2 => 3 / 17 | 3 => 15 / 56 | 4 => 4 / 11 | 5 => 7 / 15
  | 6 => 15 / 26 | 7 => 7 / 10 | 8 => 21 / 25 | 9 => 1 | 10 => 25 / 21 | 11 => 10 / 7
  | 12 => 26 / 15 | 13 => 15 / 7 | 14 => 11 / 4 | 15 => 56 / 15 | 16 => 17 / 3 | _ => 80 / 7

/-- A rational point of the unit circle in the direction `10 k°`, exact at the
quarter turns and off by less than a tenth of a degree elsewhere. -/
def unitQ (k : Nat) : ℚ × ℚ :=
  let j := k % 36
  let t := tanHalfQ (j % 18)
  let c := (1 - t * t) / (1 + t * t)
  let d := 2 * t / (1 + t * t)
  if j < 18 then (c, d) else (-c, -d)

/-- The sample number of an angle measured in units of ten degrees. -/
def sampleQ (a : ℚ) : Nat := Int.toNat (Int.floor a)

/-- A rational environment. Angles are measured in units of ten degrees
(`M_PI = 18`), so that the sample angles of `GetChildren` are `0, 1, …, 36`;
`cos` and `sin` are the coordinates of `unitQ`; the queues follow the orders
the spec describes, least `f` and greatest radius, the earliest pushed first
among equals. -/
def envQ : Env ℚ :=
  { sqrt := sqrtQ
    cos := fun a => (unitQ (sampleQ a)).1
    sin := fun a => (unitQ (sampleQ a)).2
    M_PI := 18
    pickNearest := fun _ heap q => pickMin (fun n => n.f) heap q
    pickLargest := fun _ heap q => pickMin (fun n => - n.circle.r) heap q }

/-- A node of a hand-made circle path: centre `(x, 0)`, radius five, cost `g`. -/
def lineNode (x g : ℚ) (parent : Option Nat) : CircleNode ℚ :=
  ⟨⟨⟨x, 0⟩, 5⟩, 5, g, 0, parent, false⟩

/-- The circle path of three collinear circles at `(0,0)`, `(10,0)`, `(20,0)`
with costs `0`, `10`, `20`. -/
def threeCircles : HolonomicHeuristic ℚ :=
  { grid := ⟨fun _ => true, fun _ => 5, false⟩
    start := ⟨⟨0, 0⟩, 0⟩, goal := ⟨⟨20, 0⟩, 0⟩
    circle_path := [0, 1, 2], nearest_open := [], largest_open := [], closed := []
    heap := fun a => if a = 0 then lineNode 0 0 none else if a = 1 then lineNode 10 10 (some 0)
      else lineNode 20 20 (some 1)
    brk := 3 }

/-- A dead-end corridor: the map spans `0 ≤ x ≤ 3`, walls run along
`y = ± 11/5`, and the clearance of a point is its distance to the nearer wall. -/
def corridor : InternalGridMap ℚ :=
  { isValidPoint := fun p => decide (0 ≤ p.x ∧ p.x ≤ 3 ∧ |p.y| < 11 / 5)
    GetObstacleDistance := fun p => max 0 (11 / 5 - |p.y|)
    HasChanged := true }

/-- The state in which `UpdateHeuristic` calls `SpaceExploration` on the
corridor: start `(0, 0)`, goal `(0, 10)` behind the wall. -/
def corridorState : HolonomicHeuristic ℚ :=
  { construct corridor with start := ⟨⟨0, 0⟩, 0⟩, goal := ⟨⟨0, 10⟩, 0⟩ }

/-- An open field with a single post at `(-2, 0)`: every point is valid and the
clearance of a point is its distance to the post. -/
def lonePost : InternalGridMap ℚ :=
  { isValidPoint := fun _ => true
    GetObstacleDistance := fun p => Distance envQ p ⟨-2, 0⟩
    HasChanged := true }

/-- The state in which `UpdateHeuristic` calls `SpaceExploration` on the field
with the post: start `(0, 0)` with clearance `2`, goal `(8, 0)` with clearance
`10`. -/
def lonePostState : HolonomicHeuristic ℚ :=
  { construct lonePost with start := ⟨⟨0, 0⟩, 0⟩, goal := ⟨⟨8, 0⟩, 0⟩ }

/-- The state right before `ProcessNode` calls `RebuildCirclePath` when the
root of the field with the post overlaps the goal, without the children of the
root: cell `0` is the closed root, cell `1` the goal node with the root as
parent. -/
def twoNodes : HolonomicHeuristic ℚ :=
  { grid := lonePost
    start := ⟨⟨0, 0⟩, 0⟩, goal := ⟨⟨8, 0⟩, 0⟩
    circle_path := [], nearest_open := [], largest_open := [], closed := [0]
    heap := fun a => if a = 0 then ⟨⟨⟨0, 0⟩, 2⟩, 2, 0, 8, none, true⟩
      else ⟨⟨⟨8, 0⟩, 10⟩, 10, 0, 0, some 0, false⟩
    brk := 2 }

/-- A wide flat field over any ordered field: every point is valid and has
clearance `2`; the start is `(0, 0)` and the goal `(100, 0)`, out of reach of
the root circle. -/
def wideField (R : Type) [LinearOrderedField R] : HolonomicHeuristic R :=
  { construct ⟨fun _ => true, fun _ => 2, true⟩ with
    start := ⟨⟨0, 0⟩, 0⟩, goal := ⟨⟨100, 0⟩, 0⟩ }

/-- The state in which `UpdateHeuristic` calls `SpaceExploration` on the
corridor when the start `(0, 11/5)` lies on the wall, where the clearance is
`0`; the goal is `(0, 10)`. -/
def blockedState : HolonomicHeuristic ℚ :=
  { construct corridor with start := ⟨⟨0, 11 / 5⟩, 0⟩, goal := ⟨⟨0, 10⟩, 0⟩ }

/-- A bounded field over any ordered field: the valid points are those of the
square `|x|, |y| ≤ 50`, the clearance is `2` everywhere; the start is `(0, 0)`
and the goal `(40, 0)`. -/
def boxField (R : Type) [LinearOrderedField R] : HolonomicHeuristic R :=
  { construct ⟨fun v => decide (|v.x| ≤ 50 ∧ |v.y| ≤ 50), fun _ => 2, true⟩ with
    start := ⟨⟨0, 0⟩, 0⟩, goal := ⟨⟨40, 0⟩, 0⟩ }

/-- The number of binary digits of `n`, found by halving at most `fuel` times. -/
def bitCount : Nat → Nat → Nat
  | 0, _ => 0
  | fuel + 1, n => if n = 0 then 0 else bitCount fuel (n / 2) + 1

/-- The integer square root of any natural number, rounded down: `sqrtBits`
with as many bits as the number has. -/
def sqrtNat (n : Nat) : Nat := sqrtBits n (bitCount n n) 0

/-- A rational stand-in for `sqrt` that is exact on the square of every
rational, and `sqrtQ` elsewhere. -/
def sqrtExactQ (q : ℚ) : ℚ :=
  if ((sqrtNat q.num.toNat : ℚ) / (sqrtNat q.den : ℚ)) *
      ((sqrtNat q.num.toNat : ℚ) / (sqrtNat q.den : ℚ)) = q
  then (sqrtNat q.num.toNat : ℚ) / (sqrtNat q.den : ℚ)
  else sqrtQ q

/-- The rational environment `envQ` with the square root `sqrtExactQ`. -/
def envExact : Env ℚ := { envQ with sqrt := sqrtExactQ }

/-- A corridor with the goal at its far end: the map spans `0 ≤ x ≤ 6`, walls
run along `y = ± 11/5`, and the clearance of a point is its distance to the
nearer wall. -/
def openCorridor : InternalGridMap ℚ :=
  { isValidPoint := fun p => decide (0 ≤ p.x ∧ p.x ≤ 6 ∧ |p.y| < 11 / 5)
    GetObstacleDistance := fun p => max 0 (11 / 5 - |p.y|)
    HasChanged := true }

/-- The state in which `UpdateHeuristic` calls `SpaceExploration` on the open
corridor: start `(0, 0)`, goal `(6, 0)`, two circles away. -/
def openCorridorState : HolonomicHeuristic ℚ :=
  { construct openCorridor with start := ⟨⟨0, 0⟩, 0⟩, goal := ⟨⟨6, 0⟩, 0⟩ }

/-- A longer dead-end corridor: the map spans `0 ≤ x ≤ 5`, walls run along
`y = ± 11/5`, and the clearance of a point is its distance to the nearer wall. -/
def longCorridor : InternalGridMap ℚ :=
  { isValidPoint := fun p => decide (0 ≤ p.x ∧ p.x ≤ 5 ∧ |p.y| < 11 / 5)
    GetObstacleDistance := fun p => max 0 (11 / 5 - |p.y|)
    HasChanged := true }

/-- The state in which `UpdateHeuristic` calls `SpaceExploration` on the longer
corridor: start `(0, 0)`, goal `(0, 10)` behind the wall. -/
def longCorridorState : HolonomicHeuristic ℚ :=
  { construct longCorridor with start := ⟨⟨0, 0⟩, 0⟩, goal := ⟨⟨0, 10⟩, 0⟩ }

/-- A map that reports the clearance `0` on the half plane `x ≤ 0` and `10`
elsewhere, with the start `(0, 0)` and the goal `(1, 0)`: the clearance of the
goal exceeds its distance to the blocked start. -/
def blockedNear : HolonomicHeuristic ℚ :=
  { construct ⟨fun _ => true, fun p => if p.x ≤ 0 then 0 else 10, true⟩ with
    start := ⟨⟨0, 0⟩, 0⟩, goal := ⟨⟨1, 0⟩, 0⟩ }

/-! ## The search: expansion -/

section Expansion

variable {R : Type} [LinearOrderedField R]

theorem getChildrenLoop_post (env : Env R) (cn : Nat) (x y r : R) :
    ∀ (fuel k : Nat) (s : HolonomicHeuristic R) (circles cs : List Nat)
      (s1 : HolonomicHeuristic R), cn < s.brk →
      getChildrenLoop env cn x y r fuel (sampleAngle env k) s circles = some (cs, s1) →
      ChildrenPost env cn ⟨⟨x, y⟩, r⟩ s s1 circles cs := by
  intro fuel
  induction fuel with
  | zero => intro k s circles cs s1 _ h; simp [getChildrenLoop] at h
  | succ fuel ih =>
    intro k s circles cs s1 hcn h
    have hstep : sampleAngle env k + piece_angle env = sampleAngle env (k + 1) := rfl
    simp only [getChildrenLoop] at h
    split at h
    · next hle =>
      rw [hstep] at h
      split at h
      · next hvalid =>
        split at h
        · next hbig =>
          have hpost := ih (k + 1) _ _ _ _ (by simp only [alloc]; omega) h
          have hne : cn ≠ s.brk := Nat.ne_of_lt hcn
          have hb1 : s.brk + 1 ≤ s1.brk := hpost.brk_le
          refine ⟨hpost.grid_eq, hpost.start_eq, hpost.goal_eq, hpost.path_eq, hpost.nearest_eq,
            hpost.largest_eq, hpost.closed_eq, by omega, ?_, ?_, ?_⟩
          · intro p hp
            rw [hpost.old_heap p (by simp only [alloc]; omega)]
            simp only [alloc]
            exact Function.update_noteq (Nat.ne_of_lt hp) _ _
          · rw [hpost.children_eq]
            have hk : s1.brk - s.brk = (s1.brk - (s.brk + 1)) + 1 := by omega
            rw [hk, List.range'_succ]
            simp [alloc]
          · intro c hc1 hc2
            rcases Nat.eq_or_lt_of_le hc1 with heq | hlt
            · subst heq
              rw [hpost.old_heap s.brk (by simp only [alloc]; omega)]
              have hcell : (alloc s ⟨⟨⟨x + r * env.cos (sampleAngle env k),
                  y + r * env.sin (sampleAngle env k)⟩,
                  s.grid.GetObstacleDistance ⟨x + r * env.cos (sampleAngle env k),
                    y + r * env.sin (sampleAngle env k)⟩ - 1 / 4⟩,
                  s.grid.GetObstacleDistance ⟨x + r * env.cos (sampleAngle env k),
                    y + r * env.sin (sampleAngle env k)⟩ - 1 / 4,
                  r + (s.heap cn).g,
                  Distance env ⟨x + r * env.cos (sampleAngle env k),
                    y + r * env.sin (sampleAngle env k)⟩ s.goal.position + (r + (s.heap cn).g),
                  some cn, false⟩).heap s.brk = _ := Function.update_same _ _ _
              rw [hcell]
              exact ⟨⟨⟨⟨k, hle, rfl⟩, hvalid, rfl, hbig⟩, rfl, rfl, rfl⟩, rfl, rfl⟩
            · have := hpost.child c (by simp only [alloc]; omega) hc2
              simp only [alloc, Function.update_noteq hne] at this
              exact this
        · exact ih (k + 1) _ _ _ _ hcn h
      · exact ih (k + 1) _ _ _ _ hcn h
    · simp only [Option.some.injEq, Prod.mk.injEq] at h
      obtain ⟨h1, h2⟩ := h
      subst h1; subst h2
      refine ⟨rfl, rfl, rfl, rfl, rfl, rfl, rfl, le_refl _, fun _ _ => rfl, by simp, ?_⟩
      intro c hc1 hc2
      omega

theorem GetChildren_post (env : Env R) (s s1 : HolonomicHeuristic R) (cn : Nat)
    (cs : List Nat) (hcn : cn < s.brk) (h : GetChildren env s cn = some (cs, s1)) :
    ChildrenPost env cn (s.heap cn).circle s s1 [] cs :=
  getChildrenLoop_post env cn _ _ _ 38 0 s [] cs s1 hcn h

theorem sampleAngle_eq (env : Env R) (k : Nat) :
    sampleAngle env k = (k : R) * piece_angle env := by
  induction k with
  | zero => simp [sampleAngle]
  | succ k ih => simp only [sampleAngle, ih, Nat.cast_succ]; ring

theorem sampleAngle_le_twopi (env : Env R) (hpi : 0 < env.M_PI) (k : Nat) :
    sampleAngle env k ≤ twopi env ↔ k ≤ 36 := by
  have h2 : 0 < twopi env := by unfold twopi; linarith
  rw [sampleAngle_eq]
  unfold piece_angle
  constructor
  · intro h
    have h1 : (k : R) * twopi env ≤ 36 * twopi env := by
      have := mul_le_mul_of_nonneg_left h (by norm_num : (0 : R) ≤ 36)
      calc (k : R) * twopi env = 36 * ((k : R) * (twopi env / 36)) := by ring
        _ ≤ 36 * twopi env := this
    have h3 : (k : R) ≤ 36 := le_of_mul_le_mul_right h1 h2
    exact_mod_cast h3
  · intro h
    have h3 : (k : R) ≤ 36 := by exact_mod_cast h
    calc (k : R) * (twopi env / 36) = ((k : R) * twopi env) / 36 := by ring
      _ ≤ (36 * twopi env) / 36 := by
        apply div_le_div_of_nonneg_right _ (by norm_num : (0 : R) ≤ 36)
        exact mul_le_mul_of_nonneg_right h3 (le_of_lt h2)
      _ = twopi env := by ring

theorem getChildrenLoop_run (env : Env R) (cn : Nat) (x y r : R) (n : Nat)
    (hin : ∀ j, j < n → sampleAngle env j ≤ twopi env)
    (hout : ¬ sampleAngle env n ≤ twopi env) :
    ∀ (fuel k : Nat) (s : HolonomicHeuristic R) (circles : List Nat),
      k ≤ n → n < k + fuel →
      ∃ cs s1 new, getChildrenLoop env cn x y r fuel (sampleAngle env k) s circles = some (cs, s1) ∧
        cs = circles ++ new ∧
        new.map (fun c => (s1.heap c).circle) =
          (List.range' k (n - k)).filterMap (candidateCircle env s.grid ⟨⟨x, y⟩, r⟩) ∧
        s1.grid = s.grid ∧ s.brk ≤ s1.brk ∧ (∀ p, p < s.brk → s1.heap p = s.heap p) := by
  intro fuel
  induction fuel with
  | zero => intro k s circles h1 h2; omega
  | succ fuel ih =>
    intro k s circles h1 h2
    have hstep : sampleAngle env k + piece_angle env = sampleAngle env (k + 1) := rfl
    rcases Nat.eq_or_lt_of_le h1 with heq | hlt
    · subst heq
      refine ⟨circles, s, [], ?_, by simp, by simp, rfl, le_refl _, fun _ _ => rfl⟩
      simp only [getChildrenLoop, hout, if_false]
    · have hle : sampleAngle env k ≤ twopi env := hin k hlt
      have hrange : List.range' k (n - k) = k :: List.range' (k + 1) (n - (k + 1)) := by
        have : n - k = (n - (k + 1)) + 1 := by omega
        rw [this, List.range'_succ]
      simp only [getChildrenLoop, hle, if_true, hstep]
      by_cases hvalid : s.grid.isValidPoint
          ⟨x + r * env.cos (sampleAngle env k), y + r * env.sin (sampleAngle env k)⟩ = true
      · by_cases hbig : s.grid.GetObstacleDistance
            ⟨x + r * env.cos (sampleAngle env k), y + r * env.sin (sampleAngle env k)⟩ - 1 / 4
              > 3 / 2
        · simp only [hvalid, hbig, if_true]
          obtain ⟨cs, s1, new, hrun, hcs, hmap, hgrid, hbrk, hold⟩ :=
            ih (k + 1) (alloc s ⟨⟨⟨x + r * env.cos (sampleAngle env k),
              y + r * env.sin (sampleAngle env k)⟩,
              s.grid.GetObstacleDistance ⟨x + r * env.cos (sampleAngle env k),
                y + r * env.sin (sampleAngle env k)⟩ - 1 / 4⟩,
              s.grid.GetObstacleDistance ⟨x + r * env.cos (sampleAngle env k),
                y + r * env.sin (sampleAngle env k)⟩ - 1 / 4,
              r + (s.heap cn).g,
              Distance env ⟨x + r * env.cos (sampleAngle env k),
                y + r * env.sin (sampleAngle env k)⟩ s.goal.position + (r + (s.heap cn).g),
              some cn, false⟩) (circles ++ [s.brk]) (by omega) (by omega)
          refine ⟨cs, s1, s.brk :: new, hrun, by rw [hcs]; simp, ?_, hgrid, ?_, ?_⟩
          · rw [hrange, List.filterMap_cons]
            have hcand : candidateCircle env s.grid ⟨⟨x, y⟩, r⟩ k =
                some ⟨⟨x + r * env.cos (sampleAngle env k), y + r * env.sin (sampleAngle env k)⟩,
                  s.grid.GetObstacleDistance ⟨x + r * env.cos (sampleAngle env k),
                    y + r * env.sin (sampleAngle env k)⟩ - 1 / 4⟩ := by
              simp only [candidateCircle, candidateCentre, hvalid, hbig, and_self, if_true]
            rw [hcand]
            simp only [List.map_cons]
            rw [hmap, hold s.brk (by simp only [alloc]; omega)]
            simp only [alloc, Function.update_same]
          · simp only [alloc] at hbrk; omega
          · intro p hp
            rw [hold p (by simp only [alloc]; omega)]
            simp only [alloc]
            exact Function.update_noteq (Nat.ne_of_lt hp) _ _
        · simp only [hvalid, hbig, if_true, if_false]
          obtain ⟨cs, s1, new, hrun, hcs, hmap, hgrid, hbrk, hold⟩ :=
            ih (k + 1) s circles (by omega) (by omega)
          refine ⟨cs, s1, new, hrun, hcs, ?_, hgrid, hbrk, hold⟩
          rw [hrange, List.filterMap_cons]
          have hcand : candidateCircle env s.grid ⟨⟨x, y⟩, r⟩ k = none := by
            simp only [candidateCircle, candidateCentre, hvalid, hbig, and_false, if_false]
          rw [hcand]
          exact hmap
      · simp only [hvalid, if_false]
        obtain ⟨cs, s1, new, hrun, hcs, hmap, hgrid, hbrk, hold⟩ :=
          ih (k + 1) s circles (by omega) (by omega)
        refine ⟨cs, s1, new, hrun, hcs, ?_, hgrid, hbrk, hold⟩
        rw [hrange, List.filterMap_cons]
        have hcand : candidateCircle env s.grid ⟨⟨x, y⟩, r⟩ k = none := by
          simp [candidateCircle, candidateCentre, hvalid]
        rw [hcand]
        exact hmap

theorem candidateCircle_some (env : Env R) (grid : InternalGridMap R) (pc c : Circle R)
    (k : Nat) (h : candidateCircle env grid pc k = some c) :
    grid.isValidPoint c.position = true ∧
      c.r = grid.GetObstacleDistance c.position - 1 / 4 ∧ c.r > 3 / 2 := by
  unfold candidateCircle at h
  split at h
  · next hc =>
    simp only [Option.some.injEq] at h
    subst h
    exact ⟨hc.1, rfl, hc.2⟩
  · simp at h

theorem GetChildren_total (env : Env R) (s : HolonomicHeuristic R) (cn : Nat)
    (hpi : 0 < env.M_PI) : ∃ cs s1, GetChildren env s cn = some (cs, s1) := by
  obtain ⟨cs, s1, _, hrun, _⟩ :=
    getChildrenLoop_run env cn (s.heap cn).circle.position.x (s.heap cn).circle.position.y
      (s.heap cn).circle.r 37
      (fun j hj => (sampleAngle_le_twopi env hpi j).mpr (by omega))
      (fun h => absurd ((sampleAngle_le_twopi env hpi 37).mp h) (by omega))
      38 0 s [] (by omega) (by omega)
  exact ⟨cs, s1, hrun⟩

/-- C7. With `M_PI` positive, `GetChildren` returns, and the circles of the
children it emits are, in order, the candidates of the thirty-seven rounds
whose centre is a valid point and whose clearance less `0.25` exceeds `1.5`; a
round whose centre is invalid or whose shrunk clearance is at most `1.5`
emits nothing. So every child has a valid centre, the radius
`GetObstacleDistance(centre) − 0.25`, and a radius above `1.5`. -/
theorem GetChildren_emits (env : Env R) (s : HolonomicHeuristic R) (cn : Nat)
    (hpi : 0 < env.M_PI) :
    ∃ cs s1, GetChildren env s cn = some (cs, s1) ∧
      cs.map (fun c => (s1.heap c).circle) =
        (List.range 37).filterMap (candidateCircle env s.grid (s.heap cn).circle) ∧
      (∀ c, c ∈ cs → s.grid.isValidPoint (s1.heap c).circle.position = true ∧
        (s1.heap c).circle.r = s.grid.GetObstacleDistance (s1.heap c).circle.position - 1 / 4 ∧
        (s1.heap c).circle.r > 3 / 2) := by
  obtain ⟨cs, s1, new, hrun, hcs, hmap, _, _, _⟩ :=
    getChildrenLoop_run env cn (s.heap cn).circle.position.x (s.heap cn).circle.position.y
      (s.heap cn).circle.r 37
      (fun j hj => (sampleAngle_le_twopi env hpi j).mpr (by omega))
      (fun h => absurd ((sampleAngle_le_twopi env hpi 37).mp h) (by omega))
      38 0 s [] (by omega) (by omega)
  simp only [List.nil_append] at hcs
  subst hcs
  have hmap2 : cs.map (fun c => (s1.heap c).circle) =
      (List.range 37).filterMap (candidateCircle env s.grid (s.heap cn).circle) := by
    rw [hmap, List.range_eq_range']
  refine ⟨cs, s1, hrun, hmap2, ?_⟩
  intro c hc
  have hmem : (s1.heap c).circle ∈ cs.map (fun c => (s1.heap c).circle) :=
    List.mem_map.mpr ⟨c, hc, rfl⟩
  rw [hmap2, List.mem_filterMap] at hmem
  obtain ⟨k, _, hk⟩ := hmem
  exact candidateCircle_some env s.grid _ _ k hk

theorem notExistScan_eq_true_iff (env : Env R) (heap : Nat → CircleNode R) (cn : Nat)
    (l : List Nat) :
    notExistScan env heap cn l = true ↔
      ∀ t, t ∈ l → some t ≠ (heap cn).parent →
        Overlap env (heap cn).circle (heap t).circle (1 / 10) = false := by
  induction l with
  | nil => simp [notExistScan]
  | cons tmp rest ih =>
    simp only [notExistScan]
    split
    · next hhit =>
      constructor
      · intro h; exact absurd h (by simp)
      · intro h
        have := h tmp (List.mem_cons_self _ _) hhit.1
        rw [hhit.2] at this
        exact absurd this (by simp)
    · next hmiss =>
      rw [ih]
      constructor
      · intro h t ht hne
        rcases List.mem_cons.mp ht with heq | hmem
        · subst heq
          by_contra hov
          exact hmiss ⟨hne, by simpa using hov⟩
        · exact h t hmem hne
      · intro h t ht hne
        exact h t (List.mem_cons_of_mem _ ht) hne

theorem exploreLoop_post (env : Env R) :
    ∀ (children : List Nat) (s : HolonomicHeuristic R),
      (exploreLoop env children s).heap = s.heap ∧
      (exploreLoop env children s).brk = s.brk ∧
      (exploreLoop env children s).grid = s.grid ∧
      (exploreLoop env children s).start = s.start ∧
      (exploreLoop env children s).goal = s.goal ∧
      (exploreLoop env children s).circle_path = s.circle_path ∧
      (exploreLoop env children s).closed = s.closed ∧
      (exploreLoop env children s).nearest_open =
        s.nearest_open ++ children.filter (fun c => NotExist env s c) ∧
      (exploreLoop env children s).largest_open =
        s.largest_open ++ children.filter (fun c => NotExist env s c) := by
  intro children
  induction children with
  | nil => intro s; simp [exploreLoop]
  | cons child rest ih =>
    intro s
    by_cases hne : NotExist env s child = true
    · have hstep : exploreLoop env (child :: rest) s = exploreLoop env rest
          { s with nearest_open := s.nearest_open ++ [child],
                   largest_open := s.largest_open ++ [child] } := by
        rw [exploreLoop, if_pos hne]
      have hfilter : (child :: rest).filter (fun c => NotExist env s c) =
          child :: rest.filter (fun c => NotExist env s c) := by
        rw [List.filter_cons, if_pos hne]
      obtain ⟨h1, h2, h3, h4, h5, h6, h7, h8, h9⟩ := ih
        { s with nearest_open := s.nearest_open ++ [child],
                 largest_open := s.largest_open ++ [child] }
      rw [hstep, hfilter]
      refine ⟨h1, h2, h3, h4, h5, h6, h7, ?_, ?_⟩
      · rw [h8]; simp [NotExist]
      · rw [h9]; simp [NotExist]
    · have hstep : exploreLoop env (child :: rest) s = exploreLoop env rest s := by
        rw [exploreLoop, if_neg hne]
      have hfilter : (child :: rest).filter (fun c => NotExist env s c) =
          rest.filter (fun c => NotExist env s c) := by
        rw [List.filter_cons, if_neg hne]
      rw [hstep, hfilter]
      exact ih s

theorem ExploreCircleNode_post (env : Env R) (cn : Nat) (s s1 : HolonomicHeuristic R)
    (hcn : cn < s.brk) (h : ExploreCircleNode env cn s = some s1) :
    ExplorePost env cn s s1 := by
  unfold ExploreCircleNode at h
  cases hg : GetChildren env s cn with
  | none => rw [hg] at h; simp at h
  | some r =>
    obtain ⟨cs, sG⟩ := r
    rw [hg] at h
    simp only [Option.some.injEq] at h
    have hpost := GetChildren_post env s sG cn cs hcn hg
    obtain ⟨e1, e2, e3, e4, e5, e6, e7, e8, e9⟩ := exploreLoop_post env cs sG
    rw [h] at e1 e2 e3 e4 e5 e6 e7 e8 e9
    have hcs : cs = List.range' s.brk (s1.brk - s.brk) := by
      rw [hpost.children_eq, e2]; simp
    have hne : ∀ c, NotExist env sG c = NotExist env s1 c := by
      intro c; simp only [NotExist, e1, e7]
    refine ⟨e3.trans hpost.grid_eq, e4.trans hpost.start_eq, e5.trans hpost.goal_eq,
      e6.trans hpost.path_eq, e7.trans hpost.closed_eq, by rw [e2]; exact hpost.brk_le, ?_, ?_,
      ?_, ?_⟩
    · intro p hp; rw [e1]; exact hpost.old_heap p hp
    · intro c hc1 hc2
      rw [e1]
      exact hpost.child c hc1 (by rw [← e2]; exact hc2)
    · rw [e8, hpost.nearest_eq, ← hcs]
      congr 1
      apply List.filter_congr
      intro c _
      exact hne c
    · rw [e9, hpost.largest_eq, ← hcs]
      congr 1
      apply List.filter_congr
      intro c _
      exact hne c

end Expansion

/-! ## The search: path rebuild -/

section Rebuild

variable {R : Type} [LinearOrderedField R]

theorem IsChain_congr (h1 h2 : Nat → CircleNode R) :
    ∀ (ch : List Nat) (cur : Option Nat),
      (∀ p, p ∈ ch → (h1 p).parent = (h2 p).parent) → IsChain h1 cur ch → IsChain h2 cur ch := by
  intro ch
  induction ch with
  | nil => intro cur _ h; cases cur <;> simp [IsChain] at h ⊢
  | cons c rest ih =>
    intro cur hp h
    cases cur with
    | none => simp [IsChain] at h
    | some p =>
      simp only [IsChain] at h ⊢
      obtain ⟨hpc, hrest⟩ := h
      subst hpc
      refine ⟨rfl, ?_⟩
      rw [← hp p (List.mem_cons_self _ _)]
      exact ih _ (fun q hq => hp q (List.mem_cons_of_mem _ hq)) hrest

theorem rebuildWalk_chain (env : Env R) :
    ∀ (ch : List Nat) (cur : Option Nat) (tmp : Nat) (l : List Nat)
      (heap : Nat → CircleNode R) (fuel : Nat),
      IsChain heap cur ch → ch.Nodup → tmp ∉ ch → ch.length < fuel →
      ∃ heap1, rebuildWalk env fuel cur tmp l heap = some (ch.reverse ++ l, heap1) ∧
        (∀ p, p ∉ ch → heap1 p = heap p) ∧ (∀ p, SameButCost (heap1 p) (heap p)) ∧
        List.Chain (CostStep env) (heap1 tmp) (ch.map heap1) := by
  intro ch
  induction ch with
  | nil =>
    intro cur tmp l heap fuel hch _ _ hfuel
    cases cur with
    | some p => simp [IsChain] at hch
    | none =>
      obtain ⟨f, rfl⟩ : ∃ f, fuel = f + 1 := ⟨fuel - 1, by simp at hfuel; omega⟩
      exact ⟨heap, by simp [rebuildWalk], fun _ _ => rfl,
        fun _ => ⟨rfl, rfl, rfl, rfl, rfl⟩, by simp⟩
  | cons c rest ih =>
    intro cur tmp l heap fuel hch hnd htmp hfuel
    cases cur with
    | none => simp [IsChain] at hch
    | some p =>
      simp only [IsChain] at hch
      obtain ⟨hpc, hrest⟩ := hch
      subst hpc
      obtain ⟨f, rfl⟩ : ∃ f, fuel = f + 1 := ⟨fuel - 1, by simp at hfuel; omega⟩
      have hnd2 := List.nodup_cons.mp hnd
      have htmp2 : tmp ≠ p := fun h => htmp (by rw [h]; exact List.mem_cons_self _ _)
      obtain ⟨heapA, hA⟩ : ∃ h : Nat → CircleNode R, h = Function.update heap p { heap p with
          g := Distance env (heap tmp).circle.position (heap p).circle.position + (heap tmp).g } :=
        ⟨_, rfl⟩
      have hAp : heapA p = { heap p with
          g := Distance env (heap tmp).circle.position (heap p).circle.position + (heap tmp).g } := by
        rw [hA, Function.update_same]
      have hAq : ∀ q, q ≠ p → heapA q = heap q := by
        intro q hq; rw [hA, Function.update_noteq hq]
      have hupd : ∀ q, SameButCost (heapA q) (heap q) := by
        intro q
        by_cases hq : q = p
        · subst hq; rw [hAp]; exact ⟨rfl, rfl, rfl, rfl, rfl⟩
        · rw [hAq q hq]; exact ⟨rfl, rfl, rfl, rfl, rfl⟩
      have hchain2 := IsChain_congr heap heapA
        rest (heap p).parent (fun q _ => ((hupd q).2.2.2.1).symm) hrest
      have hpar : (heapA p).parent = (heap p).parent := (hupd p).2.2.2.1
      obtain ⟨heap1, hrun, hframe, hsame, hcost⟩ := ih (heap p).parent p (p :: l) heapA f
        hchain2 hnd2.2 hnd2.1 (by simp at hfuel; omega)
      refine ⟨heap1, ?_, ?_, ?_, ?_⟩
      · simp only [rebuildWalk]
        rw [← hA, hpar, hrun]
        simp
      · intro q hq
        have hq1 : q ≠ p := fun h => hq (by rw [h]; exact List.mem_cons_self _ _)
        have hq2 : q ∉ rest := fun h => hq (List.mem_cons_of_mem _ h)
        rw [hframe q hq2, hAq q hq1]
      · intro q
        obtain ⟨a1, a2, a3, a4, a5⟩ := hsame q
        obtain ⟨b1, b2, b3, b4, b5⟩ := hupd q
        exact ⟨a1.trans b1, a2.trans b2, a3.trans b3, a4.trans b4, a5.trans b5⟩
      · rw [List.map_cons, List.chain_cons]
        refine ⟨?_, hcost⟩
        have h1 : heap1 p = heapA p := hframe p hnd2.1
        have h2 : heap1 tmp = heap tmp := by
          rw [hframe tmp (fun h => htmp (List.mem_cons_of_mem _ h)), hAq tmp htmp2]
        unfold CostStep
        rw [h1, h2, hAp]

theorem rebuildCopy_post :
    ∀ (l : List Nat) (par : Option Nat) (s : HolonomicHeuristic R),
      (∀ it, it ∈ l → it < s.brk) →
      (rebuildCopy l par s).circle_path = s.circle_path ++ List.range' s.brk l.length ∧
      (rebuildCopy l par s).brk = s.brk + l.length ∧
      (∀ p, p < s.brk → (rebuildCopy l par s).heap p = s.heap p) ∧
      (List.range' s.brk l.length).map (fun p => dropParent ((rebuildCopy l par s).heap p)) =
        l.map (fun p => dropParent (s.heap p)) ∧
      (rebuildCopy l par s).grid = s.grid ∧ (rebuildCopy l par s).start = s.start ∧
      (rebuildCopy l par s).goal = s.goal ∧
      (rebuildCopy l par s).nearest_open = s.nearest_open ∧
      (rebuildCopy l par s).largest_open = s.largest_open ∧
      (rebuildCopy l par s).closed = s.closed := by
  intro l
  induction l with
  | nil => intro par s _; simp [rebuildCopy]
  | cons it rest ih =>
    intro par s hlt
    have hit : it < s.brk := hlt it (List.mem_cons_self _ _)
    obtain ⟨h1, h2, h3, h4, h5, h6, h7, h8, h9, h10⟩ := ih (some s.brk)
      { alloc s { s.heap it with parent := par } with
        circle_path := (alloc s { s.heap it with parent := par }).circle_path ++ [s.brk] }
      (by
        intro j hj
        have := hlt j (List.mem_cons_of_mem _ hj)
        simp only [alloc]; omega)
    simp only [alloc] at h1 h2 h3 h4 h5 h6 h7 h8 h9 h10
    simp only [rebuildCopy, alloc]
    refine ⟨?_, ?_, ?_, ?_, h5, h6, h7, h8, h9, h10⟩
    · rw [h1, List.length_cons, List.range'_succ]; simp
    · rw [h2, List.length_cons]; omega
    · intro p hp
      rw [h3 p (by omega), Function.update_noteq (Nat.ne_of_lt hp)]
    · rw [List.length_cons, List.range'_succ, List.map_cons, List.map_cons, h4,
        h3 s.brk (by omega), Function.update_same]
      congr 1
      apply List.map_congr_left
      intro j hj
      have hj2 : j ≠ s.brk := Nat.ne_of_lt (hlt j (List.mem_cons_of_mem _ hj))
      rw [Function.update_noteq hj2]

theorem length_le_of_nodup_lt (l : List Nat) (n : Nat) (hnd : l.Nodup)
    (hlt : ∀ c, c ∈ l → c < n) : l.length ≤ n := by
  have hsub : l ⊆ List.range n := fun c hc => List.mem_range.mpr (hlt c hc)
  have := (List.subperm_of_subset hnd hsub).length_le
  simpa using this

theorem chain'_dropParent (env : Env R) (l : List (CircleNode R)) :
    List.Chain' (fun prev node => CostStep env node prev) (l.map dropParent) ↔
      List.Chain' (fun prev node => CostStep env node prev) l := by
  rw [List.chain'_map]
  exact Iff.rfl

/-- What `RebuildCirclePath` does when the parent links lead from `cn` through
the cells `ch` to `nullptr`: it returns; the circle path grows by
`ch.length + 1` fresh cells, which are copies, up to the parent link, of the
cells of `ch` in reverse order followed by the temporary copy of `cn` at the
old `brk`; along the new cells every node costs what its successor costs plus
the distance between the two centres; below the old `brk` only `g` changes,
and only in cells of `ch`. -/
theorem RebuildCirclePath_post (env : Env R) (s : HolonomicHeuristic R) (cn : Nat)
    (ch : List Nat) (hch : IsChain s.heap (some cn) ch) (hnd : ch.Nodup)
    (hlt : ∀ c, c ∈ ch → c < s.brk) :
    ∃ s1, RebuildCirclePath env cn s = some s1 ∧
      s1.circle_path = s.circle_path ++ List.range' (s.brk + 1) (ch.length + 1) ∧
      s1.brk = s.brk + 1 + (ch.length + 1) ∧
      (∀ p, p < s.brk → SameButCost (s1.heap p) (s.heap p)) ∧
      (∀ p, p < s.brk → p ∉ ch → s1.heap p = s.heap p) ∧
      s1.heap s.brk = s.heap cn ∧
      (List.range' (s.brk + 1) (ch.length + 1)).map (fun p => dropParent (s1.heap p)) =
        (ch.reverse ++ [s.brk]).map (fun p => dropParent (s1.heap p)) ∧
      List.Chain' (fun prev node => CostStep env node prev)
        ((List.range' (s.brk + 1) (ch.length + 1)).map s1.heap) ∧
      s1.grid = s.grid ∧ s1.start = s.start ∧ s1.goal = s.goal ∧
      s1.nearest_open = s.nearest_open ∧ s1.largest_open = s.largest_open ∧
      s1.closed = s.closed := by
  have hne : ∀ c, c ∈ ch → c ≠ s.brk := fun c hc => Nat.ne_of_lt (hlt c hc)
  have htmp : s.brk ∉ ch := fun h => hne _ h rfl
  have hchA : IsChain (alloc s (s.heap cn)).heap (some cn) ch :=
    IsChain_congr s.heap _ ch (some cn)
      (fun q hq => by simp only [alloc]; rw [Function.update_noteq (hne q hq)]) hch
  have hlen : ch.length < (alloc s (s.heap cn)).brk + 1 := by
    have := length_le_of_nodup_lt ch s.brk hnd hlt
    simp only [alloc]; omega
  obtain ⟨heapW, hrun, hframe, hsame, hcost⟩ :=
    rebuildWalk_chain env ch (some cn) s.brk [s.brk] (alloc s (s.heap cn)).heap
      ((alloc s (s.heap cn)).brk + 1) hchA hnd htmp hlen
  obtain ⟨sC, hsC⟩ : ∃ x : HolonomicHeuristic R,
      x = { alloc s (s.heap cn) with heap := heapW } := ⟨_, rfl⟩
  have eb : sC.brk = s.brk + 1 := by rw [hsC]; rfl
  have eh : sC.heap = heapW := by rw [hsC]
  have ep : sC.circle_path = s.circle_path := by rw [hsC]; rfl
  have hl : ∀ it, it ∈ ch.reverse ++ [s.brk] → it < sC.brk := by
    intro it hit
    rw [eb]
    rcases List.mem_append.mp hit with h1 | h1
    · have := hlt it (List.mem_reverse.mp h1); omega
    · simp at h1; omega
  obtain ⟨c1, c2, c3, c4, c5, c6, c7, c8, c9, c10⟩ :=
    rebuildCopy_post (ch.reverse ++ [s.brk]) none sC hl
  rw [eb] at c2 c3 c4
  rw [eb, ep] at c1
  rw [eh] at c3 c4
  simp only [List.length_append, List.length_reverse, List.length_singleton] at c1 c2 c4
  have hWtmp : heapW s.brk = s.heap cn := by
    rw [hframe s.brk htmp]; simp only [alloc, Function.update_same]
  have hWold : ∀ p, p < s.brk → SameButCost (heapW p) (s.heap p) := by
    intro p hp
    have := hsame p
    simp only [alloc, Function.update_noteq (Nat.ne_of_lt hp)] at this
    exact this
  have hres : RebuildCirclePath env cn s = some (rebuildCopy (ch.reverse ++ [s.brk]) none sC) := by
    simp only [RebuildCirclePath]
    rw [hrun, hsC]
  refine ⟨rebuildCopy (ch.reverse ++ [s.brk]) none sC, hres, c1, c2, ?_, ?_, ?_,
      ?_, ?_, ?_, ?_, ?_, ?_, ?_, ?_⟩
  · intro p hp
    rw [c3 p (by omega)]
    exact hWold p hp
  · intro p hp hpch
    rw [c3 p (by omega), hframe p hpch]
    simp only [alloc, Function.update_noteq (Nat.ne_of_lt hp)]
  · rw [c3 s.brk (by omega)]; exact hWtmp
  · rw [c4]
    apply List.map_congr_left
    intro p hp
    rw [c3 p (by have := hl p hp; omega)]
  · rw [← chain'_dropParent, List.map_map]
    have hfun : (dropParent ∘ (rebuildCopy (ch.reverse ++ [s.brk]) none sC).heap) =
        (fun p => dropParent ((rebuildCopy (ch.reverse ++ [s.brk]) none sC).heap p)) := rfl
    rw [hfun, c4]
    have hmm : (ch.reverse ++ [s.brk]).map (fun p => dropParent (heapW p)) =
        ((ch.reverse ++ [s.brk]).map heapW).map dropParent := by
      rw [List.map_map]; rfl
    rw [hmm, chain'_dropParent]
    have hrev : (ch.reverse ++ [s.brk]).map heapW = ((s.brk :: ch).map heapW).reverse := by
      simp
    rw [hrev, List.chain'_reverse]
    exact hcost
  · rw [c5, hsC]; rfl
  · rw [c6, hsC]; rfl
  · rw [c7, hsC]; rfl
  · rw [c8, hsC]; rfl
  · rw [c9, hsC]; rfl
  · rw [c10, hsC]; rfl

theorem IsChain_unique (heap : Nat → CircleNode R) :
    ∀ (l1 l2 : List Nat) (cur : Option Nat), IsChain heap cur l1 → IsChain heap cur l2 →
      l1 = l2 := by
  intro l1
  induction l1 with
  | nil =>
    intro l2 cur h1 h2
    cases cur with
    | some p => simp [IsChain] at h1
    | none =>
      cases l2 with
      | nil => rfl
      | cons c rest => simp [IsChain] at h2
  | cons c rest ih =>
    intro l2 cur h1 h2
    cases cur with
    | none => simp [IsChain] at h1
    | some p =>
      cases l2 with
      | nil => simp [IsChain] at h2
      | cons c2 rest2 =>
        simp only [IsChain] at h1 h2
        rw [← h1.1, ← h2.1, ih rest2 _ h1.2 h2.2]

theorem IsChain_suffix (heap : Nat → CircleNode R) (p : Nat) (b : List Nat) :
    ∀ (a : List Nat) (cur : Option Nat), IsChain heap cur (a ++ p :: b) →
      IsChain heap (some p) (p :: b) := by
  intro a
  induction a with
  | nil =>
    intro cur h
    cases cur with
    | none => simp [IsChain] at h
    | some q =>
      simp only [List.nil_append, IsChain] at h
      unfold IsChain
      exact ⟨rfl, by rw [← h.1]; exact h.2⟩
  | cons x a ih =>
    intro cur h
    cases cur with
    | none => simp [IsChain] at h
    | some q =>
      simp only [List.cons_append, IsChain] at h
      exact ih _ h.2

theorem IsChain_nodup (heap : Nat → CircleNode R) :
    ∀ (ch : List Nat) (cur : Option Nat), IsChain heap cur ch → ch.Nodup := by
  intro ch
  induction ch with
  | nil => intro _ _; exact List.nodup_nil
  | cons c rest ih =>
    intro cur h
    cases cur with
    | none => simp [IsChain] at h
    | some q =>
      have h0 := h
      simp only [IsChain] at h
      obtain ⟨hq, hrest⟩ := h
      subst hq
      rw [List.nodup_cons]
      refine ⟨?_, ih _ hrest⟩
      intro hmem
      obtain ⟨a, b, hab⟩ := List.append_of_mem hmem
      rw [hab] at hrest
      have hsuf := IsChain_suffix heap q b a _ hrest
      have := IsChain_unique heap _ _ _ h0 hsuf
      simp only [List.cons.injEq, true_and] at this
      have hlen := congrArg List.length this
      rw [hab] at hlen
      simp at hlen
      omega

theorem chain'_getD {α : Type} (f : Nat → α) (Rel : α → α → Prop) :
    ∀ (l : List Nat), List.Chain' Rel (l.map f) →
      ∀ i, i + 1 < l.length → Rel (f (l.getD i 0)) (f (l.getD (i + 1) 0)) := by
  intro l
  induction l with
  | nil => intro _ i hi; simp at hi
  | cons a rest ih =>
    intro h i hi
    cases rest with
    | nil => simp at hi
    | cons b rest2 =>
      simp only [List.map_cons, List.chain'_cons] at h
      cases i with
      | zero => simpa using h.1
      | succ j =>
        have := ih (by simpa using h.2) j (by simpa using hi)
        simpa using this

/-- C3, as amended. Called on a node whose parent links lead through the
allocated cells `ch` to `nullptr`, with an empty circle path,
`RebuildCirclePath` returns, and every node of the circle path except the last
costs what its successor costs plus the distance between the two centres:
`prev.g = node.g + euclidean(prev.centre, node.centre)`. -/
theorem RebuildCirclePath_cost_to_go (env : Env R) (s : HolonomicHeuristic R) (cn : Nat)
    (ch : List Nat) (hch : IsChain s.heap (some cn) ch) (hlt : ∀ c, c ∈ ch → c < s.brk)
    (hp : s.circle_path = []) :
    ∃ s1, RebuildCirclePath env cn s = some s1 ∧
      ∀ i, i + 1 < s1.circle_path.length →
        (pathNode s1 i).g = (pathNode s1 (i + 1)).g +
          Distance env (pathNode s1 i).circle.position (pathNode s1 (i + 1)).circle.position := by
  obtain ⟨s1, r1, r2, _, _, _, _, _, r8, _⟩ :=
    RebuildCirclePath_post env s cn ch hch (IsChain_nodup s.heap ch _ hch) hlt
  refine ⟨s1, r1, ?_⟩
  intro i hi
  rw [hp, List.nil_append] at r2
  rw [← r2] at r8
  have := chain'_getD s1.heap (fun prev node => CostStep env node prev) s1.circle_path r8 i hi
  unfold CostStep at this
  unfold pathNode
  rw [this, add_comm]
  congr 1
  unfold Distance Distance2
  congr 1
  ring

/-- C10, as amended. Called on a node `cn` whose parent links lead through the
allocated cells `ch` to `nullptr`, with an empty circle path,
`RebuildCirclePath` returns and installs the circles of the chain in
root-to-goal order followed by the circle of `cn` once more; the `g` values are
rewritten and the nodes are fresh copies. -/
theorem RebuildCirclePath_circles (env : Env R) (s : HolonomicHeuristic R) (cn : Nat)
    (ch : List Nat) (hch : IsChain s.heap (some cn) ch) (hlt : ∀ c, c ∈ ch → c < s.brk)
    (hp : s.circle_path = []) :
    ∃ s1, RebuildCirclePath env cn s = some s1 ∧
      (pathNodes s1).map (fun x => x.circle) =
        ch.reverse.map (fun p => (s.heap p).circle) ++ [(s.heap cn).circle] ∧
      s1.circle_path.length = ch.length + 1 ∧
      (∀ p, p ∈ s1.circle_path → s.brk ≤ p) := by
  obtain ⟨s1, r1, r2, _, r4, _, r6, r7, _, _⟩ :=
    RebuildCirclePath_post env s cn ch hch (IsChain_nodup s.heap ch _ hch) hlt
  rw [hp, List.nil_append] at r2
  refine ⟨s1, r1, ?_, by rw [r2]; simp, ?_⟩
  · have hmapc := congrArg (List.map (fun n : CircleNode R => n.circle)) r7
    simp only [List.map_map] at hmapc
    have hfn : ((fun n : CircleNode R => n.circle) ∘ fun p => dropParent (s1.heap p)) =
        (fun p => (s1.heap p).circle) := rfl
    rw [hfn] at hmapc
    rw [pathNodes, r2, List.map_map]
    have hfn2 : ((fun x : CircleNode R => x.circle) ∘ s1.heap) = (fun p => (s1.heap p).circle) :=
      rfl
    rw [hfn2, hmapc, List.map_append, List.map_cons, List.map_nil, r6]
    congr 1
    apply List.map_congr_left
    intro p hp1
    exact (r4 p (hlt p (List.mem_reverse.mp hp1))).1
  · intro p hp1
    rw [r2, List.mem_range'_1] at hp1
    omega

end Rebuild

/-! ## The search: the invariant of the main loop -/

section Invariant

variable {R : Type} [LinearOrderedField R]

theorem popAt_some (q : List Nat) (i c : Nat) (q1 : List Nat) (h : popAt q i = some (c, q1)) :
    c ∈ q ∧ (∀ p, p ∈ q1 → p ∈ q) ∧ q1.length + 1 = q.length := by
  cases q with
  | nil => simp [popAt] at h
  | cons p rest =>
    simp only [popAt, Option.some.injEq, Prod.mk.injEq] at h
    obtain ⟨h1, h2⟩ := h
    have hlt : i % (p :: rest).length < (p :: rest).length :=
      Nat.mod_lt _ (by simp)
    refine ⟨?_, ?_, ?_⟩
    · rw [← h1, List.getD_eq_getElem?_getD, List.getElem?_eq_getElem hlt]
      exact List.getElem_mem _
    · intro x hx
      rw [← h2] at hx
      exact (List.eraseIdx_sublist _ _).subset hx
    · rw [← h2, List.length_eraseIdx, if_pos hlt]
      simp

theorem append_singleton_split (l l1 l2 : List Nat) (x q : Nat)
    (h : l ++ [x] = l1 ++ q :: l2) (hq : q ∈ l) (hx : x ∉ l) :
    ∃ l3, l = l1 ++ q :: l3 := by
  rcases List.eq_nil_or_concat l2 with h2 | ⟨l3, y, h2⟩
  · subst h2
    have := List.append_inj' h (by simp)
    simp only [List.cons.injEq, and_true] at this
    exact absurd (this.2 ▸ hq) hx
  · subst h2
    have h3 : l ++ [x] = (l1 ++ q :: l3) ++ [y] := by rw [h]; simp
    exact ⟨l3, (List.append_inj' h3 (by simp)).1⟩

theorem append_singleton_last (l l1 l2 : List Nat) (x : Nat)
    (h : l ++ [x] = l1 ++ x :: l2) (hx : x ∉ l) : l1 = l ∧ l2 = [] := by
  rcases List.eq_nil_or_concat l2 with h2 | ⟨l3, y, h2⟩
  · subst h2
    exact ⟨((List.append_inj' h (by simp)).1).symm, rfl⟩
  · subst h2
    have h3 : l ++ [x] = (l1 ++ x :: l3) ++ [y] := by rw [h]; simp
    have h4 := (List.append_inj' h3 (by simp)).1
    exact absurd (by rw [h4]; simp) hx

theorem ChildGeom_congr (env : Env R) (grid : InternalGridMap R) (goalPos : Vector2D R)
    (pc : Circle R) (pg : R) (n m : CircleNode R) (h1 : m.circle = n.circle)
    (h2 : m.radius = n.radius) (h3 : m.g = n.g) (h4 : m.f = n.f)
    (h : ChildGeom env grid goalPos pc pg n) : ChildGeom env grid goalPos pc pg m := by
  unfold ChildGeom at h ⊢
  rw [h1, h2, h3, h4]
  exact h

theorem SearchNode_congr (env : Env R) (s0 s s1 : HolonomicHeuristic R) (p : Nat)
    (hb : s1.brk = s.brk) (hh : s1.heap = s.heap) (hc : s1.closed = s.closed)
    (h : SearchNode env s0 s p) : SearchNode env s0 s1 p := by
  unfold SearchNode at h ⊢
  rw [hb, hh, hc]
  exact h

theorem SearchInv_of_sub (env : Env R) (s0 s s1 : HolonomicHeuristic R)
    (hinv : SearchInv env s0 s)
    (hn : ∀ p, p ∈ s1.nearest_open → p ∈ s.nearest_open)
    (hl : ∀ p, p ∈ s1.largest_open → p ∈ s.largest_open)
    (hg : s1.grid = s.grid) (hs : s1.start = s.start) (hgo : s1.goal = s.goal)
    (hp : s1.circle_path = s.circle_path) (hc : s1.closed = s.closed)
    (hh : s1.heap = s.heap) (hb : s1.brk = s.brk) : SearchInv env s0 s1 := by
  refine ⟨hg.trans hinv.grid_eq, hs.trans hinv.start_eq, hgo.trans hinv.goal_eq,
    hp.trans hinv.path_eq, by rw [hb]; exact hinv.brk_ge, by rw [hh]; exact hinv.old_heap,
    by rw [hh]; exact hinv.root_circle, by rw [hh]; exact hinv.root_parent,
    by rw [hh]; exact hinv.root_g, by rw [hh]; exact hinv.root_f,
    by rw [hh]; exact hinv.goal_node, ?_, by rw [hc]; exact hinv.closed_nodup,
    by rw [hh, hc]; exact hinv.closed_explored, ?_⟩
  · intro p hp1
    apply SearchNode_congr env s0 s s1 p hb hh hc
    apply hinv.nodes
    rcases hp1 with h | h | h
    · exact Or.inl (hn p h)
    · exact Or.inr (Or.inl (hl p h))
    · exact Or.inr (Or.inr (hc ▸ h))
  · intro p hp1 hexp
    rw [hc]
    rw [hh] at hexp
    apply hinv.open_explored p _ hexp
    rcases hp1 with h | h
    · exact Or.inl (hn p h)
    · exact Or.inr (hl p h)

theorem SearchInv_close (env : Env R) (s0 s : HolonomicHeuristic R) (cn : Nat)
    (hinv : SearchInv env s0 s) (hcn : SearchNode env s0 s cn)
    (hexp : (s.heap cn).explored = false) :
    SearchInv env s0
      ({ s with
          closed := s.closed ++ [cn]
          heap := Function.update s.heap cn { s.heap cn with explored := true } } :
        HolonomicHeuristic R) ∧
    SearchNode env s0
      ({ s with
          closed := s.closed ++ [cn]
          heap := Function.update s.heap cn { s.heap cn with explored := true } } :
        HolonomicHeuristic R) cn := by
  obtain ⟨heapE, hE⟩ : ∃ h : Nat → CircleNode R,
      h = Function.update s.heap cn { s.heap cn with explored := true } := ⟨_, rfl⟩
  rw [← hE]
  have hEcn : heapE cn = { s.heap cn with explored := true } := by
    rw [hE, Function.update_same]
  have hEq : ∀ q, q ≠ cn → heapE q = s.heap q := by
    intro q hq; rw [hE, Function.update_noteq hq]
  have hcirc : ∀ q, (heapE q).circle = (s.heap q).circle := by
    intro q; by_cases hq : q = cn
    · subst hq; rw [hEcn]
    · rw [hEq q hq]
  have hrad : ∀ q, (heapE q).radius = (s.heap q).radius := by
    intro q; by_cases hq : q = cn
    · subst hq; rw [hEcn]
    · rw [hEq q hq]
  have hg : ∀ q, (heapE q).g = (s.heap q).g := by
    intro q; by_cases hq : q = cn
    · subst hq; rw [hEcn]
    · rw [hEq q hq]
  have hf : ∀ q, (heapE q).f = (s.heap q).f := by
    intro q; by_cases hq : q = cn
    · subst hq; rw [hEcn]
    · rw [hEq q hq]
  have hpar : ∀ q, (heapE q).parent = (s.heap q).parent := by
    intro q; by_cases hq : q = cn
    · subst hq; rw [hEcn]
    · rw [hEq q hq]
  have hcnot : cn ∉ s.closed := by
    intro hmem
    have := hinv.closed_explored cn hmem
    rw [hexp] at this
    exact absurd this (by simp)
  have hnode : ∀ p, SearchNode env s0 s p →
      SearchNode env s0 ({ s with closed := s.closed ++ [cn], heap := heapE } :
        HolonomicHeuristic R) p := by
    intro p hp
    obtain ⟨a1, a2, a3, a4⟩ := hp
    refine ⟨a1, a2, a3, ?_⟩
    rcases a4 with a4 | ⟨q, b1, b2, b3, b4, b5⟩
    · exact Or.inl a4
    · refine Or.inr ⟨q, (hpar p).trans b1, List.mem_append_left _ b2, b3, ?_, ?_⟩
      · show ChildGeom env s0.grid s0.goal.position (heapE q).circle (heapE q).g (heapE p)
        rw [hcirc q, hg q]
        exact ChildGeom_congr env _ _ _ _ _ _ (hcirc p) (hrad p) (hg p) (hf p) b4
      · intro l1 l2 hsplit t ht
        show Overlap env (heapE p).circle (heapE t).circle (1 / 10) = false
        have hqne : q ≠ cn := fun h => hcnot (h ▸ b2)
        obtain ⟨l3, hl3⟩ := append_singleton_split s.closed l1 l2 cn q hsplit b2 hcnot
        rw [hcirc p, hcirc t]
        exact b5 l1 l3 hl3 t ht
  refine ⟨⟨hinv.grid_eq, hinv.start_eq, hinv.goal_eq, hinv.path_eq, hinv.brk_ge, ?_, ?_, ?_, ?_,
    ?_, ?_, ?_, ?_, ?_, ?_⟩, hnode cn hcn⟩
  · intro p hp
    show heapE p = s0.heap p
    rw [hEq p (by have := hcn.1; omega)]
    exact hinv.old_heap p hp
  · show (heapE s0.brk).circle = _
    rw [hcirc]; exact hinv.root_circle
  · show (heapE s0.brk).parent = _
    rw [hpar]; exact hinv.root_parent
  · show (heapE s0.brk).g = _
    rw [hg]; exact hinv.root_g
  · show (heapE s0.brk).f = _
    rw [hf]; exact hinv.root_f
  · show heapE (s0.brk + 1) = _
    rw [hEq _ (fun h => hcn.2.2.1 h.symm)]
    exact hinv.goal_node
  · intro p hp
    apply hnode
    rcases hp with h | h | h
    · exact hinv.nodes p (Or.inl h)
    · exact hinv.nodes p (Or.inr (Or.inl h))
    · rcases List.mem_append.mp h with h1 | h1
      · exact hinv.nodes p (Or.inr (Or.inr h1))
      · simp only [List.mem_singleton] at h1
        rw [h1]; exact hcn
  · show (s.closed ++ [cn]).Nodup
    rw [List.nodup_append]
    refine ⟨hinv.closed_nodup, List.nodup_singleton _, ?_⟩
    intro a ha hb
    simp only [List.mem_singleton] at hb
    exact hcnot (hb ▸ ha)
  · intro p hp
    show (heapE p).explored = true
    rcases List.mem_append.mp hp with h1 | h1
    · have hne : p ≠ cn := fun h => hcnot (h ▸ h1)
      rw [hEq p hne]
      exact hinv.closed_explored p h1
    · simp only [List.mem_singleton] at h1
      rw [h1, hEcn]
  · intro p hp hexp1
    show p ∈ s.closed ++ [cn]
    by_cases hpc : p = cn
    · rw [hpc]; simp
    · apply List.mem_append_left
      have hexp2 : (heapE p).explored = true := hexp1
      rw [hEq p hpc] at hexp2
      exact hinv.open_explored p hp hexp2

theorem SearchInv_explore (env : Env R) (s0 s s1 : HolonomicHeuristic R) (cn : Nat)
    (l : List Nat) (hinv : SearchInv env s0 s) (hlast : s.closed = l ++ [cn])
    (hcn : SearchNode env s0 s cn) (hpost : ExplorePost env cn s s1) :
    SearchInv env s0 s1 := by
  have hcnlt : cn < s.brk := hcn.2.1
  have hcnot : cn ∉ l := by
    have := hinv.closed_nodup
    rw [hlast, List.nodup_append] at this
    intro h
    exact this.2.2 h (List.mem_singleton_self _)
  have hold : ∀ p, SearchNode env s0 s p → SearchNode env s0 s1 p := by
    intro p hp
    obtain ⟨a1, a2, a3, a4⟩ := hp
    refine ⟨a1, lt_of_lt_of_le a2 hpost.brk_le, a3, ?_⟩
    rcases a4 with a4 | ⟨q, b1, b2, b3, b4, b5⟩
    · exact Or.inl a4
    · have hq : q < s.brk := by omega
      refine Or.inr ⟨q, ?_, ?_, b3, ?_, ?_⟩
      · rw [hpost.old_heap p a2]; exact b1
      · rw [hpost.closed_eq]; exact b2
      · rw [hpost.old_heap p a2, hpost.old_heap q hq]; exact b4
      · intro l1 l2 hsplit t ht
        rw [hpost.closed_eq] at hsplit
        have htm : t ∈ s.closed := by rw [hsplit]; exact List.mem_append_left _ ht
        have htlt : t < s.brk := (hinv.nodes t (Or.inr (Or.inr htm))).2.1
        rw [hpost.old_heap p a2, hpost.old_heap t htlt]
        exact b5 l1 l2 hsplit t ht
  have hnew : ∀ c, c ∈ (List.range' s.brk (s1.brk - s.brk)).filter (fun c => NotExist env s1 c) →
      SearchNode env s0 s1 c ∧ (s1.heap c).explored = false := by
    intro c hc
    rw [List.mem_filter, List.mem_range'_1] at hc
    obtain ⟨⟨hc1, hc2⟩, hne⟩ := hc
    have hc3 : c < s1.brk := by omega
    obtain ⟨hgeom, hpar, hexp⟩ := hpost.child c hc1 hc3
    have hb := hinv.brk_ge
    refine ⟨⟨by omega, hc3, by omega, Or.inr ⟨cn, hpar, ?_, by omega, ?_, ?_⟩⟩, hexp⟩
    · rw [hpost.closed_eq, hlast]; simp
    · rw [hpost.old_heap cn hcnlt, ← hinv.grid_eq, ← hinv.goal_eq]; exact hgeom
    · intro l1 l2 hsplit t ht
      rw [hpost.closed_eq, hlast] at hsplit
      obtain ⟨h1, _⟩ := append_singleton_last l l1 l2 cn hsplit hcnot
      have hne2 : NotExist env s1 c = true := by simpa using hne
      unfold NotExist at hne2
      rw [notExistScan_eq_true_iff] at hne2
      apply hne2 t
      · rw [hpost.closed_eq, hlast]; exact List.mem_append_left _ (h1 ▸ ht)
      · rw [hpar]
        intro heq
        simp only [Option.some.injEq] at heq
        exact hcnot (heq ▸ h1 ▸ ht)
  have hmem : ∀ p, p ∈ s.nearest_open ∨ p ∈ s.largest_open ∨ p ∈ s.closed → p < s.brk :=
    fun p hp => (hinv.nodes p hp).2.1
  have hb := hinv.brk_ge
  refine ⟨hpost.grid_eq.trans hinv.grid_eq, hpost.start_eq.trans hinv.start_eq,
    hpost.goal_eq.trans hinv.goal_eq, hpost.path_eq.trans hinv.path_eq,
    le_trans hinv.brk_ge hpost.brk_le, ?_, ?_, ?_, ?_, ?_, ?_, ?_, ?_, ?_, ?_⟩
  · intro p hp
    rw [hpost.old_heap p (by omega)]; exact hinv.old_heap p hp
  · rw [hpost.old_heap _ (by omega)]; exact hinv.root_circle
  · rw [hpost.old_heap _ (by omega)]; exact hinv.root_parent
  · rw [hpost.old_heap _ (by omega)]; exact hinv.root_g
  · rw [hpost.old_heap _ (by omega)]; exact hinv.root_f
  · rw [hpost.old_heap _ (by omega)]; exact hinv.goal_node
  · intro p hp
    rw [hpost.nearest_eq, hpost.largest_eq, hpost.closed_eq] at hp
    rcases hp with h | h | h
    · rcases List.mem_append.mp h with h1 | h1
      · exact hold p (hinv.nodes p (Or.inl h1))
      · exact (hnew p h1).1
    · rcases List.mem_append.mp h with h1 | h1
      · exact hold p (hinv.nodes p (Or.inr (Or.inl h1)))
      · exact (hnew p h1).1
    · exact hold p (hinv.nodes p (Or.inr (Or.inr h)))
  · rw [hpost.closed_eq]; exact hinv.closed_nodup
  · intro p hp
    rw [hpost.closed_eq] at hp
    rw [hpost.old_heap p (hmem p (Or.inr (Or.inr hp)))]
    exact hinv.closed_explored p hp
  · intro p hp hexp
    rw [hpost.closed_eq]
    rw [hpost.nearest_eq, hpost.largest_eq] at hp
    rcases hp with h | h
    · rcases List.mem_append.mp h with h1 | h1
      · rw [hpost.old_heap p (hmem p (Or.inl h1))] at hexp
        exact hinv.open_explored p (Or.inl h1) hexp
      · rw [(hnew p h1).2] at hexp; exact absurd hexp (by simp)
    · rcases List.mem_append.mp h with h1 | h1
      · rw [hpost.old_heap p (hmem p (Or.inr (Or.inl h1)))] at hexp
        exact hinv.open_explored p (Or.inr h1) hexp
      · rw [(hnew p h1).2] at hexp; exact absurd hexp (by simp)

theorem chain_of_closed (env : Env R) (s0 s : HolonomicHeuristic R)
    (hinv : SearchInv env s0 s) :
    ∀ (n p : Nat), p ≤ n → p ∈ s.closed →
      ∃ ch, IsChain s.heap (some p) ch ∧ ch.head? = some p ∧ ch.getLast? = some s0.brk ∧
        (∀ c, c ∈ ch → c ∈ s.closed ∧ c ≤ p) ∧ ch.Nodup ∧
        List.Chain' (fun child par =>
          ChildCircle env s0.grid (s.heap par).circle (s.heap child).circle) ch := by
  intro n
  induction n with
  | zero =>
    intro p hp hmem
    have hnode := hinv.nodes p (Or.inr (Or.inr hmem))
    obtain ⟨a1, a2, a3, a4⟩ := hnode
    have hp0 : p = 0 := by omega
    rcases a4 with a4 | ⟨q, b1, b2, b3, b4, b5⟩
    · refine ⟨[p], ?_, rfl, by simp [a4], ?_, by simp, by simp⟩
      · simp only [IsChain, true_and]
        rw [a4, hinv.root_parent]; simp [IsChain]
      · intro c hc; simp only [List.mem_singleton] at hc; rw [hc]; exact ⟨hmem, le_refl _⟩
    · omega
  | succ n ih =>
    intro p hp hmem
    have hnode := hinv.nodes p (Or.inr (Or.inr hmem))
    obtain ⟨a1, a2, a3, a4⟩ := hnode
    rcases a4 with a4 | ⟨q, b1, b2, b3, b4, b5⟩
    · refine ⟨[p], ?_, rfl, by simp [a4], ?_, by simp, by simp⟩
      · simp only [IsChain, true_and]
        rw [a4, hinv.root_parent]; simp [IsChain]
      · intro c hc; simp only [List.mem_singleton] at hc; rw [hc]; exact ⟨hmem, le_refl _⟩
    · obtain ⟨chq, c1, c2, c3, c4, c5, c6⟩ := ih q (by omega) b2
      refine ⟨p :: chq, ?_, rfl, ?_, ?_, ?_, ?_⟩
      · simp only [IsChain, true_and]
        rw [b1]; exact c1
      · cases chq with
        | nil => simp at c2
        | cons x xs => simpa using c3
      · intro c hc
        rcases List.mem_cons.mp hc with h1 | h1
        · rw [h1]; exact ⟨hmem, le_refl _⟩
        · have := c4 c h1; exact ⟨this.1, by omega⟩
      · rw [List.nodup_cons]
        refine ⟨?_, c5⟩
        intro h1
        have := (c4 p h1).2
        omega
      · rw [List.chain'_cons']
        refine ⟨?_, c6⟩
        intro b hb
        rw [c2] at hb
        simp only [Option.mem_def, Option.some.injEq] at hb
        rw [← hb]
        exact b4.1

theorem ClosedPruned_of_inv (env : Env R) (s0 s : HolonomicHeuristic R)
    (hinv : SearchInv env s0 s) : ClosedPruned env s := by
  intro p q l1 l2 hp hpar hsplit t ht
  obtain ⟨_, _, _, a4⟩ := hinv.nodes p (Or.inr (Or.inr hp))
  rcases a4 with a4 | ⟨q1, b1, _, _, _, b5⟩
  · rw [a4, hinv.root_parent] at hpar; simp at hpar
  · rw [b1] at hpar
    simp only [Option.some.injEq] at hpar
    subst hpar
    exact b5 l1 l2 hsplit t ht

theorem ProcessNodeSearch_post (env : Env R) (s0 s : HolonomicHeuristic R) (cn : Nat)
    (hinv : SearchInv env s0 s) (hcn : SearchNode env s0 s cn)
    (hexp : (s.heap cn).explored = false) (b : Bool) (s1 : HolonomicHeuristic R)
    (h : ProcessNodeSearch env (s0.brk + 1) cn s = Outcome.ok (b, s1)) :
    (b = false → SearchInv env s0 s1) ∧
      (b = true → SuccessPost env s0 s1 ∧ ClosedPruned env s1) := by
  obtain ⟨hinvA, hcnA⟩ := SearchInv_close env s0 s cn hinv hcn hexp
  obtain ⟨sA, hsA⟩ : ∃ x : HolonomicHeuristic R, x = { s with
      closed := s.closed ++ [cn]
      heap := Function.update s.heap cn { s.heap cn with explored := true } } := ⟨_, rfl⟩
  rw [← hsA] at hinvA hcnA
  have hclosedA : sA.closed = s.closed ++ [cn] := by rw [hsA]
  have hunf : ProcessNodeSearch env (s0.brk + 1) cn s =
      (match ExploreCircleNode env cn sA with
      | none => Outcome.diverge
      | some s3 =>
        if Overlap env (s3.heap cn).circle (s3.heap (s0.brk + 1)).circle (1 / 2) = true then
          (match RebuildCirclePath env (s0.brk + 1) { s3 with
              heap := Function.update s3.heap (s0.brk + 1)
                { s3.heap (s0.brk + 1) with parent := some cn } } with
          | none => Outcome.diverge
          | some s5 => Outcome.ok (true, s5))
        else Outcome.ok (false, s3)) := by
    rw [hsA]; rfl
  rw [hunf] at h
  cases hE : ExploreCircleNode env cn sA with
  | none => rw [hE] at h; simp at h
  | some s3 =>
    rw [hE] at h
    simp only at h
    have hpost := ExploreCircleNode_post env cn sA s3 hcnA.2.1 hE
    have hinv3 : SearchInv env s0 s3 :=
      SearchInv_explore env s0 sA s3 cn s.closed hinvA hclosedA hcnA hpost
    by_cases hov : Overlap env (s3.heap cn).circle (s3.heap (s0.brk + 1)).circle (1 / 2) = true
    · rw [if_pos hov] at h
      obtain ⟨s4, hs4⟩ : ∃ x : HolonomicHeuristic R, x = { s3 with
          heap := Function.update s3.heap (s0.brk + 1)
            { s3.heap (s0.brk + 1) with parent := some cn } } := ⟨_, rfl⟩
      rw [← hs4] at h
      have h4b : s4.brk = s3.brk := by rw [hs4]
      have h4g : s4.heap (s0.brk + 1) = { s3.heap (s0.brk + 1) with parent := some cn } := by
        rw [hs4]; simp only [Function.update_same]
      have h4o : ∀ p, p ≠ s0.brk + 1 → s4.heap p = s3.heap p := by
        intro p hp; rw [hs4]; simp only [Function.update_noteq hp]
      have hcn3 : cn ∈ s3.closed := by rw [hpost.closed_eq, hclosedA]; simp
      obtain ⟨ch, c1, c2, c3, c4, c5, c6⟩ := chain_of_closed env s0 s3 hinv3 cn cn (le_refl _) hcn3
      have hchnode : ∀ c, c ∈ ch → c ≠ s0.brk + 1 ∧ c < s3.brk ∧ s0.brk ≤ c := by
        intro c hc
        have := hinv3.nodes c (Or.inr (Or.inr (c4 c hc).1))
        exact ⟨this.2.2.1, this.2.1, this.1⟩
      have hb3 := hinv3.brk_ge
      have hchain4 : IsChain s4.heap (some (s0.brk + 1)) ((s0.brk + 1) :: ch) := by
        simp only [IsChain, true_and]
        rw [h4g]
        exact IsChain_congr s3.heap s4.heap ch (some cn)
          (fun q hq => by rw [h4o q (hchnode q hq).1]) c1
      have hnd4 : ((s0.brk + 1) :: ch).Nodup := by
        rw [List.nodup_cons]
        exact ⟨fun hmem => (hchnode _ hmem).1 rfl, c5⟩
      have hlt4 : ∀ c, c ∈ (s0.brk + 1) :: ch → c < s4.brk := by
        intro c hc
        rw [h4b]
        rcases List.mem_cons.mp hc with h1 | h1
        · omega
        · exact (hchnode c h1).2.1
      obtain ⟨s5, r1, r2, r3, r4, r5, r6, r7, r8, r9, r10, r11, r12, r13, r14⟩ :=
        RebuildCirclePath_post env s4 (s0.brk + 1) ((s0.brk + 1) :: ch) hchain4 hnd4 hlt4
      rw [r1] at h
      simp only [Outcome.ok.injEq, Prod.mk.injEq] at h
      obtain ⟨hb, hs⟩ := h
      subst hb; subst hs
      have h4grid : s4.grid = s3.grid := by rw [hs4]
      have h4start : s4.start = s3.start := by rw [hs4]
      have h4goal : s4.goal = s3.goal := by rw [hs4]
      have h4path : s4.circle_path = s3.circle_path := by rw [hs4]
      have h4closed : s4.closed = s3.closed := by rw [hs4]
      have hcirc5 : ∀ p, p < s3.brk → (s5.heap p).circle = (s3.heap p).circle := by
        intro p hp
        rw [(r4 p (by omega)).1]
        by_cases hpg : p = s0.brk + 1
        · rw [hpg, h4g]
        · rw [h4o p hpg]
      have hpar5 : ∀ p, p < s3.brk → p ≠ s0.brk + 1 →
          (s5.heap p).parent = (s3.heap p).parent := by
        intro p hp hpg
        rw [(r4 p (by omega)).2.2.2.1, h4o p hpg]
      refine ⟨fun hf => absurd hf (by simp), fun _ => ⟨⟨?_, ?_, ?_, ?_, by omega, ?_⟩, ?_⟩⟩
      · rw [r9, h4grid]; exact hinv3.grid_eq
      · rw [r10, h4start]; exact hinv3.start_eq
      · rw [r11, h4goal]; exact hinv3.goal_eq
      · intro p hp
        have hpne : p ∉ (s0.brk + 1) :: ch := by
          intro hmem
          rcases List.mem_cons.mp hmem with h1 | h1
          · omega
          · have := (hchnode p h1).2.2; omega
        rw [r5 p (by omega) hpne, h4o p (by omega)]
        exact hinv3.old_heap p hp
      · refine ⟨List.range' (s4.brk + 1) (((s0.brk + 1) :: ch).length + 1),
          ch.reverse.map (fun p => (s5.heap p).circle), (s5.heap cn).circle, ?_, ?_, ?_, ?_, ?_,
          ?_, ?_, r8, ?_⟩
        · rw [r2, h4path, hinv3.path_eq]
        · intro p hp
          rw [List.mem_range'_1] at hp
          omega
        · have hmapc := congrArg (List.map (fun n : CircleNode R => n.circle)) r7
          simp only [List.map_map] at hmapc
          have hfn : ((fun n : CircleNode R => n.circle) ∘ fun p => dropParent (s5.heap p)) =
              (fun p => (s5.heap p).circle) := rfl
          rw [hfn] at hmapc
          rw [hmapc]
          simp only [List.reverse_cons, List.map_append, List.map_cons, List.map_nil,
            List.append_assoc, List.singleton_append]
          congr 1
          have hg5 : (s5.heap (s0.brk + 1)).circle =
              ⟨s0.goal.position, s0.grid.GetObstacleDistance s0.goal.position⟩ := by
            rw [hcirc5 _ (by omega), hinv3.goal_node]
          have ht5 : (s5.heap s4.brk).circle =
              ⟨s0.goal.position, s0.grid.GetObstacleDistance s0.goal.position⟩ := by
            rw [r6, h4g, hinv3.goal_node]
          rw [hg5, ht5]
        · rw [List.head?_map, List.head?_reverse, c3]
          simp only [Option.map_some']
          rw [hcirc5 _ (by omega), hinv3.root_circle]
        · rw [List.getLast?_map, List.getLast?_reverse, c2]
          simp
        · rw [hcirc5 cn (hinv3.nodes cn (Or.inr (Or.inr hcn3))).2.1]
          rw [hinv3.goal_node] at hov
          exact hov
        · rw [List.chain'_map, List.chain'_reverse]
          refine (List.Chain'.iff_mem.mp c6).imp ?_
          intro child par hrel
          show ChildCircle env s0.grid (s5.heap par).circle (s5.heap child).circle
          rw [hcirc5 par (hchnode par hrel.2.1).2.1, hcirc5 child (hchnode child hrel.1).2.1]
          exact hrel.2.2
        · have hmapg := congrArg (List.map (fun n : CircleNode R => n.g)) r7
          simp only [List.map_map] at hmapg
          have hfn : ((fun n : CircleNode R => n.g) ∘ fun p => dropParent (s5.heap p)) =
              (fun p => (s5.heap p).g) := rfl
          rw [hfn] at hmapg
          rw [hmapg, List.map_append, List.map_cons, List.map_nil, List.getLast?_concat,
            r6, h4g, hinv3.goal_node]
      · intro p q l1 l2 hp hpar hsplit t ht
        rw [r14, h4closed] at hp hsplit
        have hpn := hinv3.nodes p (Or.inr (Or.inr hp))
        have htm : t ∈ s3.closed := by rw [hsplit]; exact List.mem_append_left _ ht
        have htn := hinv3.nodes t (Or.inr (Or.inr htm))
        rw [hpar5 p hpn.2.1 hpn.2.2.1] at hpar
        rw [hcirc5 p hpn.2.1, hcirc5 t htn.2.1]
        exact ClosedPruned_of_inv env s0 s3 hinv3 p q l1 l2 hp hpar hsplit t ht
    · rw [if_neg hov] at h
      simp only [Outcome.ok.injEq, Prod.mk.injEq] at h
      obtain ⟨hb, hs⟩ := h
      subst hb; subst hs
      exact ⟨fun _ => hinv3, fun hf => absurd hf (by simp)⟩

/-- With `M_PI` positive, `ProcessNode` on an unexplored search node returns
(before the release of the nodes), and it reports success exactly when the
circle of the node overlaps the goal circle under factor `0.5`. -/
theorem ProcessNodeSearch_total (env : Env R) (s0 s : HolonomicHeuristic R) (cn : Nat)
    (hinv : SearchInv env s0 s) (hcn : SearchNode env s0 s cn)
    (hexp : (s.heap cn).explored = false) (hpi : 0 < env.M_PI) :
    ∃ b s1, ProcessNodeSearch env (s0.brk + 1) cn s = Outcome.ok (b, s1) ∧
      (b = true ↔ Overlap env (s.heap cn).circle
        ⟨s0.goal.position, s0.grid.GetObstacleDistance s0.goal.position⟩ (1 / 2) = true) := by
  obtain ⟨hinvA, hcnA⟩ := SearchInv_close env s0 s cn hinv hcn hexp
  obtain ⟨sA, hsA⟩ : ∃ x : HolonomicHeuristic R, x = { s with
      closed := s.closed ++ [cn]
      heap := Function.update s.heap cn { s.heap cn with explored := true } } := ⟨_, rfl⟩
  rw [← hsA] at hinvA hcnA
  have hclosedA : sA.closed = s.closed ++ [cn] := by rw [hsA]
  have hcircA : (sA.heap cn).circle = (s.heap cn).circle := by
    rw [hsA]; simp only [Function.update_same]
  have hunf : ProcessNodeSearch env (s0.brk + 1) cn s =
      (match ExploreCircleNode env cn sA with
      | none => Outcome.diverge
      | some s3 =>
        if Overlap env (s3.heap cn).circle (s3.heap (s0.brk + 1)).circle (1 / 2) = true then
          (match RebuildCirclePath env (s0.brk + 1) { s3 with
              heap := Function.update s3.heap (s0.brk + 1)
                { s3.heap (s0.brk + 1) with parent := some cn } } with
          | none => Outcome.diverge
          | some s5 => Outcome.ok (true, s5))
        else Outcome.ok (false, s3)) := by
    rw [hsA]; rfl
  obtain ⟨cs, sG, hG⟩ := GetChildren_total env sA cn hpi
  have hE : ExploreCircleNode env cn sA = some (exploreLoop env cs sG) := by
    unfold ExploreCircleNode; rw [hG]
  obtain ⟨s3, hs3⟩ : ∃ x, x = exploreLoop env cs sG := ⟨_, rfl⟩
  rw [← hs3] at hE
  have hpost := ExploreCircleNode_post env cn sA s3 hcnA.2.1 hE
  have hinv3 : SearchInv env s0 s3 :=
    SearchInv_explore env s0 sA s3 cn s.closed hinvA hclosedA hcnA hpost
  have hcirc3 : (s3.heap cn).circle = (s.heap cn).circle := by
    rw [hpost.old_heap cn hcnA.2.1]; exact hcircA
  have hovEq : Overlap env (s3.heap cn).circle (s3.heap (s0.brk + 1)).circle (1 / 2) =
      Overlap env (s.heap cn).circle
        ⟨s0.goal.position, s0.grid.GetObstacleDistance s0.goal.position⟩ (1 / 2) := by
    rw [hcirc3, hinv3.goal_node]
  rw [hunf, hE]
  simp only
  rw [← hovEq]
  by_cases hov : Overlap env (s3.heap cn).circle (s3.heap (s0.brk + 1)).circle (1 / 2) = true
  · rw [if_pos hov]
    obtain ⟨s4, hs4⟩ : ∃ x : HolonomicHeuristic R, x = { s3 with
        heap := Function.update s3.heap (s0.brk + 1)
          { s3.heap (s0.brk + 1) with parent := some cn } } := ⟨_, rfl⟩
    rw [← hs4]
    have h4b : s4.brk = s3.brk := by rw [hs4]
    have h4g : s4.heap (s0.brk + 1) = { s3.heap (s0.brk + 1) with parent := some cn } := by
      rw [hs4]; simp only [Function.update_same]
    have h4o : ∀ p, p ≠ s0.brk + 1 → s4.heap p = s3.heap p := by
      intro p hp; rw [hs4]; simp only [Function.update_noteq hp]
    have hcn3 : cn ∈ s3.closed := by rw [hpost.closed_eq, hclosedA]; simp
    obtain ⟨ch, c1, _, _, c4, c5, _⟩ := chain_of_closed env s0 s3 hinv3 cn cn (le_refl _) hcn3
    have hchnode : ∀ c, c ∈ ch → c ≠ s0.brk + 1 ∧ c < s3.brk ∧ s0.brk ≤ c := by
      intro c hc
      have := hinv3.nodes c (Or.inr (Or.inr (c4 c hc).1))
      exact ⟨this.2.2.1, this.2.1, this.1⟩
    have hb3 := hinv3.brk_ge
    have hchain4 : IsChain s4.heap (some (s0.brk + 1)) ((s0.brk + 1) :: ch) := by
      simp only [IsChain, true_and]
      rw [h4g]
      exact IsChain_congr s3.heap s4.heap ch (some cn)
        (fun q hq => by rw [h4o q (hchnode q hq).1]) c1
    have hnd4 : ((s0.brk + 1) :: ch).Nodup := by
      rw [List.nodup_cons]
      exact ⟨fun hmem => (hchnode _ hmem).1 rfl, c5⟩
    have hlt4 : ∀ c, c ∈ (s0.brk + 1) :: ch → c < s4.brk := by
      intro c hc
      rw [h4b]
      rcases List.mem_cons.mp hc with h1 | h1
      · omega
      · exact (hchnode c h1).2.1
    obtain ⟨s5, r1, _⟩ :=
      RebuildCirclePath_post env s4 (s0.brk + 1) ((s0.brk + 1) :: ch) hchain4 hnd4 hlt4
    refine ⟨true, s5, ?_, ⟨fun _ => hov, fun _ => rfl⟩⟩
    rw [r1]
  · rw [if_neg hov]
    exact ⟨false, s3, rfl, ⟨fun h => absurd h (by simp), fun h => absurd h hov⟩⟩

theorem popAt_none (q : List Nat) (i : Nat) (h : popAt q i = none) : q = [] := by
  cases q with
  | nil => rfl
  | cons p rest => simp [popAt] at h

theorem half_step_post (env : Env R) (s0 s : HolonomicHeuristic R) (cn : Nat)
    (hinv : SearchInv env s0 s) (hcn : SearchNode env s0 s cn) (b : Bool)
    (s1 : HolonomicHeuristic R)
    (h : (if (s.heap cn).explored = false then ProcessNodeSearch env (s0.brk + 1) cn s
      else Outcome.ok (false, s)) = Outcome.ok (b, s1)) :
    (b = false → SearchInv env s0 s1) ∧
      (b = true → SuccessPost env s0 s1 ∧ ClosedPruned env s1) := by
  by_cases hexp : (s.heap cn).explored = false
  · rw [if_pos hexp] at h
    exact ProcessNodeSearch_post env s0 s cn hinv hcn hexp b s1 h
  · rw [if_neg hexp] at h
    simp only [Outcome.ok.injEq, Prod.mk.injEq] at h
    obtain ⟨hb, hs⟩ := h
    subst hb; subst hs
    exact ⟨fun _ => hinv, fun hf => absurd hf (by simp)⟩

theorem mainLoop_search_post (env : Env R) (s0 : HolonomicHeuristic R) :
    ∀ (fuel : Nat) (s : HolonomicHeuristic R) (b : Bool) (s1 : HolonomicHeuristic R),
      SearchInv env s0 s →
      mainLoop env (ProcessNodeSearch env (s0.brk + 1)) fuel s = Outcome.ok (b, s1) →
      (b = false → SearchInv env s0 s1 ∧ s1.nearest_open = []) ∧
        (b = true → SuccessPost env s0 s1 ∧ ClosedPruned env s1) := by
  intro fuel
  induction fuel with
  | zero => intro s b s1 _ h; simp [mainLoop] at h
  | succ fuel ih =>
    intro s b s1 hinv h
    rw [mainLoop] at h
    cases hpop : popAt s.nearest_open (env.pickNearest fuel s.heap s.nearest_open) with
    | none =>
      rw [hpop] at h
      simp only [Outcome.ok.injEq, Prod.mk.injEq] at h
      obtain ⟨hb, hs⟩ := h
      subst hb; subst hs
      exact ⟨fun _ => ⟨hinv, popAt_none _ _ hpop⟩, fun hf => absurd hf (by simp)⟩
    | some r =>
      obtain ⟨cn, q⟩ := r
      rw [hpop] at h
      simp only at h
      obtain ⟨hcnq, hsub, _⟩ := popAt_some _ _ _ _ hpop
      have hinvN : SearchInv env s0 ({ s with nearest_open := q } : HolonomicHeuristic R) :=
        SearchInv_of_sub env s0 s _ hinv hsub (fun p hp => hp) rfl rfl rfl rfl rfl rfl rfl
      have hcnN : SearchNode env s0 ({ s with nearest_open := q } : HolonomicHeuristic R) cn :=
        SearchNode_congr env s0 s _ cn rfl rfl rfl (hinv.nodes cn (Or.inl hcnq))
      split at h
      · next s2 heq =>
        have hpost2 := half_step_post env s0 _ cn hinvN hcnN true s2 heq
        simp only [Outcome.ok.injEq, Prod.mk.injEq] at h
        obtain ⟨hb, hs⟩ := h
        subst hb; subst hs
        exact ⟨fun hf => absurd hf (by simp), fun _ => hpost2.2 rfl⟩
      · next s2 heq =>
        have hpost2 := half_step_post env s0 _ cn hinvN hcnN false s2 heq
        have hinv2 := hpost2.1 rfl
        cases hpop2 : popAt s2.largest_open (env.pickLargest fuel s2.heap s2.largest_open) with
        | none => rw [hpop2] at h; simp at h
        | some r3 =>
          obtain ⟨cn2, q2⟩ := r3
          rw [hpop2] at h
          simp only at h
          obtain ⟨hcnq2, hsub2, _⟩ := popAt_some _ _ _ _ hpop2
          have hinvL : SearchInv env s0
              ({ s2 with largest_open := q2 } : HolonomicHeuristic R) :=
            SearchInv_of_sub env s0 s2 _ hinv2 (fun p hp => hp) hsub2 rfl rfl rfl rfl rfl rfl rfl
          have hcnL : SearchNode env s0
              ({ s2 with largest_open := q2 } : HolonomicHeuristic R) cn2 :=
            SearchNode_congr env s0 s2 _ cn2 rfl rfl rfl
              (hinv2.nodes cn2 (Or.inr (Or.inl hcnq2)))
          split at h
          · next s4 heq4 =>
            have hpost4 := half_step_post env s0 _ cn2 hinvL hcnL true s4 heq4
            simp only [Outcome.ok.injEq, Prod.mk.injEq] at h
            obtain ⟨hb, hs⟩ := h
            subst hb; subst hs
            exact ⟨fun hf => absurd hf (by simp), fun _ => hpost4.2 rfl⟩
          · next s4 heq4 =>
            have hpost4 := half_step_post env s0 _ cn2 hinvL hcnL false s4 heq4
            exact ih s4 b s1 (hpost4.1 rfl) h
          · simp at h
          · simp at h
          · simp at h
      · simp at h
      · simp at h
      · simp at h

theorem explorationInit_inv (env : Env R) (s : HolonomicHeuristic R) (hq : Quiescent s) :
    (explorationInit env s).1 = s.brk + 1 ∧ SearchInv env s (explorationInit env s).2 := by
  obtain ⟨q1, q2, q3⟩ := hq
  refine ⟨rfl, ⟨rfl, rfl, rfl, rfl, ?_, ?_, ?_, ?_, ?_, ?_, ?_, ?_, ?_, ?_, ?_⟩⟩
  · simp only [explorationInit, alloc]; omega
  · intro p hp
    simp only [explorationInit, alloc]
    rw [Function.update_noteq (by omega), Function.update_noteq (by omega)]
  · simp only [explorationInit, alloc]
    rw [Function.update_noteq (by omega), Function.update_same]
  · simp only [explorationInit, alloc]
    rw [Function.update_noteq (by omega), Function.update_same]
  · simp only [explorationInit, alloc]
    rw [Function.update_noteq (by omega), Function.update_same]
  · simp only [explorationInit, alloc]
    rw [Function.update_noteq (by omega), Function.update_same]
  · simp only [explorationInit, alloc]
    rw [Function.update_same]
  · intro p hp
    simp only [explorationInit, alloc, q1, q2, q3, List.nil_append, List.mem_singleton,
      List.not_mem_nil, or_false, or_self] at hp
    subst hp
    refine ⟨le_refl _, ?_, by omega, Or.inl rfl⟩
    simp only [explorationInit, alloc]; omega
  · simp only [explorationInit, alloc, q3]; exact List.nodup_nil
  · intro p hp
    simp only [explorationInit, alloc, q3, List.not_mem_nil] at hp
  · intro p hp hexp
    simp only [explorationInit, alloc, q1, q2, List.nil_append, List.mem_singleton,
      or_self] at hp
    subst hp
    simp only [explorationInit, alloc] at hexp
    rw [Function.update_noteq (by omega), Function.update_same] at hexp
    simp at hexp

end Invariant


/-! ## The search: release of the nodes -/

section Release

variable {R : Type} [LinearOrderedField R]

theorem ProcessNode_eq (env : Env R) (goal cn : Nat) (s : HolonomicHeuristic R) :
    ProcessNode env goal cn s =
      (match ProcessNodeSearch env goal cn s with
      | Outcome.ok (true, s1) => Outcome.ok (true, RemoveAllCircleNodes s1)
      | Outcome.ok (false, s1) => Outcome.ok (false, s1)
      | Outcome.diverge => Outcome.diverge
      | Outcome.outOfFuel => Outcome.outOfFuel
      | Outcome.undefined => Outcome.undefined) := by
  unfold ProcessNode
  cases ProcessNodeSearch env goal cn s with
  | ok r => obtain ⟨b, s1⟩ := r; cases b <;> rfl
  | diverge => rfl
  | outOfFuel => rfl
  | undefined => rfl

theorem mainLoop_release (env : Env R) (goal : Nat) :
    ∀ (fuel : Nat) (s : HolonomicHeuristic R),
      mainLoop env (ProcessNode env goal) fuel s =
        (match mainLoop env (ProcessNodeSearch env goal) fuel s with
        | Outcome.ok (true, s1) => Outcome.ok (true, RemoveAllCircleNodes s1)
        | Outcome.ok (false, s1) => Outcome.ok (false, s1)
        | Outcome.diverge => Outcome.diverge
        | Outcome.outOfFuel => Outcome.outOfFuel
        | Outcome.undefined => Outcome.undefined) := by
  intro fuel
  induction fuel with
  | zero => intro s; rfl
  | succ fuel ih =>
    intro s
    rw [mainLoop, mainLoop]
    cases hpop : popAt s.nearest_open (env.pickNearest fuel s.heap s.nearest_open) with
    | none => rfl
    | some r =>
      obtain ⟨cn, q⟩ := r
      simp only
      cases hexp : (s.heap cn).explored with
      | false =>
        simp only [if_true]
        rw [ProcessNode_eq]
        cases hP : ProcessNodeSearch env goal cn
            ({ s with nearest_open := q } : HolonomicHeuristic R) with
        | diverge => rfl
        | outOfFuel => rfl
        | undefined => rfl
        | ok r2 =>
          obtain ⟨b2, s2⟩ := r2
          cases b2 with
          | true => rfl
          | false =>
            simp only
            cases hpop2 : popAt s2.largest_open
                (env.pickLargest fuel s2.heap s2.largest_open) with
            | none => rfl
            | some r3 =>
              obtain ⟨cn2, q2⟩ := r3
              simp only
              cases hexp2 : (s2.heap cn2).explored with
              | false =>
                simp only [if_true]
                rw [ProcessNode_eq]
                cases hP2 : ProcessNodeSearch env goal cn2
                    ({ s2 with largest_open := q2 } : HolonomicHeuristic R) with
                | diverge => rfl
                | outOfFuel => rfl
                | undefined => rfl
                | ok r4 =>
                  obtain ⟨b4, s4⟩ := r4
                  cases b4 with
                  | true => rfl
                  | false => simp only; exact ih s4
              | true =>
                simp only [Bool.true_eq_false, if_false]
                exact ih _
      | true =>
        simp only [Bool.true_eq_false, if_false]
        cases hpop2 : popAt s.largest_open (env.pickLargest fuel s.heap s.largest_open) with
        | none => rfl
        | some r3 =>
          obtain ⟨cn2, q2⟩ := r3
          simp only
          cases hexp2 : (s.heap cn2).explored with
          | false =>
            simp only [if_true]
            rw [ProcessNode_eq]
            cases hP2 : ProcessNodeSearch env goal cn2
                ({ s with nearest_open := q, largest_open := q2 } : HolonomicHeuristic R) with
            | diverge => rfl
            | outOfFuel => rfl
            | undefined => rfl
            | ok r4 =>
              obtain ⟨b4, s4⟩ := r4
              cases b4 with
              | true => rfl
              | false => simp only; exact ih s4
          | true =>
            simp only [Bool.true_eq_false, if_false]
            exact ih _

/-- The method `SpaceExploration` is the search followed by the release of the
nodes: both on success and on failure the containers are emptied last. -/
theorem SpaceExploration_eq (env : Env R) (fuel : Nat) (s : HolonomicHeuristic R) :
    SpaceExploration env fuel s =
      (match SpaceExplorationSearch env fuel s with
      | Outcome.ok (b, s1) => Outcome.ok (b, RemoveAllCircleNodes s1)
      | Outcome.diverge => Outcome.diverge
      | Outcome.outOfFuel => Outcome.outOfFuel
      | Outcome.undefined => Outcome.undefined) := by
  unfold SpaceExploration SpaceExplorationSearch
  rw [mainLoop_release]
  cases mainLoop env (ProcessNodeSearch env (explorationInit env s).1) fuel
      (explorationInit env s).2 with
  | ok r => obtain ⟨b, s1⟩ := r; cases b <;> rfl
  | diverge => rfl
  | outOfFuel => rfl
  | undefined => rfl

end Release

/-! ## The search: what `SpaceExploration` returns -/

section Exploration

variable {R : Type} [LinearOrderedField R]

theorem Outcome.flag_eq_some {σ : Type} (o : Outcome (Bool × σ)) (b : Bool)
    (h : o.flag = some b) : ∃ s1, o = Outcome.ok (b, s1) := by
  cases o with
  | ok r =>
    obtain ⟨b1, s1⟩ := r
    simp only [Outcome.flag, Option.some.injEq] at h
    exact ⟨s1, by rw [h]⟩
  | diverge => simp [Outcome.flag] at h
  | outOfFuel => simp [Outcome.flag] at h
  | undefined => simp [Outcome.flag] at h

/-- The state in which the search of `SpaceExploration`, started with empty
containers, stops: on failure the invariant of the main loop holds and the
nearest-open queue is empty; on success the circle path has been extended
as `SuccessPost` says; in both cases the closed set is pruned. -/
theorem SpaceExplorationSearch_post (env : Env R) (fuel : Nat) (s : HolonomicHeuristic R)
    (b : Bool) (s1 : HolonomicHeuristic R) (hq : Quiescent s)
    (h : SpaceExplorationSearch env fuel s = Outcome.ok (b, s1)) :
    (b = false → SearchInv env s s1 ∧ s1.nearest_open = []) ∧
      (b = true → SuccessPost env s s1) ∧ ClosedPruned env s1 := by
  obtain ⟨_, hinv⟩ := explorationInit_inv env s hq
  have hpost := mainLoop_search_post env s fuel (explorationInit env s).2 b s1 hinv h
  refine ⟨hpost.1, fun hb => (hpost.2 hb).1, ?_⟩
  cases b with
  | true => exact (hpost.2 rfl).2
  | false => exact ClosedPruned_of_inv env s s1 (hpost.1 rfl).1

/-- The state that `SpaceExploration`, started with empty containers, returns:
the containers are empty again, the grid and the poses are untouched, the
cells allocated before the call are untouched, on failure the circle path is
untouched, and on success it has been extended as `SuccessPost` says. -/
theorem SpaceExploration_post (env : Env R) (fuel : Nat) (s : HolonomicHeuristic R)
    (b : Bool) (s1 : HolonomicHeuristic R) (hq : Quiescent s)
    (h : SpaceExploration env fuel s = Outcome.ok (b, s1)) :
    Quiescent s1 ∧ s1.grid = s.grid ∧ s1.start = s.start ∧ s1.goal = s.goal ∧
      (∀ p, p < s.brk → s1.heap p = s.heap p) ∧ s.brk + 2 ≤ s1.brk ∧
      (b = false → s1.circle_path = s.circle_path) ∧ (b = true → SuccessPost env s s1) := by
  rw [SpaceExploration_eq] at h
  cases hS : SpaceExplorationSearch env fuel s with
  | diverge => rw [hS] at h; simp at h
  | outOfFuel => rw [hS] at h; simp at h
  | undefined => rw [hS] at h; simp at h
  | ok r =>
    obtain ⟨b2, s2⟩ := r
    rw [hS] at h
    simp only [Outcome.ok.injEq, Prod.mk.injEq] at h
    obtain ⟨hb, hs⟩ := h
    subst hb; subst hs
    obtain ⟨p1, p2, _⟩ := SpaceExplorationSearch_post env fuel s b2 s2 hq hS
    cases b2 with
    | false =>
      obtain ⟨hinv, _⟩ := p1 rfl
      exact ⟨⟨rfl, rfl, rfl⟩, hinv.grid_eq, hinv.start_eq, hinv.goal_eq, hinv.old_heap,
        hinv.brk_ge, fun _ => hinv.path_eq, fun hf => absurd hf (by simp)⟩
    | true =>
      have hsp := p2 rfl
      exact ⟨⟨rfl, rfl, rfl⟩, hsp.grid_eq, hsp.start_eq, hsp.goal_eq, hsp.old_heap,
        hsp.brk_ge, fun hf => absurd hf (by simp),
        fun _ => ⟨hsp.grid_eq, hsp.start_eq, hsp.goal_eq, hsp.old_heap, hsp.brk_ge, hsp.path⟩⟩

/-- With `M_PI` positive and empty containers, when the start circle overlaps
the goal circle under factor `0.5`, `SpaceExploration` succeeds in the first
round of its loop. -/
theorem SpaceExploration_root_overlap (env : Env R) (fuel : Nat) (s : HolonomicHeuristic R)
    (hq : Quiescent s) (hpi : 0 < env.M_PI)
    (hov : Overlap env ⟨s.start.position, s.grid.GetObstacleDistance s.start.position⟩
      ⟨s.goal.position, s.grid.GetObstacleDistance s.goal.position⟩ (1 / 2) = true) :
    ∃ s1, SpaceExploration env (fuel + 1) s = Outcome.ok (true, s1) := by
  obtain ⟨_, hinv⟩ := explorationInit_inv env s hq
  have hnear : (explorationInit env s).2.nearest_open = [s.brk] := by
    simp [explorationInit, alloc, hq.1]
  have hpop : popAt (explorationInit env s).2.nearest_open
      (env.pickNearest fuel (explorationInit env s).2.heap (explorationInit env s).2.nearest_open)
      = some (s.brk, []) := by
    rw [hnear]; simp [popAt, Nat.mod_one]
  have hinvN : SearchInv env s
      ({ (explorationInit env s).2 with nearest_open := [] } : HolonomicHeuristic R) :=
    SearchInv_of_sub env s _ _ hinv (fun p hp => by simp at hp) (fun p hp => hp)
      rfl rfl rfl rfl rfl rfl rfl
  have hnode : SearchNode env s
      ({ (explorationInit env s).2 with nearest_open := [] } : HolonomicHeuristic R) s.brk :=
    SearchNode_congr env s _ _ s.brk rfl rfl rfl
      (hinv.nodes s.brk (Or.inl (by rw [hnear]; simp)))
  have hexp : ((explorationInit env s).2.heap s.brk).explored = false := by
    simp only [explorationInit, alloc]
    rw [Function.update_noteq (by omega), Function.update_same]
  obtain ⟨b, s1, hP, hb⟩ := ProcessNodeSearch_total env s _ s.brk hinvN hnode hexp hpi
  have hbt : b = true := by
    apply hb.mpr
    have : (({ (explorationInit env s).2 with nearest_open := [] } :
        HolonomicHeuristic R).heap s.brk).circle =
        ⟨s.start.position, s.grid.GetObstacleDistance s.start.position⟩ := hinv.root_circle
    rw [this]; exact hov
  subst hbt
  have hloop : mainLoop env (ProcessNodeSearch env (s.brk + 1)) (fuel + 1)
      (explorationInit env s).2 = Outcome.ok (true, s1) := by
    rw [mainLoop, hpop]
    simp only
    rw [if_pos hexp, hP]
  refine ⟨RemoveAllCircleNodes s1, ?_⟩
  rw [SpaceExploration_eq]
  unfold SpaceExplorationSearch
  have hg : (explorationInit env s).1 = s.brk + 1 := rfl
  rw [hg, hloop]

theorem childCircle_distance (env : Env R) (grid : InternalGridMap R) (par child : Circle R)
    (hsqrt : ∀ x, env.sqrt (x * x) = |x|)
    (htrig : ∀ a, env.cos a * env.cos a + env.sin a * env.sin a = 1)
    (hr : 0 ≤ par.r) (hc : ChildCircle env grid par child) :
    Distance env par.position child.position = par.r := by
  obtain ⟨⟨k, _, hpos⟩, _⟩ := hc
  unfold Distance Distance2
  rw [hpos]
  simp only [candidateCentre]
  have h2 : (par.position.x - (par.position.x + par.r * env.cos (sampleAngle env k))) *
      (par.position.x - (par.position.x + par.r * env.cos (sampleAngle env k))) +
      (par.position.y - (par.position.y + par.r * env.sin (sampleAngle env k))) *
      (par.position.y - (par.position.y + par.r * env.sin (sampleAngle env k))) =
      par.r * par.r := by
    have := htrig (sampleAngle env k)
    linear_combination (par.r * par.r) * this
  rw [h2, hsqrt, abs_of_nonneg hr]

theorem chain'_within (env : Env R) (grid : InternalGridMap R)
    (hsqrt : ∀ x, env.sqrt (x * x) = |x|)
    (htrig : ∀ a, env.cos a * env.cos a + env.sin a * env.sin a = 1) :
    ∀ (cs : List (Circle R)),
      List.Chain' (fun par child => ChildCircle env grid par child) cs →
      (∀ c, c ∈ cs.head? → 0 ≤ c.r) →
      List.Chain' (fun prev node => Distance env prev.position node.position ≤ prev.r) cs := by
  intro cs
  induction cs with
  | nil => intro _ _; exact List.chain'_nil
  | cons a rest ih =>
    intro hch hhead
    cases rest with
    | nil => exact List.chain'_singleton _
    | cons b rest2 =>
      rw [List.chain'_cons] at hch ⊢
      have ha : 0 ≤ a.r := hhead a (by simp)
      refine ⟨le_of_eq (childCircle_distance env grid a b hsqrt htrig ha hch.1), ?_⟩
      apply ih hch.2
      intro c hc
      simp only [List.head?_cons, Option.mem_def, Option.some.injEq] at hc
      rw [← hc]
      have := hch.1.2.2.2
      linarith

end Exploration

/-! ## The heuristic query -/

section Query

variable {R : Type} [LinearOrderedField R]

theorem nearestScan_spec (env : Env R) (heap : Nat → CircleNode R) (position : Vector2D R)
    (dflt : Nat) (rest : List Nat) :
    ∀ (pre : List Nat) (nearest : Nat) (distance : R),
      nearest < pre.length →
      distance = Distance env position (heap ((pre ++ rest).getD nearest dflt)).circle.position →
      (∀ k, k < pre.length →
        distance ≤ Distance env position (heap ((pre ++ rest).getD k dflt)).circle.position) →
      (∀ k, k < nearest →
        distance < Distance env position (heap ((pre ++ rest).getD k dflt)).circle.position) →
      nearestScan env heap position rest pre.length nearest distance < (pre ++ rest).length ∧
      (∀ k, k < (pre ++ rest).length →
        Distance env position (heap ((pre ++ rest).getD
          (nearestScan env heap position rest pre.length nearest distance) dflt)).circle.position
          ≤ Distance env position (heap ((pre ++ rest).getD k dflt)).circle.position) ∧
      (∀ k, k < nearestScan env heap position rest pre.length nearest distance →
        Distance env position (heap ((pre ++ rest).getD
          (nearestScan env heap position rest pre.length nearest distance) dflt)).circle.position
          < Distance env position (heap ((pre ++ rest).getD k dflt)).circle.position) := by
  induction rest with
  | nil =>
    intro pre nearest distance hn hd hmin hfirst
    simp only [nearestScan, List.append_nil] at *
    refine ⟨hn, ?_, ?_⟩
    · intro k hk; rw [← hd]; exact hmin k hk
    · intro k hk; rw [← hd]; exact hfirst k hk
  | cons c rest ih =>
    intro pre nearest distance hn hd hmin hfirst
    have hsplit : pre ++ c :: rest = (pre ++ [c]) ++ rest := by simp
    have hlen : (pre ++ [c]).length = pre.length + 1 := by simp
    have hc : (pre ++ c :: rest).getD pre.length dflt = c := by
      rw [List.getD_eq_getElem?_getD, List.getElem?_append_right (le_refl _)]
      simp
    simp only [nearestScan]
    split
    · next hlt =>
      have := ih (pre ++ [c]) pre.length
        (Distance env position (heap c).circle.position)
        (by simp) (by rw [← hsplit, hc])
        (by
          intro k hk
          rw [hlen] at hk
          rcases Nat.lt_succ_iff_lt_or_eq.mp hk with h1 | h1
          · rw [← hsplit]; exact le_of_lt (lt_of_lt_of_le hlt (hmin k h1))
          · subst h1; rw [← hsplit, hc])
        (by
          intro k hk
          rw [← hsplit]; exact lt_of_lt_of_le hlt (hmin k hk))
      rw [hlen, ← hsplit] at this
      exact this
    · next hge =>
      have hge1 : distance ≤ Distance env position (heap c).circle.position := not_lt.mp hge
      have := ih (pre ++ [c]) nearest distance
        (by simp; omega) (by rw [← hsplit]; exact hd)
        (by
          intro k hk
          rw [hlen] at hk
          rcases Nat.lt_succ_iff_lt_or_eq.mp hk with h1 | h1
          · rw [← hsplit]; exact hmin k h1
          · subst h1; rw [← hsplit, hc]; exact hge1)
        (by
          intro k hk
          rw [← hsplit]; exact hfirst k hk)
      rw [hlen, ← hsplit] at this
      exact this

theorem getD_default_irrel (l : List Nat) (k : Nat) (d1 d2 : Nat) (hk : k < l.length) :
    l.getD k d1 = l.getD k d2 := by
  simp [List.getD_eq_getElem?_getD, List.getElem?_eq_getElem hk]

/-- C1. On a non-empty circle path the query returns `g_j + euclidean(p, c_j)`,
where `i` is the first position whose centre is nearest to the probe and `j`
is `i + 1` when position `i` has a successor whose centre is closer (in squared
distance) to the probe than to centre `i`, and `i` otherwise. -/
theorem GetHeuristicValue_nearest_lookahead (env : Env R) (s : HolonomicHeuristic R)
    (p : Pose2D R) (h : s.circle_path ≠ []) :
    ∃ i, i < s.circle_path.length ∧
      (∀ k, k < s.circle_path.length → probeDistance env s p i ≤ probeDistance env s p k) ∧
      (∀ k, k < i → probeDistance env s p i < probeDistance env s p k) ∧
      GetHeuristicValue env s p =
        if i + 1 < s.circle_path.length ∧
            Distance2 (pathNode s i).circle.position (pathNode s (i + 1)).circle.position >
              Distance2 p.position (pathNode s (i + 1)).circle.position
        then (pathNode s (i + 1)).g + probeDistance env s p (i + 1)
        else (pathNode s i).g + probeDistance env s p i := by
  obtain ⟨c0, rest, hcp⟩ : ∃ c0 rest, s.circle_path = c0 :: rest := by
    cases hc : s.circle_path with
    | nil => exact absurd hc h
    | cons c0 rest => exact ⟨c0, rest, rfl⟩
  have hspec := nearestScan_spec env s.heap p.position 0 rest [c0] 0
    (Distance env p.position (s.heap c0).circle.position) (by simp) (by simp)
    (by intro k hk; simp at hk; subst hk; simp) (by intro k hk; omega)
  simp only [List.singleton_append, List.length_singleton] at hspec
  obtain ⟨hi, hmin, hfirst⟩ := hspec
  refine ⟨nearestScan env s.heap p.position rest 1 0
    (Distance env p.position (s.heap c0).circle.position), ?_, ?_, ?_, ?_⟩
  · rw [hcp]; exact hi
  · intro k hk
    rw [hcp] at hk
    simp only [probeDistance, pathNode, hcp]
    exact hmin k hk
  · intro k hk
    simp only [probeDistance, pathNode, hcp]
    exact hfirst k hk
  · simp only [GetHeuristicValue, NearestCircleNode, hcp, probeDistance, pathNode]
    by_cases hnext : nearestScan env s.heap p.position rest 1 0
        (Distance env p.position (s.heap c0).circle.position) + 1 < (c0 :: rest).length
    · rw [getD_default_irrel (c0 :: rest) _ c0 0 hnext, getD_default_irrel (c0 :: rest) _ c0 0 hi]
      by_cases hcmp : Distance2 (s.heap ((c0 :: rest).getD (nearestScan env s.heap p.position rest 1 0
          (Distance env p.position (s.heap c0).circle.position)) 0)).circle.position
          (s.heap ((c0 :: rest).getD (nearestScan env s.heap p.position rest 1 0
          (Distance env p.position (s.heap c0).circle.position) + 1) 0)).circle.position >
          Distance2 p.position (s.heap ((c0 :: rest).getD (nearestScan env s.heap p.position rest 1 0
          (Distance env p.position (s.heap c0).circle.position) + 1) 0)).circle.position
      · simp only [hnext, hcmp, if_true, and_self]
      · simp only [hnext, hcmp, if_true, if_false, and_false]
    · rw [getD_default_irrel (c0 :: rest) _ c0 0 hi]
      simp only [hnext, if_false, false_and]

/-- C2. On an empty circle path `NearestCircleNode` returns no node and the
query is the Euclidean distance between the probe and the cached goal. -/
theorem GetHeuristicValue_empty_path (env : Env R) (s : HolonomicHeuristic R) (p : Pose2D R) :
    NearestCircleNode env { s with circle_path := [] } p = none ∧
      GetHeuristicValue env { s with circle_path := [] } p =
        Distance env s.goal.position p.position ∧
      GetHeuristicValue env { s with circle_path := [] } p =
        Distance env p.position s.goal.position := by
  refine ⟨rfl, rfl, ?_⟩
  simp only [GetHeuristicValue, NearestCircleNode, Distance, Distance2]
  congr 1
  ring

end Query

/-! ## Claims on the search and the lifecycle -/

section Lifecycle

variable {R : Type} [LinearOrderedField R]

theorem Distance_comm (env : Env R) (a b : Vector2D R) : Distance env a b = Distance env b a := by
  unfold Distance Distance2
  congr 1
  ring

/-- C4. When `SpaceExploration`, called as `UpdateHeuristic` calls it (empty
containers, empty circle path), reports success, the installed circle path is
not empty, its first circle is the start circle, its last circle is the goal
circle, and it ends with a search circle `n`, which overlaps the goal circle
under factor `0.5`, followed by the goal circle (twice). -/
theorem SpaceExploration_success_path (env : Env R) (fuel : Nat)
    (s s1 : HolonomicHeuristic R) (hq : Quiescent s) (hp : s.circle_path = [])
    (h : SpaceExploration env fuel s = Outcome.ok (true, s1)) :
    s1.circle_path ≠ [] ∧
    ((pathNodes s1).map (fun x => x.circle)).head? =
      some ⟨s.start.position, s.grid.GetObstacleDistance s.start.position⟩ ∧
    ((pathNodes s1).map (fun x => x.circle)).getLast? =
      some ⟨s.goal.position, s.grid.GetObstacleDistance s.goal.position⟩ ∧
    ∃ (mid : List (Circle R)) (n : Circle R),
      (pathNodes s1).map (fun x => x.circle) =
        mid ++ [n, ⟨s.goal.position, s.grid.GetObstacleDistance s.goal.position⟩,
          ⟨s.goal.position, s.grid.GetObstacleDistance s.goal.position⟩] ∧
      Overlap env n ⟨s.goal.position, s.grid.GetObstacleDistance s.goal.position⟩ (1 / 2)
        = true := by
  obtain ⟨_, _, _, _, _, _, _, hsucc⟩ := SpaceExploration_post env fuel s true s1 hq h
  obtain ⟨newPtrs, cs, n, h1, _, h3, h4, h5, h6, _, _, _⟩ := (hsucc rfl).path
  rw [hp, List.nil_append] at h1
  obtain ⟨mid, hmid⟩ := List.getLast?_eq_some_iff.mp h5
  have hmap : (pathNodes s1).map (fun x => x.circle) =
      cs ++ [⟨s.goal.position, s.grid.GetObstacleDistance s.goal.position⟩,
        ⟨s.goal.position, s.grid.GetObstacleDistance s.goal.position⟩] := by
    rw [← h3, pathNodes, h1, List.map_map]; rfl
  refine ⟨?_, ?_, ?_, mid, n, ?_, h6⟩
  · intro hnil
    rw [pathNodes, hnil] at hmap
    rw [hmid] at hmap
    simp at hmap
  · rw [hmap, List.head?_append_of_ne_nil _ (by rw [hmid]; simp)]
    exact h4
  · rw [hmap]
    simp
  · rw [hmap, hmid]; simp

/-- C8, as amended. When `sqrt (x * x) = |x|`, `cos² + sin² = 1`, the start
clearance is not negative and `SpaceExploration`, called with empty containers
and an empty circle path, reports success, the circles of the installed path
are search circles `cs` followed by the goal circle twice; for every adjacent
pair `(prev, node)` of `cs` the segment between the centres lies inside the
disk of `prev`, `euclidean(prev.centre, node.centre) ≤ prev.radius`; the last
circle of `cs` and the goal circle overlap under factor `0.5`. -/
theorem path_segments_of_search_circles (env : Env R) (fuel : Nat)
    (s s1 : HolonomicHeuristic R) (hsqrt : ∀ x, env.sqrt (x * x) = |x|)
    (htrig : ∀ a, env.cos a * env.cos a + env.sin a * env.sin a = 1)
    (hclear : 0 ≤ s.grid.GetObstacleDistance s.start.position)
    (hq : Quiescent s) (hp : s.circle_path = [])
    (h : SpaceExploration env fuel s = Outcome.ok (true, s1)) :
    ∃ (cs : List (Circle R)) (n : Circle R),
      (pathNodes s1).map (fun x => x.circle) =
        cs ++ [⟨s.goal.position, s.grid.GetObstacleDistance s.goal.position⟩,
          ⟨s.goal.position, s.grid.GetObstacleDistance s.goal.position⟩] ∧
      cs.getLast? = some n ∧
      List.Chain' (fun prev node => Distance env prev.position node.position ≤ prev.r) cs ∧
      Overlap env n ⟨s.goal.position, s.grid.GetObstacleDistance s.goal.position⟩ (1 / 2)
        = true := by
  obtain ⟨_, _, _, _, _, _, _, hsucc⟩ := SpaceExploration_post env fuel s true s1 hq h
  obtain ⟨newPtrs, cs, n, h1, _, h3, h4, h5, h6, h7, _, _⟩ := (hsucc rfl).path
  rw [hp, List.nil_append] at h1
  refine ⟨cs, n, ?_, h5, ?_, h6⟩
  · rw [← h3, pathNodes, h1, List.map_map]; rfl
  · apply chain'_within env s.grid hsqrt htrig cs h7
    intro c hc
    rw [h4] at hc
    simp only [Option.mem_def, Option.some.injEq] at hc
    rw [← hc]
    exact hclear

/-- C5. On a state with empty containers, `UpdateHeuristic` leaves the state
as it is exactly when the grid does not report a change and the goal equals the
cached goal, for every start; otherwise it runs the rebuild. A call that
follows a returned call, with the same goal and a grid that reports no change,
changes nothing. -/
theorem UpdateHeuristic_rebuild_iff (env : Env R) (fuel : Nat) (s : HolonomicHeuristic R)
    (grid_map : InternalGridMap R) (start_ goal_ : Pose2D R) (hq : Quiescent s) :
    (UpdateHeuristic env fuel s grid_map start_ goal_ = Outcome.ok s ↔
      ¬ (grid_map.HasChanged = true ∨ s.goal ≠ goal_)) ∧
    ((grid_map.HasChanged = true ∨ s.goal ≠ goal_) →
      UpdateHeuristic env fuel s grid_map start_ goal_ =
        updateRebuild env fuel s grid_map start_ goal_) ∧
    (∀ s1, UpdateHeuristic env fuel s grid_map start_ goal_ = Outcome.ok s1 →
      ∀ (fuel2 : Nat) (grid2 : InternalGridMap R) (start2 : Pose2D R),
        grid2.HasChanged = false →
        UpdateHeuristic env fuel2 s1 grid2 start2 goal_ = Outcome.ok s1) := by
  have hreb : ∀ s1, updateRebuild env fuel s grid_map start_ goal_ = Outcome.ok s1 →
      s1.goal = goal_ ∧ s.brk + 2 ≤ s1.brk := by
    intro s1 h1
    unfold updateRebuild at h1
    cases hS : SpaceExploration env fuel
        ({ s with grid := grid_map, start := start_, goal := goal_, circle_path := [] } :
          HolonomicHeuristic R) with
    | diverge => rw [hS] at h1; simp at h1
    | outOfFuel => rw [hS] at h1; simp at h1
    | undefined => rw [hS] at h1; simp at h1
    | ok r =>
      obtain ⟨b, s2⟩ := r
      rw [hS] at h1
      simp only [Outcome.ok.injEq] at h1
      subst h1
      have hq2 : Quiescent
          ({ s with
              grid := grid_map
              start := start_
              goal := goal_
              circle_path := [] } : HolonomicHeuristic R) := hq
      obtain ⟨_, _, _, hg, _, hb, _, _⟩ := SpaceExploration_post env fuel _ b s2 hq2 hS
      exact ⟨hg, hb⟩
  refine ⟨⟨?_, ?_⟩, ?_, ?_⟩
  · intro h hc
    unfold UpdateHeuristic at h
    rw [if_pos hc] at h
    have := (hreb s h).2
    omega
  · intro hc
    unfold UpdateHeuristic
    rw [if_neg hc]
  · intro hc
    unfold UpdateHeuristic
    rw [if_pos hc]
  · intro s1 h1 fuel2 grid2 start2 hg2
    have hgoal : s1.goal = goal_ := by
      unfold UpdateHeuristic at h1
      by_cases hc : grid_map.HasChanged = true ∨ s.goal ≠ goal_
      · rw [if_pos hc] at h1
        exact (hreb s1 h1).1
      · rw [if_neg hc] at h1
        simp only [Outcome.ok.injEq] at h1
        subst h1
        by_contra hne
        exact hc (Or.inr hne)
    unfold UpdateHeuristic
    rw [if_neg]
    rw [hg2, hgoal]
    simp

/-- C6. When `UpdateHeuristic`, on a state with empty containers, triggers a
rebuild and `SpaceExploration` fails, the call returns a state whose circle
path is empty, whatever it held before, and every query is the Euclidean
distance from the probe to the goal just passed. -/
theorem UpdateHeuristic_failure (env : Env R) (fuel : Nat) (s s1 : HolonomicHeuristic R)
    (grid_map : InternalGridMap R) (start_ goal_ : Pose2D R) (hq : Quiescent s)
    (htrig : grid_map.HasChanged = true ∨ s.goal ≠ goal_)
    (hfail : SpaceExploration env fuel
      ({ s with grid := grid_map, start := start_, goal := goal_, circle_path := [] } :
        HolonomicHeuristic R) = Outcome.ok (false, s1)) :
    UpdateHeuristic env fuel s grid_map start_ goal_ = Outcome.ok s1 ∧
      s1.circle_path = [] ∧
      ∀ p, GetHeuristicValue env s1 p = Distance env p.position goal_.position := by
  have hq2 : Quiescent
      ({ s with
          grid := grid_map
          start := start_
          goal := goal_
          circle_path := [] } : HolonomicHeuristic R) := hq
  obtain ⟨_, _, _, hg, _, _, hpath, _⟩ := SpaceExploration_post env fuel _ false s1 hq2 hfail
  have hp : s1.circle_path = [] := hpath rfl
  have hg2 : s1.goal = goal_ := hg
  refine ⟨?_, hp, ?_⟩
  · unfold UpdateHeuristic
    rw [if_pos htrig]
    unfold updateRebuild
    rw [hfail]
  · intro p
    simp only [GetHeuristicValue, NearestCircleNode, hp]
    rw [hg2]
    exact Distance_comm env _ _

/-- C9, as amended. At the termination of the search of `SpaceExploration`
(success or exhaustion, before the nodes are released), no closed node
overlaps, under factor `0.1`, a node that entered the closed set before its
parent did. -/
theorem closed_pruned_at_termination (env : Env R) (fuel : Nat) (s : HolonomicHeuristic R)
    (b : Bool) (s1 : HolonomicHeuristic R) (hq : Quiescent s)
    (h : SpaceExplorationSearch env fuel s = Outcome.ok (b, s1)) :
    ∀ p q l1 l2, p ∈ s1.closed → (s1.heap p).parent = some q → s1.closed = l1 ++ q :: l2 →
      ∀ t, t ∈ l1 → Overlap env (s1.heap p).circle (s1.heap t).circle (1 / 10) = false :=
  (SpaceExplorationSearch_post env fuel s b s1 hq h).2.2

end Lifecycle

/-! ## Witnesses and counterexamples on concrete inputs -/

/-- C4, witness: on the field with the post the exploration succeeds, and the
installed path is the start circle, then the goal circle twice. -/
theorem SpaceExploration_success_path_witness :
    ∃ s1, SpaceExploration envQ 5 lonePostState = Outcome.ok (true, s1) ∧
      (pathNodes s1).map (fun x => x.circle) = [⟨⟨0, 0⟩, 2⟩, ⟨⟨8, 0⟩, 10⟩, ⟨⟨8, 0⟩, 10⟩] ∧
      s1.circle_path ≠ [] ∧
      ((pathNodes s1).map (fun x => x.circle)).head? =
        some ⟨lonePostState.start.position,
          lonePostState.grid.GetObstacleDistance lonePostState.start.position⟩ ∧
      ((pathNodes s1).map (fun x => x.circle)).getLast? =
        some ⟨lonePostState.goal.position,
          lonePostState.grid.GetObstacleDistance lonePostState.goal.position⟩ ∧
      ∃ (mid : List (Circle ℚ)) (n : Circle ℚ),
        (pathNodes s1).map (fun x => x.circle) =
          mid ++ [n, ⟨lonePostState.goal.position,
              lonePostState.grid.GetObstacleDistance lonePostState.goal.position⟩,
            ⟨lonePostState.goal.position,
              lonePostState.grid.GetObstacleDistance lonePostState.goal.position⟩] ∧
        Overlap envQ n ⟨lonePostState.goal.position,
          lonePostState.grid.GetObstacleDistance lonePostState.goal.position⟩ (1 / 2) = true := by
  have hflag : (SpaceExploration envQ 5 lonePostState).flag = some true := by decide!
  have hpath : (pathNodes ((SpaceExploration envQ 5 lonePostState).stateD lonePostState)).map
      (fun x => x.circle) = [⟨⟨0, 0⟩, 2⟩, ⟨⟨8, 0⟩, 10⟩, ⟨⟨8, 0⟩, 10⟩] := by decide!
  obtain ⟨s1, h⟩ := Outcome.flag_eq_some _ true hflag
  rw [h] at hpath
  exact ⟨s1, h, hpath,
    SpaceExploration_success_path envQ 5 lonePostState s1 ⟨rfl, rfl, rfl⟩ rfl h⟩

theorem twoNodes_chain : IsChain twoNodes.heap (some 1) [1, 0] := by
  simp [IsChain, twoNodes]

/-- C3, counterexample. On the field with the post the rebuilt path is the
root `(0,0)` with `g = 8`, then the goal `(8,0)` twice with `g = 0`: the second
node does not cost what the first costs plus their distance, `0 ≠ 8 + 8`.
The same values come out of the call of `RebuildCirclePath` on `twoNodes` and
of the whole `UpdateHeuristic`. -/
theorem rebuild_cost_counterexample :
    (∃ s1, RebuildCirclePath envQ 1 twoNodes = some s1 ∧
      (pathNodes s1).map (fun x => x.g) = [8, 0, 0] ∧
      ¬ (∀ i, i + 1 < s1.circle_path.length →
        (pathNode s1 (i + 1)).g = (pathNode s1 i).g +
          Distance envQ (pathNode s1 i).circle.position
            (pathNode s1 (i + 1)).circle.position)) ∧
    (UpdateHeuristic envQ 5 (construct lonePost) lonePost ⟨⟨0, 0⟩, 0⟩ ⟨⟨8, 0⟩, 0⟩).isOk = true ∧
    (pathNodes ((UpdateHeuristic envQ 5 (construct lonePost) lonePost ⟨⟨0, 0⟩, 0⟩
      ⟨⟨8, 0⟩, 0⟩).getD (construct lonePost))).map (fun x => (x.circle.position.x, x.g)) =
        [(0, 8), (8, 0), (8, 0)] := by
  refine ⟨?_, by decide!, by decide!⟩
  have hsome : (RebuildCirclePath envQ 1 twoNodes).isSome = true := by decide!
  have hg : (pathNodes ((RebuildCirclePath envQ 1 twoNodes).getD twoNodes)).map (fun x => x.g)
      = [8, 0, 0] := by decide!
  have hbad : 0 + 1 < ((RebuildCirclePath envQ 1 twoNodes).getD twoNodes).circle_path.length ∧
      (pathNode ((RebuildCirclePath envQ 1 twoNodes).getD twoNodes) (0 + 1)).g ≠
        (pathNode ((RebuildCirclePath envQ 1 twoNodes).getD twoNodes) 0).g +
          Distance envQ
            (pathNode ((RebuildCirclePath envQ 1 twoNodes).getD twoNodes) 0).circle.position
            (pathNode ((RebuildCirclePath envQ 1 twoNodes).getD twoNodes) (0 + 1)).circle.position := by
    decide!
  obtain ⟨s1, h⟩ := Option.isSome_iff_exists.mp hsome
  rw [h] at hg hbad
  exact ⟨s1, h, hg, fun hall => hbad.2 (hall 0 hbad.1)⟩

/-- C3, witness of the amended statement on `twoNodes`. -/
theorem RebuildCirclePath_cost_to_go_witness :
    IsChain twoNodes.heap (some 1) [1, 0] ∧ (∀ c, c ∈ [1, 0] → c < twoNodes.brk) ∧
    twoNodes.circle_path = [] ∧
    ∃ s1, RebuildCirclePath envQ 1 twoNodes = some s1 ∧
      ∀ i, i + 1 < s1.circle_path.length →
        (pathNode s1 i).g = (pathNode s1 (i + 1)).g +
          Distance envQ (pathNode s1 i).circle.position (pathNode s1 (i + 1)).circle.position :=
  ⟨twoNodes_chain, by decide, rfl,
    RebuildCirclePath_cost_to_go envQ twoNodes 1 [1, 0] twoNodes_chain (by decide) rfl⟩

/-- C10, counterexample. The chain of `twoNodes` has the two circles of the
root and of the goal; `RebuildCirclePath` installs three circles, the goal
circle twice, and so does the whole `UpdateHeuristic` on the field with the
post. -/
theorem rebuild_circles_counterexample :
    IsChain twoNodes.heap (some 1) [1, 0] ∧
    (∃ s1, RebuildCirclePath envQ 1 twoNodes = some s1 ∧
      (pathNodes s1).map (fun x => x.circle) = [⟨⟨0, 0⟩, 2⟩, ⟨⟨8, 0⟩, 10⟩, ⟨⟨8, 0⟩, 10⟩] ∧
      (pathNodes s1).map (fun x => x.circle) ≠
        [1, 0].reverse.map (fun p => (twoNodes.heap p).circle)) ∧
    (UpdateHeuristic envQ 5 (construct lonePost) lonePost ⟨⟨0, 0⟩, 0⟩ ⟨⟨8, 0⟩, 0⟩).isOk = true ∧
    (pathNodes ((UpdateHeuristic envQ 5 (construct lonePost) lonePost ⟨⟨0, 0⟩, 0⟩
      ⟨⟨8, 0⟩, 0⟩).getD (construct lonePost))).map (fun x => x.circle) =
        [⟨⟨0, 0⟩, 2⟩, ⟨⟨8, 0⟩, 10⟩, ⟨⟨8, 0⟩, 10⟩] := by
  refine ⟨twoNodes_chain, ?_, by decide!, by decide!⟩
  have hsome : (RebuildCirclePath envQ 1 twoNodes).isSome = true := by decide!
  have hc : (pathNodes ((RebuildCirclePath envQ 1 twoNodes).getD twoNodes)).map
      (fun x => x.circle) = [⟨⟨0, 0⟩, 2⟩, ⟨⟨8, 0⟩, 10⟩, ⟨⟨8, 0⟩, 10⟩] ∧
      (pathNodes ((RebuildCirclePath envQ 1 twoNodes).getD twoNodes)).map (fun x => x.circle) ≠
        [1, 0].reverse.map (fun p => (twoNodes.heap p).circle) := by decide!
  obtain ⟨s1, h⟩ := Option.isSome_iff_exists.mp hsome
  rw [h] at hc
  exact ⟨s1, h, hc.1, hc.2⟩

/-- C10, witness of the amended statement on `twoNodes`. -/
theorem RebuildCirclePath_circles_witness :
    IsChain twoNodes.heap (some 1) [1, 0] ∧ (∀ c, c ∈ [1, 0] → c < twoNodes.brk) ∧
    twoNodes.circle_path = [] ∧
    ∃ s1, RebuildCirclePath envQ 1 twoNodes = some s1 ∧
      (pathNodes s1).map (fun x => x.circle) =
        [1, 0].reverse.map (fun p => (twoNodes.heap p).circle) ++ [(twoNodes.heap 1).circle] ∧
      s1.circle_path.length = [1, 0].length + 1 ∧
      (∀ p, p ∈ s1.circle_path → twoNodes.brk ≤ p) :=
  ⟨twoNodes_chain, by decide, rfl,
    RebuildCirclePath_circles envQ twoNodes 1 [1, 0] twoNodes_chain (by decide) rfl⟩

/-- C8, counterexample. On the field with the post the exploration succeeds
with the path start circle `(0,0)`, radius `2`, then goal circle `(8,0)`: the
goal centre is at distance `8` from the start centre, outside the start disk. -/
theorem path_segment_counterexample :
    ∃ s1, SpaceExploration envQ 5 lonePostState = Outcome.ok (true, s1) ∧
      (pathNodes s1).map (fun x => x.circle) = [⟨⟨0, 0⟩, 2⟩, ⟨⟨8, 0⟩, 10⟩, ⟨⟨8, 0⟩, 10⟩] ∧
      Distance envQ (pathNode s1 0).circle.position (pathNode s1 1).circle.position = 8 ∧
      ¬ (∀ i, i + 1 < s1.circle_path.length →
        Distance envQ (pathNode s1 i).circle.position (pathNode s1 (i + 1)).circle.position ≤
          (pathNode s1 i).circle.r) := by
  have hflag : (SpaceExploration envQ 5 lonePostState).flag = some true := by decide!
  have hc : (pathNodes ((SpaceExploration envQ 5 lonePostState).stateD lonePostState)).map
      (fun x => x.circle) = [⟨⟨0, 0⟩, 2⟩, ⟨⟨8, 0⟩, 10⟩, ⟨⟨8, 0⟩, 10⟩] ∧
      Distance envQ
        (pathNode ((SpaceExploration envQ 5 lonePostState).stateD lonePostState) 0).circle.position
        (pathNode ((SpaceExploration envQ 5 lonePostState).stateD lonePostState) 1).circle.position
        = 8 ∧
      0 + 1 < ((SpaceExploration envQ 5 lonePostState).stateD lonePostState).circle_path.length ∧
      ¬ (Distance envQ
        (pathNode ((SpaceExploration envQ 5 lonePostState).stateD lonePostState) 0).circle.position
        (pathNode ((SpaceExploration envQ 5 lonePostState).stateD lonePostState)
          (0 + 1)).circle.position ≤
        (pathNode ((SpaceExploration envQ 5 lonePostState).stateD lonePostState) 0).circle.r) := by
    decide!
  obtain ⟨s1, h⟩ := Outcome.flag_eq_some _ true hflag
  rw [h] at hc
  exact ⟨s1, h, hc.1, hc.2.1, fun hall => hc.2.2.2 (hall 0 hc.2.2.1)⟩

/-- C9, counterexample. In the dead-end corridor the search ends by exhaustion
with the closed set `[0, 3, 2, 5, 4]`; the cells `3` and `2` are two children of
the root `0`, neither the parent of the other, and their circles overlap under
factor `0.1`. -/
theorem closed_overlap_counterexample :
    ∃ s1, SpaceExplorationSearch envQ 20 corridorState = Outcome.ok (false, s1) ∧
      s1.closed = [0, 3, 2, 5, 4] ∧
      ¬ (∀ p q, p ∈ s1.closed → q ∈ s1.closed → p ≠ q →
        (s1.heap p).parent ≠ some q → (s1.heap q).parent ≠ some p →
        Overlap envQ (s1.heap p).circle (s1.heap q).circle (1 / 10) = false) := by
  have hflag : (SpaceExplorationSearch envQ 20 corridorState).flag = some false := by decide!
  have hc : ((SpaceExplorationSearch envQ 20 corridorState).stateD corridorState).closed =
        [0, 3, 2, 5, 4] ∧
      (((SpaceExplorationSearch envQ 20 corridorState).stateD corridorState).heap 3).parent
        ≠ some 2 ∧
      (((SpaceExplorationSearch envQ 20 corridorState).stateD corridorState).heap 2).parent
        ≠ some 3 ∧
      Overlap envQ
        (((SpaceExplorationSearch envQ 20 corridorState).stateD corridorState).heap 3).circle
        (((SpaceExplorationSearch envQ 20 corridorState).stateD corridorState).heap 2).circle
        (1 / 10) = true := by decide!
  obtain ⟨s1, h⟩ := Outcome.flag_eq_some _ false hflag
  rw [h] at hc
  simp only [Outcome.stateD] at hc
  refine ⟨s1, h, hc.1, ?_⟩
  intro hall
  have := hall 3 2 (by rw [hc.1]; decide) (by rw [hc.1]; decide) (by decide) hc.2.1 hc.2.2.1
  rw [hc.2.2.2] at this
  exact absurd this (by decide)

/-- C5, witness: the constructed state on the corridor. -/
theorem UpdateHeuristic_rebuild_iff_witness :
    Quiescent (construct corridor) ∧
    (UpdateHeuristic envQ 20 (construct corridor) corridor ⟨⟨0, 0⟩, 0⟩ ⟨⟨0, 10⟩, 0⟩ =
        Outcome.ok (construct corridor) ↔
      ¬ (corridor.HasChanged = true ∨ (construct corridor).goal ≠ ⟨⟨0, 10⟩, 0⟩)) ∧
    ((corridor.HasChanged = true ∨ (construct corridor).goal ≠ ⟨⟨0, 10⟩, 0⟩) →
      UpdateHeuristic envQ 20 (construct corridor) corridor ⟨⟨0, 0⟩, 0⟩ ⟨⟨0, 10⟩, 0⟩ =
        updateRebuild envQ 20 (construct corridor) corridor ⟨⟨0, 0⟩, 0⟩ ⟨⟨0, 10⟩, 0⟩) ∧
    (∀ s1, UpdateHeuristic envQ 20 (construct corridor) corridor ⟨⟨0, 0⟩, 0⟩ ⟨⟨0, 10⟩, 0⟩ =
        Outcome.ok s1 →
      ∀ (fuel2 : Nat) (grid2 : InternalGridMap ℚ) (start2 : Pose2D ℚ),
        grid2.HasChanged = false →
        UpdateHeuristic envQ fuel2 s1 grid2 start2 ⟨⟨0, 10⟩, 0⟩ = Outcome.ok s1) :=
  ⟨⟨rfl, rfl, rfl⟩,
    UpdateHeuristic_rebuild_iff envQ 20 (construct corridor) corridor ⟨⟨0, 0⟩, 0⟩ ⟨⟨0, 10⟩, 0⟩
      ⟨rfl, rfl, rfl⟩⟩

/-- C6, witness: on the dead-end corridor the rebuild fails and the queries fall
back to the distance to the goal. -/
theorem UpdateHeuristic_failure_witness :
    Quiescent (construct corridor) ∧
    (corridor.HasChanged = true ∨ (construct corridor).goal ≠ ⟨⟨0, 10⟩, 0⟩) ∧
    ∃ s1, SpaceExploration envQ 20
        ({ construct corridor with
            grid := corridor
            start := ⟨⟨0, 0⟩, 0⟩
            goal := ⟨⟨0, 10⟩, 0⟩
            circle_path := [] } : HolonomicHeuristic ℚ) =
          Outcome.ok (false, s1) ∧
      UpdateHeuristic envQ 20 (construct corridor) corridor ⟨⟨0, 0⟩, 0⟩ ⟨⟨0, 10⟩, 0⟩ =
        Outcome.ok s1 ∧
      s1.circle_path = [] ∧
      ∀ p, GetHeuristicValue envQ s1 p =
        Distance envQ p.position (⟨⟨0, 10⟩, 0⟩ : Pose2D ℚ).position := by
  have hflag : (SpaceExploration envQ 20
      ({ construct corridor with
          grid := corridor
          start := ⟨⟨0, 0⟩, 0⟩
          goal := ⟨⟨0, 10⟩, 0⟩
          circle_path := [] } : HolonomicHeuristic ℚ)).flag = some false := by
    decide!
  obtain ⟨s1, h⟩ := Outcome.flag_eq_some _ false hflag
  exact ⟨⟨rfl, rfl, rfl⟩, Or.inl rfl, s1, h,
    UpdateHeuristic_failure envQ 20 (construct corridor) s1 corridor ⟨⟨0, 0⟩, 0⟩ ⟨⟨0, 10⟩, 0⟩
      ⟨rfl, rfl, rfl⟩ (Or.inl rfl) h⟩

/-- C7, witness: the children of the root of the dead-end corridor are the four
cells `2, 3, 4, 5`. -/
theorem GetChildren_emits_witness :
    (0 : ℚ) < envQ.M_PI ∧
    (GetChildren envQ (explorationInit envQ corridorState).2 0).map Prod.fst =
      some [2, 3, 4, 5] ∧
    ∃ cs s1, GetChildren envQ (explorationInit envQ corridorState).2 0 = some (cs, s1) ∧
      cs.map (fun c => (s1.heap c).circle) =
        (List.range 37).filterMap (candidateCircle envQ (explorationInit envQ corridorState).2.grid
          ((explorationInit envQ corridorState).2.heap 0).circle) ∧
      (∀ c, c ∈ cs →
        (explorationInit envQ corridorState).2.grid.isValidPoint (s1.heap c).circle.position
          = true ∧
        (s1.heap c).circle.r =
          (explorationInit envQ corridorState).2.grid.GetObstacleDistance
            (s1.heap c).circle.position - 1 / 4 ∧
        (s1.heap c).circle.r > 3 / 2) :=
  ⟨by decide!, by decide!,
    GetChildren_emits envQ (explorationInit envQ corridorState).2 0 (by decide!)⟩

/-- C1, witness: centres `(0,0)`, `(10,0)`, `(20,0)` with `g = 0, 10, 20` and
the probe `(11,0)` give `29`. -/
theorem GetHeuristicValue_nearest_lookahead_witness :
    GetHeuristicValue envQ threeCircles ⟨⟨11, 0⟩, 0⟩ = 29 ∧
    ∃ i, i < threeCircles.circle_path.length ∧
      (∀ k, k < threeCircles.circle_path.length →
        probeDistance envQ threeCircles ⟨⟨11, 0⟩, 0⟩ i ≤
          probeDistance envQ threeCircles ⟨⟨11, 0⟩, 0⟩ k) ∧
      (∀ k, k < i → probeDistance envQ threeCircles ⟨⟨11, 0⟩, 0⟩ i <
          probeDistance envQ threeCircles ⟨⟨11, 0⟩, 0⟩ k) ∧
      GetHeuristicValue envQ threeCircles ⟨⟨11, 0⟩, 0⟩ =
        if i + 1 < threeCircles.circle_path.length ∧
            Distance2 (pathNode threeCircles i).circle.position
                (pathNode threeCircles (i + 1)).circle.position >
              Distance2 (⟨11, 0⟩ : Vector2D ℚ) (pathNode threeCircles (i + 1)).circle.position
        then (pathNode threeCircles (i + 1)).g +
          probeDistance envQ threeCircles ⟨⟨11, 0⟩, 0⟩ (i + 1)
        else (pathNode threeCircles i).g + probeDistance envQ threeCircles ⟨⟨11, 0⟩, 0⟩ i :=
  ⟨by decide!, GetHeuristicValue_nearest_lookahead envQ threeCircles ⟨⟨11, 0⟩, 0⟩ (by decide)⟩

/-! ## The overlap test and the closed-set duplicate test -/

section OverlapTest

variable {R : Type} [LinearOrderedField R]

theorem Overlap_eq_decide (env : Env R) (a b : Circle R) (factor : R) :
    Overlap env a b factor =
      decide (Distance env a.position b.position - max a.r b.r < factor * min a.r b.r) := by
  unfold Overlap
  by_cases h : a.r > b.r
  · simp only [h, if_true, max_eq_left (le_of_lt h), min_eq_right (le_of_lt h)]
  · simp only [h, if_false, max_eq_right (not_lt.mp h), min_eq_left (not_lt.mp h)]

theorem ProcessNodeSearch_flag (env : Env R) (s s1 : HolonomicHeuristic R) (goal cn : Nat)
    (b : Bool) (hcn : cn < s.brk) (hgoal : goal < s.brk)
    (h : ProcessNodeSearch env goal cn s = Outcome.ok (b, s1)) :
    b = Overlap env (s.heap cn).circle (s.heap goal).circle (1 / 2) := by
  obtain ⟨sA, hsA⟩ : ∃ x : HolonomicHeuristic R, x = { s with
      closed := s.closed ++ [cn]
      heap := Function.update s.heap cn { s.heap cn with explored := true } } := ⟨_, rfl⟩
  have hunf : ProcessNodeSearch env goal cn s =
      (match ExploreCircleNode env cn sA with
      | none => Outcome.diverge
      | some s3 =>
        if Overlap env (s3.heap cn).circle (s3.heap goal).circle (1 / 2) = true then
          (match RebuildCirclePath env goal { s3 with
              heap := Function.update s3.heap goal
                { s3.heap goal with parent := some cn } } with
          | none => Outcome.diverge
          | some s5 => Outcome.ok (true, s5))
        else Outcome.ok (false, s3)) := by
    rw [hsA]; rfl
  have hcirc : ∀ q, (sA.heap q).circle = (s.heap q).circle := by
    intro q
    rw [hsA]
    by_cases hq : q = cn
    · subst hq; simp only [Function.update_same]
    · simp only [Function.update_noteq hq]
  have hbrk : sA.brk = s.brk := by rw [hsA]
  rw [hunf] at h
  cases hE : ExploreCircleNode env cn sA with
  | none => rw [hE] at h; simp at h
  | some s3 =>
    rw [hE] at h
    simp only at h
    have hpost := ExploreCircleNode_post env cn sA s3 (by rw [hbrk]; exact hcn) hE
    have h1 : (s3.heap cn).circle = (s.heap cn).circle := by
      rw [hpost.old_heap cn (by rw [hbrk]; exact hcn), hcirc]
    have h2 : (s3.heap goal).circle = (s.heap goal).circle := by
      rw [hpost.old_heap goal (by rw [hbrk]; exact hgoal), hcirc]
    rw [h1, h2] at h
    by_cases hov : Overlap env (s.heap cn).circle (s.heap goal).circle (1 / 2) = true
    · rw [if_pos hov] at h
      rw [hov]
      split at h
      · simp at h
      · simp only [Outcome.ok.injEq, Prod.mk.injEq] at h
        exact h.1.symm
    · rw [if_neg hov] at h
      simp only [Outcome.ok.injEq, Prod.mk.injEq] at h
      rw [← h.1]
      simpa using hov

/-- C13: `Overlap(A, B, factor)` is true exactly when
`distance(A.centre, B.centre) − max(A.r, B.r) < factor × min(A.r, B.r)`, with a
strict inequality, also for equal radii; `NotExist` tests a closed node that is
not the parent with factor `0.1`, and `ProcessNode` reports success exactly when
the node overlaps the goal circle under factor `0.5`. -/
theorem Overlap_iff_max_min (env : Env R) (a b : Circle R) (factor : R) :
    (Overlap env a b factor = true ↔
      Distance env a.position b.position - max a.r b.r < factor * min a.r b.r) ∧
    (a.r = b.r → (Overlap env a b factor = true ↔
      Distance env a.position b.position - a.r < factor * a.r)) ∧
    (∀ (s : HolonomicHeuristic R) (cn t : Nat),
      NotExist env { s with closed := [t] } cn =
        !(decide (some t ≠ (s.heap cn).parent) &&
          Overlap env (s.heap cn).circle (s.heap t).circle (1 / 10))) ∧
    (∀ (s s1 : HolonomicHeuristic R) (goal cn : Nat) (r : Bool), cn < s.brk → goal < s.brk →
      ProcessNode env goal cn s = Outcome.ok (r, s1) →
      r = Overlap env (s.heap cn).circle (s.heap goal).circle (1 / 2)) := by
  refine ⟨?_, ?_, ?_, ?_⟩
  · rw [Overlap_eq_decide]; simp
  · intro hr
    rw [Overlap_eq_decide, hr]; simp
  · intro s cn t
    simp only [NotExist, notExistScan]
    by_cases h1 : some t ≠ (s.heap cn).parent
    · by_cases h2 : Overlap env (s.heap cn).circle (s.heap t).circle (1 / 10) = true
      · simp [h1, h2]
      · simp [h1, h2]
    · simp [h1]
  · intro s s1 goal cn r hcn hgoal h
    rw [ProcessNode_eq] at h
    cases hP : ProcessNodeSearch env goal cn s with
    | ok v =>
      obtain ⟨b2, s2⟩ := v
      rw [hP] at h
      have := ProcessNodeSearch_flag env s s2 goal cn b2 hcn hgoal hP
      cases b2 with
      | true =>
        simp only [Outcome.ok.injEq, Prod.mk.injEq] at h
        rw [← h.1]; exact this
      | false =>
        simp only [Outcome.ok.injEq, Prod.mk.injEq] at h
        rw [← h.1]; exact this
    | diverge => rw [hP] at h; simp at h
    | outOfFuel => rw [hP] at h; simp at h
    | undefined => rw [hP] at h; simp at h

/-- C14: `NotExist(k)` is true if and only if no closed node other than the
parent of `k` overlaps the circle of `k` under factor `0.1`; it is true on an
empty closed set, and it is true when every closed node that overlaps `k` is
the parent of `k`. -/
theorem NotExist_iff (env : Env R) (s : HolonomicHeuristic R) (k : Nat) :
    (NotExist env s k = true ↔
      ∀ t, t ∈ s.closed → some t ≠ (s.heap k).parent →
        Overlap env (s.heap k).circle (s.heap t).circle (1 / 10) = false) ∧
    (s.closed = [] → NotExist env s k = true) ∧
    ((∀ t, t ∈ s.closed → Overlap env (s.heap k).circle (s.heap t).circle (1 / 10) = true →
        (s.heap k).parent = some t) → NotExist env s k = true) := by
  have hiff := notExistScan_eq_true_iff env s.heap k s.closed
  refine ⟨hiff, ?_, ?_⟩
  · intro hc
    unfold NotExist
    rw [hiff, hc]
    intro t ht
    simp at ht
  · intro hall
    unfold NotExist
    rw [hiff]
    intro t ht hne
    by_contra hov
    have hov2 : Overlap env (s.heap k).circle (s.heap t).circle (1 / 10) = true := by
      simpa using hov
    exact hne (hall t ht hov2).symm

end OverlapTest

/-- C13, witness: the start circle `((0,0), 2)` and the goal circle `((8,0), 10)`
of the field with the post overlap under factor `0.5`, `8 − 10 < 0.5 · 2`; two
circles of radius `2` at distance `3` do not, `3 − 2 < 0.5 · 2` is false. -/
theorem Overlap_iff_max_min_witness :
    Overlap envQ ⟨⟨0, 0⟩, 2⟩ ⟨⟨8, 0⟩, 10⟩ (1 / 2) = true ∧
    Distance envQ (⟨0, 0⟩ : Vector2D ℚ) ⟨8, 0⟩ - max 2 10 < 1 / 2 * min 2 10 ∧
    Overlap envQ ⟨⟨0, 0⟩, 2⟩ ⟨⟨3, 0⟩, 2⟩ (1 / 2) = false ∧
    ¬ (Distance envQ (⟨0, 0⟩ : Vector2D ℚ) ⟨3, 0⟩ - 2 < 1 / 2 * 2) :=
  ⟨by decide!, (Overlap_iff_max_min envQ ⟨⟨0, 0⟩, 2⟩ ⟨⟨8, 0⟩, 10⟩ (1 / 2)).1.mp (by decide!),
    by decide!,
    fun h => absurd (((Overlap_iff_max_min envQ ⟨⟨0, 0⟩, 2⟩ ⟨⟨3, 0⟩, 2⟩ (1 / 2)).2.1 rfl).mpr h)
      (by decide!)⟩

/-- C14, witness: on `twoNodes` the closed set holds the root only, the root is
the parent of cell `1` and overlaps it under factor `0.1`, and `NotExist`
admits cell `1`. -/
theorem NotExist_iff_witness :
    twoNodes.closed = [0] ∧ (twoNodes.heap 1).parent = some 0 ∧
    Overlap envQ (twoNodes.heap 1).circle (twoNodes.heap 0).circle (1 / 10) = true ∧
    NotExist envQ twoNodes 1 = true :=
  ⟨rfl, rfl, by decide!, (NotExist_iff envQ twoNodes 1).2.2 (by
    intro t ht _
    have : t = 0 := by simpa [twoNodes] using ht
    subst this
    rfl)⟩

/-! ## The query in the reachable states -/

section Reachability

variable {R : Type} [LinearOrderedField R]

theorem Distance2_nonneg (a b : Vector2D R) : 0 ≤ Distance2 a b := by
  unfold Distance2
  exact add_nonneg (mul_self_nonneg _) (mul_self_nonneg _)

theorem Distance_nonneg (env : Env R) (hsqrt : ∀ x, 0 ≤ x → 0 ≤ env.sqrt x)
    (a b : Vector2D R) : 0 ≤ Distance env a b :=
  hsqrt _ (Distance2_nonneg a b)

theorem getD_mem_cons (c0 : Nat) (rest : List Nat) (i : Nat) :
    (c0 :: rest).getD i c0 ∈ c0 :: rest := by
  rw [List.getD_eq_getElem?_getD]
  by_cases h : i < (c0 :: rest).length
  · rw [List.getElem?_eq_getElem h]
    exact List.getElem_mem _
  · rw [List.getElem?_eq_none (not_lt.mp h)]
    simp

theorem NearestCircleNode_mem (env : Env R) (s : HolonomicHeuristic R) (p : Pose2D R)
    (n : Nat) (h : NearestCircleNode env s p = some n) : n ∈ s.circle_path := by
  unfold NearestCircleNode at h
  cases hc : s.circle_path with
  | nil => rw [hc] at h; simp at h
  | cons c0 rest =>
    rw [hc] at h
    simp only at h
    split at h
    · split at h
      · simp only [Option.some.injEq] at h
        rw [← h]; exact getD_mem_cons c0 rest _
      · simp only [Option.some.injEq] at h
        rw [← h]; exact getD_mem_cons c0 rest _
    · simp only [Option.some.injEq] at h
      rw [← h]; exact getD_mem_cons c0 rest _

theorem cost_chain_nonneg (env : Env R) (hsqrt : ∀ x, 0 ≤ x → 0 ≤ env.sqrt x) :
    ∀ (l : List (CircleNode R)),
      List.Chain' (fun prev node => CostStep env node prev) l →
      (l.map (fun n => n.g)).getLast? = some 0 → ∀ n, n ∈ l → 0 ≤ n.g := by
  intro l
  induction l with
  | nil => intro _ _ n hn; simp at hn
  | cons a rest ih =>
    intro hch hlast n hn
    cases rest with
    | nil =>
      simp only [List.map_cons, List.map_nil, List.getLast?_singleton, Option.some.injEq] at hlast
      simp only [List.mem_singleton] at hn
      rw [hn, hlast]
    | cons b rest2 =>
      rw [List.chain'_cons] at hch
      have hlast2 : (List.map (fun n => n.g) (b :: rest2)).getLast? = some 0 := by
        simp only [List.map_cons] at hlast ⊢
        rw [List.getLast?_cons_cons] at hlast
        exact hlast
      have ihb := ih hch.2 hlast2
      rcases List.mem_cons.mp hn with h1 | h1
      · rw [h1]
        have hstep : a.g = Distance env b.circle.position a.circle.position + b.g := hch.1
        rw [hstep]
        exact add_nonneg (Distance_nonneg env hsqrt _ _) (ihb b (List.mem_cons_self _ _))
      · exact ihb n h1

theorem Reachable_inv (env : Env R) (hsqrt : ∀ x, 0 ≤ x → 0 ≤ env.sqrt x)
    (s : HolonomicHeuristic R) (h : Reachable env s) :
    Quiescent s ∧ ∀ c, c ∈ s.circle_path → 0 ≤ (s.heap c).g := by
  induction h with
  | init map =>
    refine ⟨⟨rfl, rfl, rfl⟩, ?_⟩
    intro c hc
    simp [construct] at hc
  | step fuel s s1 grid_map start_ goal_ _ hup ih =>
    obtain ⟨hq, hg⟩ := ih
    unfold UpdateHeuristic at hup
    by_cases hc : grid_map.HasChanged = true ∨ s.goal ≠ goal_
    · rw [if_pos hc] at hup
      unfold updateRebuild at hup
      have hq2 : Quiescent ({ s with
          grid := grid_map
          start := start_
          goal := goal_
          circle_path := [] } : HolonomicHeuristic R) := hq
      cases hS : SpaceExploration env fuel ({ s with
          grid := grid_map
          start := start_
          goal := goal_
          circle_path := [] } : HolonomicHeuristic R) with
      | ok v =>
        obtain ⟨b, s2⟩ := v
        rw [hS] at hup
        simp only [Outcome.ok.injEq] at hup
        subst hup
        obtain ⟨p1, _, _, _, _, _, p7, p8⟩ := SpaceExploration_post env fuel _ b s2 hq2 hS
        refine ⟨p1, ?_⟩
        cases b with
        | false =>
          intro c hc2
          rw [p7 rfl] at hc2
          simp at hc2
        | true =>
          obtain ⟨newPtrs, cs, n, e1, _, _, _, _, _, _, e8, e9⟩ := (p8 rfl).path
          intro c hc2
          rw [e1] at hc2
          simp only [List.nil_append] at hc2
          have hlast : ((newPtrs.map s2.heap).map (fun n => n.g)).getLast? = some 0 := by
            rw [List.map_map]; exact e9
          exact cost_chain_nonneg env hsqrt _ e8 hlast (s2.heap c) (List.mem_map_of_mem _ hc2)
      | diverge => rw [hS] at hup; simp at hup
      | outOfFuel => rw [hS] at hup; simp at hup
      | undefined => rw [hS] at hup; simp at hup
    · rw [if_neg hc] at hup
      simp only [Outcome.ok.injEq] at hup
      subst hup
      exact ⟨hq, hg⟩

/-- C11: in every state that is reached from the constructor through calls of
`UpdateHeuristic` that return, whether they found a path or not, the query
`GetHeuristicValue(p)` is at least `0` for every probe `p`, given a `sqrt` that
is non-negative on non-negative numbers. -/
theorem GetHeuristicValue_nonneg (env : Env R) (hsqrt : ∀ x, 0 ≤ x → 0 ≤ env.sqrt x)
    (s : HolonomicHeuristic R) (h : Reachable env s) (p : Pose2D R) :
    0 ≤ GetHeuristicValue env s p := by
  obtain ⟨_, hg⟩ := Reachable_inv env hsqrt s h
  unfold GetHeuristicValue
  cases hn : NearestCircleNode env s p with
  | none => exact Distance_nonneg env hsqrt _ _
  | some nearest =>
    exact add_nonneg (hg nearest (NearestCircleNode_mem env s p nearest hn))
      (Distance_nonneg env hsqrt _ _)

end Reachability

theorem sqrtQ_nonneg (x : ℚ) : 0 ≤ sqrtQ x := by
  unfold sqrtQ
  split
  · positivity
  · positivity

/-- C11, witness: the state after the constructor and one call of
`UpdateHeuristic` on the field with the post, which finds a path. -/
theorem GetHeuristicValue_nonneg_witness :
    (∀ x : ℚ, 0 ≤ x → 0 ≤ envQ.sqrt x) ∧
    ∃ s1, UpdateHeuristic envQ 5 (construct lonePost) lonePost ⟨⟨0, 0⟩, 0⟩ ⟨⟨8, 0⟩, 0⟩ =
        Outcome.ok s1 ∧ s1.circle_path ≠ [] ∧ Reachable envQ s1 ∧
      ∀ p, 0 ≤ GetHeuristicValue envQ s1 p := by
  have hs : ∀ x : ℚ, 0 ≤ x → 0 ≤ envQ.sqrt x := fun x _ => sqrtQ_nonneg x
  have hok : (UpdateHeuristic envQ 5 (construct lonePost) lonePost ⟨⟨0, 0⟩, 0⟩
      ⟨⟨8, 0⟩, 0⟩).isOk = true := by decide!
  have hpath : ((UpdateHeuristic envQ 5 (construct lonePost) lonePost ⟨⟨0, 0⟩, 0⟩
      ⟨⟨8, 0⟩, 0⟩).getD (construct lonePost)).circle_path ≠ [] := by decide!
  cases hU : UpdateHeuristic envQ 5 (construct lonePost) lonePost ⟨⟨0, 0⟩, 0⟩ ⟨⟨8, 0⟩, 0⟩ with
  | ok s1 =>
    rw [hU] at hpath
    have hr : Reachable envQ s1 := Reachable.step 5 _ s1 _ _ _ (Reachable.init lonePost) hU
    exact ⟨hs, s1, rfl, hpath, hr, fun p => GetHeuristicValue_nonneg envQ hs s1 hr p⟩
  | diverge => rw [hU] at hok; simp [Outcome.isOk] at hok
  | outOfFuel => rw [hU] at hok; simp [Outcome.isOk] at hok
  | undefined => rw [hU] at hok; simp [Outcome.isOk] at hok

/-! ## The points of the main loop -/

section Points

variable {R : Type} [LinearOrderedField R]

theorem mainLoop_visit (env : Env R)
    (proc : Nat → HolonomicHeuristic R → Outcome (Bool × HolonomicHeuristic R))
    (fuel : Nat) (s : HolonomicHeuristic R) :
    mainLoop env proc (fuel + 1) s =
      (match popAt s.nearest_open (env.pickNearest fuel s.heap s.nearest_open) with
      | none => Outcome.ok (false, s)
      | some (cn, q) =>
        match visit proc cn { s with nearest_open := q } with
        | Outcome.ok (true, s2) => Outcome.ok (true, s2)
        | Outcome.ok (false, s2) =>
          (match popAt s2.largest_open (env.pickLargest fuel s2.heap s2.largest_open) with
          | none => Outcome.undefined
          | some (cn2, q2) =>
            match visit proc cn2 { s2 with largest_open := q2 } with
            | Outcome.ok (true, s4) => Outcome.ok (true, s4)
            | Outcome.ok (false, s4) => mainLoop env proc fuel s4
            | Outcome.diverge => Outcome.diverge
            | Outcome.outOfFuel => Outcome.outOfFuel
            | Outcome.undefined => Outcome.undefined)
        | Outcome.diverge => Outcome.diverge
        | Outcome.outOfFuel => Outcome.outOfFuel
        | Outcome.undefined => Outcome.undefined) := by
  rw [mainLoop]
  rfl

theorem ProcessNodeSearch_false (env : Env R) (s s1 : HolonomicHeuristic R) (goal cn : Nat)
    (hcn : cn < s.brk) (h : ProcessNodeSearch env goal cn s = Outcome.ok (false, s1)) :
    ExplorePost env cn
      ({ s with
          closed := s.closed ++ [cn]
          heap := Function.update s.heap cn { s.heap cn with explored := true } } :
        HolonomicHeuristic R) s1 ∧
    Overlap env (s1.heap cn).circle (s1.heap goal).circle (1 / 2) = false := by
  obtain ⟨sA, hsA⟩ : ∃ x : HolonomicHeuristic R, x = { s with
      closed := s.closed ++ [cn]
      heap := Function.update s.heap cn { s.heap cn with explored := true } } := ⟨_, rfl⟩
  rw [← hsA]
  have hunf : ProcessNodeSearch env goal cn s =
      (match ExploreCircleNode env cn sA with
      | none => Outcome.diverge
      | some s3 =>
        if Overlap env (s3.heap cn).circle (s3.heap goal).circle (1 / 2) = true then
          (match RebuildCirclePath env goal { s3 with
              heap := Function.update s3.heap goal
                { s3.heap goal with parent := some cn } } with
          | none => Outcome.diverge
          | some s5 => Outcome.ok (true, s5))
        else Outcome.ok (false, s3)) := by
    rw [hsA]; rfl
  have hbrk : sA.brk = s.brk := by rw [hsA]
  rw [hunf] at h
  cases hE : ExploreCircleNode env cn sA with
  | none => rw [hE] at h; simp at h
  | some s3 =>
    rw [hE] at h
    simp only at h
    have hpost := ExploreCircleNode_post env cn sA s3 (by rw [hbrk]; exact hcn) hE
    by_cases hov : Overlap env (s3.heap cn).circle (s3.heap goal).circle (1 / 2) = true
    · rw [if_pos hov] at h
      split at h
      · simp at h
      · simp at h
    · rw [if_neg hov] at h
      simp only [Outcome.ok.injEq, Prod.mk.injEq, true_and] at h
      subst h
      exact ⟨hpost, by simpa using hov⟩

theorem visit_post (env : Env R) (s0 : HolonomicHeuristic R) (I : HolonomicHeuristic R → Prop)
    (hI : LoopInvariant env s0 I) (s : HolonomicHeuristic R) (cn : Nat)
    (hinv : SearchInv env s0 s) (hs : I s) (hcn : SearchNode env s0 s cn) (b : Bool)
    (s1 : HolonomicHeuristic R)
    (h : visit (ProcessNodeSearch env (s0.brk + 1)) cn s = Outcome.ok (b, s1)) :
    (b = false → SearchInv env s0 s1 ∧ I s1) ∧
      (b = true → (s.heap cn).explored = false ∧
        ProcessNodeSearch env (s0.brk + 1) cn s = Outcome.ok (true, s1)) := by
  unfold visit at h
  by_cases hexp : (s.heap cn).explored = false
  · rw [if_pos hexp] at h
    cases b with
    | false =>
      refine ⟨fun _ => ⟨(ProcessNodeSearch_post env s0 s cn hinv hcn hexp false s1 h).1 rfl,
        hI.proc s s1 cn hinv hs hcn hexp h⟩, fun hf => absurd hf (by simp)⟩
    | true => exact ⟨fun hf => absurd hf (by simp), fun _ => ⟨hexp, h⟩⟩
  · rw [if_neg hexp] at h
    simp only [Outcome.ok.injEq, Prod.mk.injEq] at h
    obtain ⟨hb, hs1⟩ := h
    subst hb; subst hs1
    exact ⟨fun _ => ⟨hinv, hs⟩, fun hf => absurd hf (by simp)⟩

/-- What one round of the main loop does to a state that satisfies the
invariants, when the round reaches the second pop. -/
theorem visit_first (env : Env R) (s0 : HolonomicHeuristic R) (I : HolonomicHeuristic R → Prop)
    (hI : LoopInvariant env s0 I) (s : HolonomicHeuristic R) (i cn : Nat) (q : List Nat)
    (hinv : SearchInv env s0 s) (hs : I s) (hpop : popAt s.nearest_open i = some (cn, q)) :
    SearchInv env s0 ({ s with nearest_open := q } : HolonomicHeuristic R) ∧
      I ({ s with nearest_open := q } : HolonomicHeuristic R) ∧
      SearchNode env s0 ({ s with nearest_open := q } : HolonomicHeuristic R) cn := by
  obtain ⟨hcnq, hsub, _⟩ := popAt_some _ _ _ _ hpop
  exact ⟨SearchInv_of_sub env s0 s _ hinv hsub (fun p hp => hp) rfl rfl rfl rfl rfl rfl rfl,
    hI.popN s q hs hsub,
    SearchNode_congr env s0 s _ cn rfl rfl rfl (hinv.nodes cn (Or.inl hcnq))⟩

theorem visit_second (env : Env R) (s0 : HolonomicHeuristic R) (I : HolonomicHeuristic R → Prop)
    (hI : LoopInvariant env s0 I) (s : HolonomicHeuristic R) (i cn : Nat) (q : List Nat)
    (hinv : SearchInv env s0 s) (hs : I s) (hpop : popAt s.largest_open i = some (cn, q)) :
    SearchInv env s0 ({ s with largest_open := q } : HolonomicHeuristic R) ∧
      I ({ s with largest_open := q } : HolonomicHeuristic R) ∧
      SearchNode env s0 ({ s with largest_open := q } : HolonomicHeuristic R) cn := by
  obtain ⟨hcnq, hsub, _⟩ := popAt_some _ _ _ _ hpop
  exact ⟨SearchInv_of_sub env s0 s _ hinv (fun p hp => hp) hsub rfl rfl rfl rfl rfl rfl rfl,
    hI.popL s q hs hsub,
    SearchNode_congr env s0 s _ cn rfl rfl rfl (hinv.nodes cn (Or.inr (Or.inl hcnq)))⟩

theorem mainLoopPoints_inv (env : Env R) (s0 : HolonomicHeuristic R)
    (I : HolonomicHeuristic R → Prop) (hI : LoopInvariant env s0 I) :
    ∀ (fuel : Nat) (s : HolonomicHeuristic R), SearchInv env s0 s → I s →
      ∀ pt, pt ∈ mainLoopPoints env (ProcessNodeSearch env (s0.brk + 1)) fuel s →
        SearchInv env s0 pt.2 ∧ I pt.2 := by
  intro fuel
  induction fuel with
  | zero =>
    intro s hinv hs pt hpt
    simp only [mainLoopPoints, List.mem_singleton] at hpt
    rw [hpt]; exact ⟨hinv, hs⟩
  | succ fuel ih =>
    intro s hinv hs pt hpt
    rw [mainLoopPoints, List.mem_cons] at hpt
    rcases hpt with hpt | hpt
    · rw [hpt]; exact ⟨hinv, hs⟩
    cases hpop : popAt s.nearest_open (env.pickNearest fuel s.heap s.nearest_open) with
    | none => rw [hpop] at hpt; simp at hpt
    | some r =>
      obtain ⟨cn, q⟩ := r
      rw [hpop] at hpt
      simp only at hpt
      obtain ⟨hinvN, hsN, hcnN⟩ := visit_first env s0 I hI s _ cn q hinv hs hpop
      cases hv : visit (ProcessNodeSearch env (s0.brk + 1)) cn
          ({ s with nearest_open := q } : HolonomicHeuristic R) with
      | ok v =>
        obtain ⟨b, s2⟩ := v
        rw [hv] at hpt
        cases b with
        | true => simp at hpt
        | false =>
          simp only [List.mem_cons] at hpt
          obtain ⟨hinv2, hs2⟩ := (visit_post env s0 I hI _ cn hinvN hsN hcnN false s2 hv).1 rfl
          rcases hpt with hpt | hpt
          · rw [hpt]; exact ⟨hinv2, hs2⟩
          cases hpop2 : popAt s2.largest_open (env.pickLargest fuel s2.heap s2.largest_open) with
          | none => rw [hpop2] at hpt; simp at hpt
          | some r2 =>
            obtain ⟨cn2, q2⟩ := r2
            rw [hpop2] at hpt
            simp only at hpt
            obtain ⟨hinvL, hsL, hcnL⟩ := visit_second env s0 I hI s2 _ cn2 q2 hinv2 hs2 hpop2
            cases hv2 : visit (ProcessNodeSearch env (s0.brk + 1)) cn2
                ({ s2 with largest_open := q2 } : HolonomicHeuristic R) with
            | ok v2 =>
              obtain ⟨b2, s4⟩ := v2
              rw [hv2] at hpt
              cases b2 with
              | true => simp at hpt
              | false =>
                simp only at hpt
                obtain ⟨hinv4, hs4⟩ :=
                  (visit_post env s0 I hI _ cn2 hinvL hsL hcnL false s4 hv2).1 rfl
                exact ih s4 hinv4 hs4 pt hpt
            | diverge => rw [hv2] at hpt; simp at hpt
            | outOfFuel => rw [hv2] at hpt; simp at hpt
            | undefined => rw [hv2] at hpt; simp at hpt
      | diverge => rw [hv] at hpt; simp at hpt
      | outOfFuel => rw [hv] at hpt; simp at hpt
      | undefined => rw [hv] at hpt; simp at hpt

theorem mainLoop_result_inv (env : Env R) (s0 : HolonomicHeuristic R)
    (I : HolonomicHeuristic R → Prop) (hI : LoopInvariant env s0 I) :
    ∀ (fuel : Nat) (s : HolonomicHeuristic R) (b : Bool) (s1 : HolonomicHeuristic R),
      SearchInv env s0 s → I s →
      mainLoop env (ProcessNodeSearch env (s0.brk + 1)) fuel s = Outcome.ok (b, s1) →
      (b = false → SearchInv env s0 s1 ∧ I s1 ∧
        (true, s1) ∈ mainLoopPoints env (ProcessNodeSearch env (s0.brk + 1)) fuel s) ∧
      (b = true → ∃ sp cn, SearchInv env s0 sp ∧ I sp ∧ SearchNode env s0 sp cn ∧
        (sp.heap cn).explored = false ∧
        ProcessNodeSearch env (s0.brk + 1) cn sp = Outcome.ok (true, s1)) := by
  intro fuel
  induction fuel with
  | zero => intro s b s1 _ _ h; simp [mainLoop] at h
  | succ fuel ih =>
    intro s b s1 hinv hs h
    rw [mainLoop_visit] at h
    rw [mainLoopPoints]
    cases hpop : popAt s.nearest_open (env.pickNearest fuel s.heap s.nearest_open) with
    | none =>
      rw [hpop] at h
      simp only [Outcome.ok.injEq, Prod.mk.injEq] at h
      obtain ⟨hb, hs1⟩ := h
      subst hb; subst hs1
      exact ⟨fun _ => ⟨hinv, hs, List.mem_cons_self _ _⟩, fun hf => absurd hf (by simp)⟩
    | some r =>
      obtain ⟨cn, q⟩ := r
      rw [hpop] at h
      simp only at h ⊢
      obtain ⟨hinvN, hsN, hcnN⟩ := visit_first env s0 I hI s _ cn q hinv hs hpop
      cases hv : visit (ProcessNodeSearch env (s0.brk + 1)) cn
          ({ s with nearest_open := q } : HolonomicHeuristic R) with
      | ok v =>
        obtain ⟨b1, s2⟩ := v
        rw [hv] at h
        cases b1 with
        | true =>
          simp only [Outcome.ok.injEq, Prod.mk.injEq] at h
          obtain ⟨hb, hs1⟩ := h
          subst hb; subst hs1
          obtain ⟨e1, e2⟩ := (visit_post env s0 I hI _ cn hinvN hsN hcnN true s2 hv).2 rfl
          exact ⟨fun hf => absurd hf (by simp), fun _ => ⟨_, cn, hinvN, hsN, hcnN, e1, e2⟩⟩
        | false =>
          simp only at h ⊢
          obtain ⟨hinv2, hs2⟩ := (visit_post env s0 I hI _ cn hinvN hsN hcnN false s2 hv).1 rfl
          cases hpop2 : popAt s2.largest_open (env.pickLargest fuel s2.heap s2.largest_open) with
          | none => rw [hpop2] at h; simp at h
          | some r2 =>
            obtain ⟨cn2, q2⟩ := r2
            rw [hpop2] at h
            simp only at h ⊢
            obtain ⟨hinvL, hsL, hcnL⟩ := visit_second env s0 I hI s2 _ cn2 q2 hinv2 hs2 hpop2
            cases hv2 : visit (ProcessNodeSearch env (s0.brk + 1)) cn2
                ({ s2 with largest_open := q2 } : HolonomicHeuristic R) with
            | ok v2 =>
              obtain ⟨b2, s4⟩ := v2
              rw [hv2] at h
              cases b2 with
              | true =>
                simp only [Outcome.ok.injEq, Prod.mk.injEq] at h
                obtain ⟨hb, hs1⟩ := h
                subst hb; subst hs1
                obtain ⟨e1, e2⟩ :=
                  (visit_post env s0 I hI _ cn2 hinvL hsL hcnL true s4 hv2).2 rfl
                exact ⟨fun hf => absurd hf (by simp),
                  fun _ => ⟨_, cn2, hinvL, hsL, hcnL, e1, e2⟩⟩
              | false =>
                simp only at h ⊢
                obtain ⟨hinv4, hs4⟩ :=
                  (visit_post env s0 I hI _ cn2 hinvL hsL hcnL false s4 hv2).1 rfl
                obtain ⟨r1, r2⟩ := ih s4 b s1 hinv4 hs4 h
                refine ⟨fun hb => ?_, r2⟩
                obtain ⟨t1, t2, t3⟩ := r1 hb
                exact ⟨t1, t2, List.mem_cons_of_mem _ (List.mem_cons_of_mem _ t3)⟩
            | diverge => rw [hv2] at h; simp at h
            | outOfFuel => rw [hv2] at h; simp at h
            | undefined => rw [hv2] at h; simp at h
      | diverge => rw [hv] at h; simp at h
      | outOfFuel => rw [hv] at h; simp at h
      | undefined => rw [hv] at h; simp at h

theorem LoopInvariant_true (env : Env R) (s0 : HolonomicHeuristic R) :
    LoopInvariant env s0 (fun _ => True) :=
  ⟨fun _ _ _ _ => trivial, fun _ _ _ _ => trivial, fun _ _ _ _ _ _ _ _ => trivial⟩

theorem searchPoints_inv (env : Env R) (fuel : Nat) (s : HolonomicHeuristic R)
    (I : HolonomicHeuristic R → Prop) (hI : LoopInvariant env s I) (hq : Quiescent s)
    (h0 : I (explorationInit env s).2) :
    ∀ pt, pt ∈ searchPoints env fuel s → SearchInv env s pt.2 ∧ I pt.2 :=
  mainLoopPoints_inv env s I hI fuel (explorationInit env s).2
    (explorationInit_inv env s hq).2 h0

theorem LoopInvariant_explored (env : Env R) (s0 : HolonomicHeuristic R) :
    LoopInvariant env s0 (ExploredClosed s0) := by
  refine ⟨fun s q h _ => h, fun s q h _ => h, ?_⟩
  intro s s1 cn hinv hE hcn hexp h
  obtain ⟨hpost, _⟩ := ProcessNodeSearch_false env s s1 (s0.brk + 1) cn hcn.2.1 h
  intro p hp0 hp1 hpe
  rw [hpost.closed_eq]
  show p ∈ s.closed ++ [cn]
  by_cases hlt : p < s.brk
  · rw [hpost.old_heap p hlt] at hpe
    by_cases hpc : p = cn
    · rw [hpc]; simp
    · have hpe2 : (Function.update s.heap cn { s.heap cn with explored := true } p).explored
          = true := hpe
      rw [Function.update_noteq hpc] at hpe2
      exact List.mem_append_left _ (hE p hp0 hlt hpe2)
  · have := (hpost.child p (not_lt.mp hlt) hp1).2.2
    rw [this] at hpe
    exact absurd hpe (by simp)

theorem explorationInit_explored (env : Env R) (s : HolonomicHeuristic R) :
    ExploredClosed s (explorationInit env s).2 := by
  intro p hp0 hp1 hpe
  have hb : (explorationInit env s).2.brk = s.brk + 2 := rfl
  rw [hb] at hp1
  exfalso
  by_cases h1 : p = s.brk
  · subst h1
    simp only [explorationInit, alloc] at hpe
    rw [Function.update_noteq (by omega), Function.update_same] at hpe
    simp at hpe
  · have h2 : p = s.brk + 1 := by omega
    subst h2
    simp only [explorationInit, alloc] at hpe
    rw [Function.update_same] at hpe
    simp at hpe

/-- C17: at every point of the main loop of `SpaceExploration` a cell that the
search has allocated is in the closed set if and only if its explored flag is
true, and the closed set holds no node twice, so that no node is processed
(appended to the closed set and expanded) twice; a popped node that is
explored is skipped: no `ProcessNode` runs and the state stays as it is. -/
theorem SpaceExploration_processed_once (env : Env R) (fuel : Nat) (s : HolonomicHeuristic R)
    (hq : Quiescent s) :
    (∀ pt, pt ∈ searchPoints env fuel s →
      (∀ p, s.brk ≤ p → p < pt.2.brk → (p ∈ pt.2.closed ↔ (pt.2.heap p).explored = true)) ∧
      pt.2.closed.Nodup) ∧
    (∀ (proc : Nat → HolonomicHeuristic R → Outcome (Bool × HolonomicHeuristic R))
      (st : HolonomicHeuristic R) (cn : Nat), (st.heap cn).explored = true →
      visit proc cn st = Outcome.ok (false, st)) := by
  refine ⟨?_, ?_⟩
  · intro pt hpt
    obtain ⟨hinv, hE⟩ := searchPoints_inv env fuel s _ (LoopInvariant_explored env s) hq
      (explorationInit_explored env s) pt hpt
    exact ⟨fun p hp0 hp1 => ⟨fun hc => hinv.closed_explored p hc, fun he => hE p hp0 hp1 he⟩,
      hinv.closed_nodup⟩
  · intro proc st cn he
    unfold visit
    rw [he]
    simp

/-- C16: the root of the search has `g = 0`, `f = Distance(start, goal)` and no
parent; every child that `GetChildren` emits for a parent `cn` has
`g = cn.g + cn.circle.r`, `f = Distance(centre, goal) + g` and parent `cn`; and
at every point of the main loop every node in a queue or in the closed set
still has these values, so that `f = g + Distance(centre, goal)`. -/
theorem SpaceExploration_node_costs (env : Env R) (fuel : Nat) (s : HolonomicHeuristic R)
    (hq : Quiescent s) :
    (((explorationInit env s).2.heap s.brk).g = 0 ∧
      ((explorationInit env s).2.heap s.brk).f = Distance env s.start.position s.goal.position ∧
      ((explorationInit env s).2.heap s.brk).parent = none) ∧
    (∀ (st st1 : HolonomicHeuristic R) (cn : Nat) (cs : List Nat), cn < st.brk →
      GetChildren env st cn = some (cs, st1) → ∀ c, c ∈ cs →
        (st1.heap c).g = (st.heap cn).g + (st.heap cn).circle.r ∧
        (st1.heap c).f =
          Distance env (st1.heap c).circle.position st.goal.position + (st1.heap c).g ∧
        (st1.heap c).parent = some cn) ∧
    (∀ pt, pt ∈ searchPoints env fuel s →
      ∀ p, p ∈ pt.2.nearest_open ∨ p ∈ pt.2.largest_open ∨ p ∈ pt.2.closed →
        (pt.2.heap p).f =
          (pt.2.heap p).g + Distance env (pt.2.heap p).circle.position s.goal.position ∧
        ((p = s.brk ∧ (pt.2.heap p).g = 0 ∧
            (pt.2.heap p).f = Distance env s.start.position s.goal.position ∧
            (pt.2.heap p).parent = none) ∨
          (∃ q, (pt.2.heap p).parent = some q ∧
            (pt.2.heap p).g = (pt.2.heap q).g + (pt.2.heap q).circle.r ∧
            (pt.2.heap p).f =
              Distance env (pt.2.heap p).circle.position s.goal.position +
                (pt.2.heap p).g))) := by
  refine ⟨?_, ?_, ?_⟩
  · have hinv := (explorationInit_inv env s hq).2
    exact ⟨hinv.root_g, hinv.root_f, hinv.root_parent⟩
  · intro st st1 cn cs hcn hG c hc
    have hpost := GetChildren_post env st st1 cn cs hcn hG
    rw [hpost.children_eq, List.nil_append, List.mem_range'_1] at hc
    obtain ⟨hgeom, hpar, _⟩ := hpost.child c hc.1 (by omega)
    obtain ⟨_, _, g1, f1⟩ := hgeom
    exact ⟨by rw [g1, add_comm], f1, hpar⟩
  · intro pt hpt p hp
    obtain ⟨hinv, _⟩ := searchPoints_inv env fuel s _ (LoopInvariant_true env s) hq trivial pt hpt
    obtain ⟨_, _, _, a4⟩ := hinv.nodes p hp
    rcases a4 with a4 | ⟨q, b1, _, _, b4, _⟩
    · subst a4
      have hc := hinv.root_circle
      refine ⟨?_, Or.inl ⟨rfl, hinv.root_g, hinv.root_f, hinv.root_parent⟩⟩
      rw [hinv.root_f, hinv.root_g, hc, zero_add]
    · obtain ⟨_, _, g1, f1⟩ := b4
      refine ⟨by rw [f1, add_comm], Or.inr ⟨q, b1, by rw [g1, add_comm], f1⟩⟩

end Points

theorem corridorState_quiescent : Quiescent corridorState := ⟨rfl, rfl, rfl⟩

/-- C17, witness: the search of the dead-end corridor passes eleven points; the
closed set grows from `[]` to `[0, 3, 2, 5, 4]`, one node at a time. -/
theorem SpaceExploration_processed_once_witness :
    Quiescent corridorState ∧
    (searchPoints envQ 20 corridorState).map (fun pt => (pt.1, pt.2.closed)) =
      [(true, []), (false, [0]), (true, [0]), (false, [0, 3]), (true, [0, 3, 2]),
        (false, [0, 3, 2]), (true, [0, 3, 2, 5]), (false, [0, 3, 2, 5]), (true, [0, 3, 2, 5]),
        (false, [0, 3, 2, 5, 4]), (true, [0, 3, 2, 5, 4])] ∧
    (∀ pt, pt ∈ searchPoints envQ 20 corridorState →
      (∀ p, corridorState.brk ≤ p → p < pt.2.brk →
        (p ∈ pt.2.closed ↔ (pt.2.heap p).explored = true)) ∧
      pt.2.closed.Nodup) ∧
    (∀ (proc : Nat → HolonomicHeuristic ℚ → Outcome (Bool × HolonomicHeuristic ℚ))
      (st : HolonomicHeuristic ℚ) (cn : Nat), (st.heap cn).explored = true →
      visit proc cn st = Outcome.ok (false, st)) :=
  ⟨corridorState_quiescent, by decide!,
    SpaceExploration_processed_once envQ 20 corridorState corridorState_quiescent⟩

/-- C16, witness: the search of the dead-end corridor; at its last point the
closed nodes are the root with `g = 0` and four children of the root with
`g = 0 + 11/5`. -/
theorem SpaceExploration_node_costs_witness :
    Quiescent corridorState ∧
    ((searchPoints envQ 20 corridorState).getLast?.map
      (fun pt => pt.2.closed.map (fun p => ((pt.2.heap p).g, (pt.2.heap p).parent)))) =
      some [(0, none), (11 / 5, some 0), (11 / 5, some 0), (11 / 5, some 0), (11 / 5, some 0)] ∧
    (((explorationInit envQ corridorState).2.heap corridorState.brk).g = 0 ∧
      ((explorationInit envQ corridorState).2.heap corridorState.brk).f =
        Distance envQ corridorState.start.position corridorState.goal.position ∧
      ((explorationInit envQ corridorState).2.heap corridorState.brk).parent = none) ∧
    (∀ (st st1 : HolonomicHeuristic ℚ) (cn : Nat) (cs : List Nat), cn < st.brk →
      GetChildren envQ st cn = some (cs, st1) → ∀ c, c ∈ cs →
        (st1.heap c).g = (st.heap cn).g + (st.heap cn).circle.r ∧
        (st1.heap c).f =
          Distance envQ (st1.heap c).circle.position st.goal.position + (st1.heap c).g ∧
        (st1.heap c).parent = some cn) ∧
    (∀ pt, pt ∈ searchPoints envQ 20 corridorState →
      ∀ p, p ∈ pt.2.nearest_open ∨ p ∈ pt.2.largest_open ∨ p ∈ pt.2.closed →
        (pt.2.heap p).f =
          (pt.2.heap p).g +
            Distance envQ (pt.2.heap p).circle.position corridorState.goal.position ∧
        ((p = corridorState.brk ∧ (pt.2.heap p).g = 0 ∧
            (pt.2.heap p).f =
              Distance envQ corridorState.start.position corridorState.goal.position ∧
            (pt.2.heap p).parent = none) ∨
          (∃ q, (pt.2.heap p).parent = some q ∧
            (pt.2.heap p).g = (pt.2.heap q).g + (pt.2.heap q).circle.r ∧
            (pt.2.heap p).f =
              Distance envQ (pt.2.heap p).circle.position corridorState.goal.position +
                (pt.2.heap p).g))) :=
  ⟨corridorState_quiescent, by decide!,
    SpaceExploration_node_costs envQ 20 corridorState corridorState_quiescent⟩

/-! ## The search-time cost of a node -/

section SearchCost

variable {R : Type} [LinearOrderedField R]

/-- Every search node has a parent chain that ends in the root, and each node
of the chain holds what `GetChildren` wrote for its parent. -/
theorem chain_of_node (env : Env R) (s0 s : HolonomicHeuristic R) (hinv : SearchInv env s0 s)
    (p : Nat) (hp : SearchNode env s0 s p) :
    ∃ ch, IsChain s.heap (some p) ch ∧ ch.getLast? = some s0.brk ∧
      (∀ c, c ∈ ch → SearchNode env s0 s c) := by
  obtain ⟨a1, a2, a3, a4⟩ := hp
  rcases a4 with a4 | ⟨q, b1, b2, b3, b4, b5⟩
  · refine ⟨[p], ?_, by simp [a4], ?_⟩
    · simp only [IsChain, true_and]
      rw [a4, hinv.root_parent]; simp [IsChain]
    · intro c hc
      simp only [List.mem_singleton] at hc
      rw [hc]; exact ⟨a1, a2, a3, Or.inl a4⟩
  · obtain ⟨chq, c1, c2, c3, c4, _, _⟩ := chain_of_closed env s0 s hinv q q (le_refl _) b2
    refine ⟨p :: chq, ?_, ?_, ?_⟩
    · simp only [IsChain, true_and]
      rw [b1]; exact c1
    · cases chq with
      | nil => simp at c2
      | cons x xs => simpa using c3
    · intro c hc
      rcases List.mem_cons.mp hc with h1 | h1
      · rw [h1]; exact ⟨a1, a2, a3, Or.inr ⟨q, b1, b2, b3, b4, b5⟩⟩
      · exact hinv.nodes c (Or.inr (Or.inr (c4 c h1).1))

theorem chain_geom (env : Env R) (s0 s : HolonomicHeuristic R) (hinv : SearchInv env s0 s) :
    ∀ (ch : List Nat) (cur : Option Nat), IsChain s.heap cur ch →
      (∀ c, c ∈ ch → SearchNode env s0 s c) →
      List.Chain' (fun child par => ChildGeom env s0.grid s0.goal.position
        (s.heap par).circle (s.heap par).g (s.heap child)) ch := by
  intro ch
  induction ch with
  | nil => intro _ _ _; exact List.chain'_nil
  | cons a rest ih =>
    intro cur hch hall
    cases cur with
    | none => simp [IsChain] at hch
    | some x =>
      simp only [IsChain] at hch
      obtain ⟨hx, hrest⟩ := hch
      subst hx
      rw [List.chain'_cons']
      refine ⟨?_, ih _ hrest (fun c hc => hall c (List.mem_cons_of_mem _ hc))⟩
      intro b hb
      cases rest with
      | nil => simp at hb
      | cons y ys =>
        simp only [List.head?_cons, Option.mem_def, Option.some.injEq] at hb
        subst hb
        cases hpar : (s.heap x).parent with
        | none => rw [hpar] at hrest; simp [IsChain] at hrest
        | some z =>
          rw [hpar] at hrest
          simp only [IsChain] at hrest
          obtain ⟨hz, _⟩ := hrest
          subst hz
          obtain ⟨_, _, _, a4⟩ := hall x (List.mem_cons_self _ _)
          rcases a4 with a4 | ⟨q, b1, _, _, b4, _⟩
          · rw [a4, hinv.root_parent] at hpar; simp at hpar
          · rw [b1] at hpar
            simp only [Option.some.injEq] at hpar
            subst hpar
            exact b4

theorem chain_sum_radii (env : Env R) (grid : InternalGridMap R) (goalPos : Vector2D R)
    (heap : Nat → CircleNode R) (root : Nat) (hroot : (heap root).g = 0) :
    ∀ (ch : List Nat) (p : Nat), ch.head? = some p → ch.getLast? = some root →
      List.Chain' (fun child par => ChildGeom env grid goalPos
        (heap par).circle (heap par).g (heap child)) ch →
      (heap p).g = (ch.tail.map (fun a => (heap a).circle.r)).sum := by
  intro ch
  induction ch with
  | nil => intro p hh _ _; simp at hh
  | cons a rest ih =>
    intro p hh hl hc
    simp only [List.head?_cons, Option.some.injEq] at hh
    subst hh
    cases rest with
    | nil =>
      simp only [List.getLast?_singleton, Option.some.injEq] at hl
      subst hl
      simpa using hroot
    | cons b rest2 =>
      rw [List.chain'_cons] at hc
      rw [List.getLast?_cons_cons] at hl
      have ihb := ih b rfl hl hc.2
      obtain ⟨_, _, g1, _⟩ := hc.1
      rw [g1, ihb]
      simp

theorem chain_chord_length (env : Env R) (grid : InternalGridMap R) (goalPos : Vector2D R)
    (heap : Nat → CircleNode R) (root : Nat) (hroot : (heap root).g = 0)
    (hr : 0 ≤ (heap root).circle.r)
    (hsqrt : ∀ x, env.sqrt (x * x) = |x|)
    (htrig : ∀ a, env.cos a * env.cos a + env.sin a * env.sin a = 1) :
    ∀ (ch : List Nat) (p : Nat), ch.head? = some p → ch.getLast? = some root →
      List.Chain' (fun child par => ChildGeom env grid goalPos
        (heap par).circle (heap par).g (heap child)) ch →
      chordLength env heap ch = (heap p).g ∧ (p = root ∨ 3 / 2 < (heap p).circle.r) := by
  intro ch
  induction ch with
  | nil => intro p hh _ _; simp at hh
  | cons a rest ih =>
    intro p hh hl hc
    simp only [List.head?_cons, Option.some.injEq] at hh
    subst hh
    cases rest with
    | nil =>
      simp only [List.getLast?_singleton, Option.some.injEq] at hl
      subst hl
      exact ⟨by simp [chordLength, hroot], Or.inl rfl⟩
    | cons b rest2 =>
      rw [List.chain'_cons] at hc
      rw [List.getLast?_cons_cons] at hl
      obtain ⟨ih1, ih2⟩ := ih b rfl hl hc.2
      obtain ⟨c1, _, g1, _⟩ := hc.1
      have hrb : 0 ≤ (heap b).circle.r := by
        rcases ih2 with h | h
        · rw [h]; exact hr
        · exact le_trans (by norm_num) (le_of_lt h)
      have hd := childCircle_distance env grid (heap b).circle (heap a).circle hsqrt htrig hrb c1
      refine ⟨?_, Or.inr c1.2.2.2⟩
      simp only [chordLength]
      rw [ih1, g1, Distance_comm, hd]

/-- C20: at every point of the main loop, for every node in a queue or in the
closed set, with an exact `sqrt`, `cos` and `sin` and a non-negative clearance
of the start: the centre of the node lies at distance exactly `parent.circle.r`
from the centre of its parent, and the parent chain `ch` of the node ends in
the root, the cost `g` of the node is the sum of the radii of its proper
ancestors, and the length of the polyline through the centres of the chain is
at most `g`. -/
theorem SpaceExploration_search_cost (env : Env R) (fuel : Nat) (s : HolonomicHeuristic R)
    (hsqrt : ∀ x, env.sqrt (x * x) = |x|)
    (htrig : ∀ a, env.cos a * env.cos a + env.sin a * env.sin a = 1)
    (hclear : 0 ≤ s.grid.GetObstacleDistance s.start.position) (hq : Quiescent s) :
    ∀ pt, pt ∈ searchPoints env fuel s →
      ∀ p, p ∈ pt.2.nearest_open ∨ p ∈ pt.2.largest_open ∨ p ∈ pt.2.closed →
        (∀ q, (pt.2.heap p).parent = some q →
          Distance env (pt.2.heap q).circle.position (pt.2.heap p).circle.position =
            (pt.2.heap q).circle.r) ∧
        ∃ ch, IsChain pt.2.heap (some p) ch ∧ ch.getLast? = some s.brk ∧
          (pt.2.heap p).g = (ch.tail.map (fun a => (pt.2.heap a).circle.r)).sum ∧
          chordLength env pt.2.heap ch ≤ (pt.2.heap p).g := by
  intro pt hpt p hp
  obtain ⟨hinv, _⟩ := searchPoints_inv env fuel s _ (LoopInvariant_true env s) hq trivial pt hpt
  have hnode := hinv.nodes p hp
  obtain ⟨ch, c1, c2, c3⟩ := chain_of_node env s pt.2 hinv p hnode
  have hgeom := chain_geom env s pt.2 hinv ch (some p) c1 c3
  have hhead : ch.head? = some p := by
    cases ch with
    | nil => simp [IsChain] at c1
    | cons a rest => simp only [IsChain] at c1; rw [c1.1]; rfl
  have hr : 0 ≤ (pt.2.heap s.brk).circle.r := by rw [hinv.root_circle]; exact hclear
  have hsum := chain_sum_radii env s.grid s.goal.position pt.2.heap s.brk hinv.root_g ch p
    hhead c2 hgeom
  obtain ⟨hchord, _⟩ := chain_chord_length env s.grid s.goal.position pt.2.heap s.brk
    hinv.root_g hr hsqrt htrig ch p hhead c2 hgeom
  refine ⟨?_, ch, c1, c2, hsum, le_of_eq hchord⟩
  intro q hpar
  obtain ⟨_, _, _, a4⟩ := hnode
  rcases a4 with a4 | ⟨q1, b1, b2, _, b4, _⟩
  · rw [a4, hinv.root_parent] at hpar; simp at hpar
  · rw [b1] at hpar
    simp only [Option.some.injEq] at hpar
    subst hpar
    have hq1 := hinv.nodes q1 (Or.inr (Or.inr b2))
    obtain ⟨chq, d1, d2, d3⟩ := chain_of_node env s pt.2 hinv q1 hq1
    have hgq := chain_geom env s pt.2 hinv chq (some q1) d1 d3
    have hheadq : chq.head? = some q1 := by
      cases chq with
      | nil => simp [IsChain] at d1
      | cons a rest => simp only [IsChain] at d1; rw [d1.1]; rfl
    obtain ⟨_, hrq⟩ := chain_chord_length env s.grid s.goal.position pt.2.heap s.brk
      hinv.root_g hr hsqrt htrig chq q1 hheadq d2 hgq
    have hrq2 : 0 ≤ (pt.2.heap q1).circle.r := by
      rcases hrq with h | h
      · rw [h]; exact hr
      · exact le_trans (by norm_num) (le_of_lt h)
    exact childCircle_distance env s.grid _ _ hsqrt htrig hrq2 b4.1

end SearchCost

/-- C20, witness: the wide flat field over the reals, with the real `sqrt`, `cos`
and `sin`. -/
theorem SpaceExploration_search_cost_witness :
    (∀ x : ℝ, Real.sqrt (x * x) = |x|) ∧
    (∀ a : ℝ, Real.cos a * Real.cos a + Real.sin a * Real.sin a = 1) ∧
    (0 : ℝ) ≤ (wideField ℝ).grid.GetObstacleDistance (wideField ℝ).start.position ∧
    Quiescent (wideField ℝ) ∧
    ∀ pt, pt ∈ searchPoints
        (⟨Real.sqrt, Real.cos, Real.sin, Real.pi, fun _ _ _ => 0, fun _ _ _ => 0⟩ : Env ℝ) 5
        (wideField ℝ) →
      ∀ p, p ∈ pt.2.nearest_open ∨ p ∈ pt.2.largest_open ∨ p ∈ pt.2.closed →
        (∀ q, (pt.2.heap p).parent = some q →
          Distance (⟨Real.sqrt, Real.cos, Real.sin, Real.pi, fun _ _ _ => 0, fun _ _ _ => 0⟩ :
              Env ℝ) (pt.2.heap q).circle.position (pt.2.heap p).circle.position =
            (pt.2.heap q).circle.r) ∧
        ∃ ch, IsChain pt.2.heap (some p) ch ∧ ch.getLast? = some (wideField ℝ).brk ∧
          (pt.2.heap p).g = (ch.tail.map (fun a => (pt.2.heap a).circle.r)).sum ∧
          chordLength (⟨Real.sqrt, Real.cos, Real.sin, Real.pi, fun _ _ _ => 0, fun _ _ _ => 0⟩ :
            Env ℝ) pt.2.heap ch ≤ (pt.2.heap p).g := by
  have hsqrt : ∀ x : ℝ, Real.sqrt (x * x) = |x| := Real.sqrt_mul_self_eq_abs
  have htrig : ∀ a : ℝ, Real.cos a * Real.cos a + Real.sin a * Real.sin a = 1 := by
    intro a
    have := Real.cos_sq_add_sin_sq a
    rw [sq, sq] at this
    exact this
  have hclear : (0 : ℝ) ≤ (wideField ℝ).grid.GetObstacleDistance (wideField ℝ).start.position := by
    show (0 : ℝ) ≤ 2
    norm_num
  exact ⟨hsqrt, htrig, hclear, ⟨rfl, rfl, rfl⟩,
    SpaceExploration_search_cost _ 5 (wideField ℝ) hsqrt htrig hclear ⟨rfl, rfl, rfl⟩⟩

/-! ## A start without clearance -/

section Blocked

variable {R : Type} [LinearOrderedField R]

theorem popAt_singleton (x i : Nat) : popAt [x] i = some (x, []) := by
  simp [popAt, Nat.mod_one]

/-- A circle of radius `0` whose centre has clearance `0` has no child circle. -/
theorem no_child_of_zero (env : Env R) (grid : InternalGridMap R) (pc c : Circle R)
    (hr : pc.r = 0) (hz : grid.GetObstacleDistance pc.position = 0) :
    ¬ ChildCircle env grid pc c := by
  rintro ⟨⟨k, _, hk⟩, _, h3, h4⟩
  have hpos : c.position = pc.position := by
    rw [hk]
    simp only [candidateCentre, hr, zero_mul, add_zero]
  rw [hpos, hz] at h3
  rw [h3] at h4
  norm_num at h4

/-- The overlap test of a circle of radius `0` against a circle that does not
reach its centre fails. -/
theorem no_overlap_of_zero (env : Env R) (hsqrt : ∀ x, 0 ≤ x → 0 ≤ env.sqrt x)
    (a b : Circle R) (hr : a.r = 0) (hb : b.r ≤ Distance env a.position b.position) :
    Overlap env a b (1 / 2) = false := by
  rw [Overlap_eq_decide, hr]
  simp only [decide_eq_false_iff_not, not_lt]
  have hd := Distance_nonneg env hsqrt a.position b.position
  by_cases h0 : 0 ≤ b.r
  · rw [max_eq_right h0, min_eq_left h0]
    linarith
  · have h1 : b.r < 0 := not_le.mp h0
    rw [max_eq_left (le_of_lt h1), min_eq_right (le_of_lt h1)]
    linarith

/-- C15, as amended. If the clearance of the start is zero and the clearance
of the goal is at most the distance of the start to the goal (the goal circle
does not reach the start), the root circle has radius `0`, `GetChildren` on the
root emits no children, and `SpaceExploration` reports failure and leaves the
circle path empty, so that every query returns the distance of the probe to the
goal. -/
theorem SpaceExploration_start_blocked (env : Env R) (fuel : Nat) (s : HolonomicHeuristic R)
    (hpi : 0 < env.M_PI) (hsqrt : ∀ x, 0 ≤ x → 0 ≤ env.sqrt x) (hq : Quiescent s)
    (hp : s.circle_path = [])
    (hzero : s.grid.GetObstacleDistance s.start.position = 0)
    (hgoal : s.grid.GetObstacleDistance s.goal.position ≤
      Distance env s.start.position s.goal.position) :
    ((explorationInit env s).2.heap s.brk).circle.r = 0 ∧
    (∃ st1, GetChildren env (explorationInit env s).2 s.brk = some ([], st1)) ∧
    ∃ s1, SpaceExploration env (fuel + 2) s = Outcome.ok (false, s1) ∧ s1.circle_path = [] ∧
      ∀ p, GetHeuristicValue env s1 p = Distance env p.position s.goal.position := by
  obtain ⟨hg1, hinv0⟩ := explorationInit_inv env s hq
  obtain ⟨q1, q2, q3⟩ := hq
  have hN0 : (explorationInit env s).2.nearest_open = [s.brk] := by
    simp only [explorationInit, alloc, q1, List.nil_append]
  have hL0 : (explorationInit env s).2.largest_open = [s.brk] := by
    simp only [explorationInit, alloc, q2, List.nil_append]
  have hC0 : (explorationInit env s).2.closed = [] := by
    simp only [explorationInit, alloc, q3]
  have hroot : ((explorationInit env s).2.heap s.brk).circle.r = 0 := by
    rw [hinv0.root_circle]; exact hzero
  have hrootE : ((explorationInit env s).2.heap s.brk).explored = false := by
    simp only [explorationInit, alloc]
    rw [Function.update_noteq (by omega), Function.update_same]
  refine ⟨hroot, ?_, ?_⟩
  · obtain ⟨cs, st1, hG⟩ := GetChildren_total env (explorationInit env s).2 s.brk hpi
    have hpost := GetChildren_post env _ st1 s.brk cs (by have := hinv0.brk_ge; omega) hG
    have hb : st1.brk = (explorationInit env s).2.brk := by
      by_contra hne
      have hlt : (explorationInit env s).2.brk < st1.brk :=
        lt_of_le_of_ne hpost.brk_le (fun h => hne h.symm)
      have := (hpost.child _ (le_refl _) hlt).1.1
      exact no_child_of_zero env _ _ _ hroot
        (by rw [hinv0.root_circle, hinv0.grid_eq]; exact hzero) this
    have hcs : cs = [] := by
      rw [hpost.children_eq, hb]; simp
    exact ⟨st1, by rw [hG, hcs]⟩
  · -- the first half of the first round
    obtain ⟨sN, hsN⟩ : ∃ x : HolonomicHeuristic R,
        x = { (explorationInit env s).2 with nearest_open := [] } := ⟨_, rfl⟩
    have hinvN : SearchInv env s sN := by
      rw [hsN]
      exact SearchInv_of_sub env s _ _ hinv0 (fun p hp => by simp at hp) (fun p hp => hp)
        rfl rfl rfl rfl rfl rfl rfl
    have hcnN : SearchNode env s sN s.brk := by
      rw [hsN]
      exact SearchNode_congr env s _ _ s.brk rfl rfl rfl
        (hinv0.nodes s.brk (Or.inl (by rw [hN0]; simp)))
    have hexpN : (sN.heap s.brk).explored = false := by rw [hsN]; exact hrootE
    have hcircN : (sN.heap s.brk).circle = ⟨s.start.position, 0⟩ := by
      rw [hinvN.root_circle, hzero]
    obtain ⟨b, s2, hP, hb⟩ := ProcessNodeSearch_total env s sN s.brk hinvN hcnN hexpN hpi
    have hbf : b = false := by
      cases b with
      | false => rfl
      | true =>
        have hov := hb.mp rfl
        rw [hcircN, no_overlap_of_zero env hsqrt _ _ rfl hgoal] at hov
        exact absurd hov (by simp)
    subst hbf
    obtain ⟨hpost, _⟩ := ProcessNodeSearch_false env sN s2 (s.brk + 1) s.brk hcnN.2.1 hP
    have hinv2 : SearchInv env s s2 :=
      (ProcessNodeSearch_post env s sN s.brk hinvN hcnN hexpN false s2 hP).1 rfl
    have hAbrk : sN.brk ≤ s2.brk := hpost.brk_le
    have hb2 : s2.brk = sN.brk := by
      by_contra hne
      have hlt : sN.brk < s2.brk := lt_of_le_of_ne hAbrk (fun h => hne h.symm)
      have hch := (hpost.child sN.brk (le_refl _) hlt).1.1
      have hcA : (Function.update sN.heap s.brk { sN.heap s.brk with explored := true }
          s.brk).circle = ⟨s.start.position, 0⟩ := by
        rw [Function.update_same]; exact hcircN
      have hgA : sN.grid = s.grid := hinvN.grid_eq
      refine no_child_of_zero env _ _ _ ?_ ?_ hch
      · show (Function.update sN.heap s.brk { sN.heap s.brk with explored := true }
          s.brk).circle.r = 0
        rw [hcA]
      · show sN.grid.GetObstacleDistance (Function.update sN.heap s.brk
          { sN.heap s.brk with explored := true } s.brk).circle.position = 0
        rw [hcA, hgA]; exact hzero
    have hN2 : s2.nearest_open = [] := by
      rw [hpost.nearest_eq, hb2]
      show sN.nearest_open ++ _ = []
      rw [hsN]; simp
    have hL2 : s2.largest_open = [s.brk] := by
      rw [hpost.largest_eq, hb2]
      show sN.largest_open ++ _ = [s.brk]
      rw [hsN]; simp [hL0]
    have hE2 : (s2.heap s.brk).explored = true := by
      rw [hpost.old_heap s.brk hcnN.2.1]
      show (Function.update sN.heap s.brk { sN.heap s.brk with explored := true }
        s.brk).explored = true
      rw [Function.update_same]
    have hv1 : visit (ProcessNodeSearch env (s.brk + 1)) s.brk sN = Outcome.ok (false, s2) := by
      unfold visit; rw [if_pos hexpN]; exact hP
    obtain ⟨sL, hsL⟩ : ∃ x : HolonomicHeuristic R, x = { s2 with largest_open := [] } :=
      ⟨_, rfl⟩
    have hv2 : visit (ProcessNodeSearch env (s.brk + 1)) s.brk sL = Outcome.ok (false, sL) := by
      unfold visit
      have : (sL.heap s.brk).explored = true := by rw [hsL]; exact hE2
      rw [this]; simp
    have hNL : sL.nearest_open = [] := by rw [hsL]; exact hN2
    have hsearch : SpaceExplorationSearch env (fuel + 2) s = Outcome.ok (false, sL) := by
      unfold SpaceExplorationSearch
      rw [hg1, mainLoop_visit, hN0, popAt_singleton]
      simp only
      rw [← hsN, hv1]
      simp only
      rw [hL2, popAt_singleton]
      simp only
      rw [← hsL, hv2]
      simp only
      rw [mainLoop_visit, hNL]
      simp [popAt]
    refine ⟨RemoveAllCircleNodes sL, ?_, ?_, ?_⟩
    · rw [SpaceExploration_eq, hsearch]
    · show sL.circle_path = []
      rw [hsL]
      show s2.circle_path = []
      rw [hinv2.path_eq, hp]
    · intro p
      have hpath : (RemoveAllCircleNodes sL).circle_path = [] := by
        show sL.circle_path = []
        rw [hsL]
        show s2.circle_path = []
        rw [hinv2.path_eq, hp]
      have hgoal2 : (RemoveAllCircleNodes sL).goal = s.goal := by
        show sL.goal = s.goal
        rw [hsL]
        exact hinv2.goal_eq
      unfold GetHeuristicValue NearestCircleNode
      rw [hpath]
      simp only
      rw [hgoal2, Distance_comm]

end Blocked

/-- C15, witness of the amended statement: the corridor with the start on the
wall. -/
theorem SpaceExploration_start_blocked_witness :
    (0 : ℚ) < envQ.M_PI ∧ (∀ x : ℚ, 0 ≤ x → 0 ≤ envQ.sqrt x) ∧ Quiescent blockedState ∧
    blockedState.circle_path = [] ∧
    blockedState.grid.GetObstacleDistance blockedState.start.position = 0 ∧
    blockedState.grid.GetObstacleDistance blockedState.goal.position ≤
      Distance envQ blockedState.start.position blockedState.goal.position ∧
    ((explorationInit envQ blockedState).2.heap blockedState.brk).circle.r = 0 ∧
    (∃ st1, GetChildren envQ (explorationInit envQ blockedState).2 blockedState.brk =
      some ([], st1)) ∧
    ∃ s1, SpaceExploration envQ (3 + 2) blockedState = Outcome.ok (false, s1) ∧
      s1.circle_path = [] ∧
      ∀ p, GetHeuristicValue envQ s1 p = Distance envQ p.position blockedState.goal.position :=
  ⟨by decide!, fun x _ => sqrtQ_nonneg x, ⟨rfl, rfl, rfl⟩, rfl, by decide!, by decide!,
    SpaceExploration_start_blocked envQ 3 blockedState (by decide!)
      (fun x _ => sqrtQ_nonneg x) ⟨rfl, rfl, rfl⟩ rfl (by decide!) (by decide!)⟩

/-! ## The query at the goal position -/

section GoalQuery

variable {R : Type} [LinearOrderedField R]

theorem LoopInvariant_goalFree (env : Env R) (s0 : HolonomicHeuristic R) :
    LoopInvariant env s0 (GoalFree env s0) := by
  refine ⟨fun s q h _ => h, fun s q h _ => h, ?_⟩
  intro s s1 cn hinv hG hcn hexp h
  obtain ⟨hpost, hov⟩ := ProcessNodeSearch_false env s s1 (s0.brk + 1) cn hcn.2.1 h
  have hinv1 : SearchInv env s0 s1 :=
    (ProcessNodeSearch_post env s0 s cn hinv hcn hexp false s1 h).1 rfl
  intro p hp
  rw [hpost.closed_eq] at hp
  have hp2 : p ∈ s.closed ++ [cn] := hp
  rcases List.mem_append.mp hp2 with h1 | h1
  · have hlt : p < s.brk := (hinv.nodes p (Or.inr (Or.inr h1))).2.1
    rw [hpost.old_heap p hlt]
    have hc : (Function.update s.heap cn { s.heap cn with explored := true } p).circle =
        (s.heap p).circle := by
      by_cases hpc : p = cn
      · subst hpc; rw [Function.update_same]
      · rw [Function.update_noteq hpc]
    show Overlap env (Function.update s.heap cn { s.heap cn with explored := true } p).circle
      _ (1 / 2) = false
    rw [hc]
    exact hG p h1
  · simp only [List.mem_singleton] at h1
    subst h1
    rw [hinv1.goal_node] at hov
    exact hov

theorem explorationInit_goalFree (env : Env R) (s : HolonomicHeuristic R) (hq : Quiescent s) :
    GoalFree env s (explorationInit env s).2 := by
  intro p hp
  have hC0 : (explorationInit env s).2.closed = [] := by
    simp only [explorationInit, alloc, hq.2.2]
  rw [hC0] at hp
  simp at hp

/-- On success `ProcessNode` installs the circles of the parent chain of the
processed node, root first, and then the goal circle twice; every node of the
chain but the processed one was in the closed set before. -/
theorem ProcessNodeSearch_success_chain (env : Env R) (s0 s : HolonomicHeuristic R) (cn : Nat)
    (hinv : SearchInv env s0 s) (hcn : SearchNode env s0 s cn)
    (hexp : (s.heap cn).explored = false) (hp0 : s0.circle_path = [])
    (s1 : HolonomicHeuristic R)
    (h : ProcessNodeSearch env (s0.brk + 1) cn s = Outcome.ok (true, s1)) :
    ∃ chp : List Nat, chp.getLast? = some cn ∧ (∀ p, p ∈ chp.dropLast → p ∈ s.closed) ∧
      (pathNodes s1).map (fun x => x.circle) =
        chp.map (fun p => (s.heap p).circle) ++
          [⟨s0.goal.position, s0.grid.GetObstacleDistance s0.goal.position⟩,
            ⟨s0.goal.position, s0.grid.GetObstacleDistance s0.goal.position⟩] := by
  obtain ⟨hinvA, hcnA⟩ := SearchInv_close env s0 s cn hinv hcn hexp
  obtain ⟨sA, hsA⟩ : ∃ x : HolonomicHeuristic R, x = { s with
      closed := s.closed ++ [cn]
      heap := Function.update s.heap cn { s.heap cn with explored := true } } := ⟨_, rfl⟩
  rw [← hsA] at hinvA hcnA
  have hclosedA : sA.closed = s.closed ++ [cn] := by rw [hsA]
  have hbrkA : sA.brk = s.brk := by rw [hsA]
  have hcircA : ∀ q, (sA.heap q).circle = (s.heap q).circle := by
    intro q
    rw [hsA]
    by_cases hq : q = cn
    · subst hq; simp only [Function.update_same]
    · simp only [Function.update_noteq hq]
  have hunf : ProcessNodeSearch env (s0.brk + 1) cn s =
      (match ExploreCircleNode env cn sA with
      | none => Outcome.diverge
      | some s3 =>
        if Overlap env (s3.heap cn).circle (s3.heap (s0.brk + 1)).circle (1 / 2) = true then
          (match RebuildCirclePath env (s0.brk + 1) { s3 with
              heap := Function.update s3.heap (s0.brk + 1)
                { s3.heap (s0.brk + 1) with parent := some cn } } with
          | none => Outcome.diverge
          | some s5 => Outcome.ok (true, s5))
        else Outcome.ok (false, s3)) := by
    rw [hsA]; rfl
  rw [hunf] at h
  cases hE : ExploreCircleNode env cn sA with
  | none => rw [hE] at h; simp at h
  | some s3 =>
    rw [hE] at h
    simp only at h
    have hpost := ExploreCircleNode_post env cn sA s3 hcnA.2.1 hE
    have hinv3 : SearchInv env s0 s3 :=
      SearchInv_explore env s0 sA s3 cn s.closed hinvA hclosedA hcnA hpost
    by_cases hov : Overlap env (s3.heap cn).circle (s3.heap (s0.brk + 1)).circle (1 / 2) = true
    · rw [if_pos hov] at h
      obtain ⟨s4, hs4⟩ : ∃ x : HolonomicHeuristic R, x = { s3 with
          heap := Function.update s3.heap (s0.brk + 1)
            { s3.heap (s0.brk + 1) with parent := some cn } } := ⟨_, rfl⟩
      rw [← hs4] at h
      have h4b : s4.brk = s3.brk := by rw [hs4]
      have h4g : s4.heap (s0.brk + 1) = { s3.heap (s0.brk + 1) with parent := some cn } := by
        rw [hs4]; simp only [Function.update_same]
      have h4o : ∀ p, p ≠ s0.brk + 1 → s4.heap p = s3.heap p := by
        intro p hp; rw [hs4]; simp only [Function.update_noteq hp]
      have hcn3 : cn ∈ s3.closed := by rw [hpost.closed_eq, hclosedA]; simp
      obtain ⟨ch, c1, c2, c3, c4, c5, c6⟩ := chain_of_closed env s0 s3 hinv3 cn cn (le_refl _) hcn3
      have hchnode : ∀ c, c ∈ ch → c ≠ s0.brk + 1 ∧ c < s3.brk ∧ s0.brk ≤ c := by
        intro c hc
        have := hinv3.nodes c (Or.inr (Or.inr (c4 c hc).1))
        exact ⟨this.2.2.1, this.2.1, this.1⟩
      have hchA : ∀ c, c ∈ ch → c < s.brk := by
        intro c hc
        have h1 := (c4 c hc).1
        rw [hpost.closed_eq] at h1
        have := (hinvA.nodes c (Or.inr (Or.inr h1))).2.1
        rw [hbrkA] at this
        exact this
      have hb3 := hinv3.brk_ge
      have hchain4 : IsChain s4.heap (some (s0.brk + 1)) ((s0.brk + 1) :: ch) := by
        simp only [IsChain, true_and]
        rw [h4g]
        exact IsChain_congr s3.heap s4.heap ch (some cn)
          (fun q hq => by rw [h4o q (hchnode q hq).1]) c1
      have hnd4 : ((s0.brk + 1) :: ch).Nodup := by
        rw [List.nodup_cons]
        exact ⟨fun hmem => (hchnode _ hmem).1 rfl, c5⟩
      have hlt4 : ∀ c, c ∈ (s0.brk + 1) :: ch → c < s4.brk := by
        intro c hc
        rw [h4b]
        rcases List.mem_cons.mp hc with h1 | h1
        · omega
        · exact (hchnode c h1).2.1
      obtain ⟨s5, r1, r2, r3, r4, r5, r6, r7, r8, r9, r10, r11, r12, r13, r14⟩ :=
        RebuildCirclePath_post env s4 (s0.brk + 1) ((s0.brk + 1) :: ch) hchain4 hnd4 hlt4
      rw [r1] at h
      simp only [Outcome.ok.injEq, Prod.mk.injEq, true_and] at h
      subst h
      have h4path : s4.circle_path = s3.circle_path := by rw [hs4]
      have hcirc5 : ∀ p, p < s3.brk → (s5.heap p).circle = (s3.heap p).circle := by
        intro p hp
        rw [(r4 p (by omega)).1]
        by_cases hpg : p = s0.brk + 1
        · rw [hpg, h4g]
        · rw [h4o p hpg]
      have hcircS : ∀ p, p ∈ ch → (s5.heap p).circle = (s.heap p).circle := by
        intro p hp
        rw [hcirc5 p (hchnode p hp).2.1, hpost.old_heap p (by rw [hbrkA]; exact hchA p hp),
          hcircA]
      refine ⟨ch.reverse, ?_, ?_, ?_⟩
      · rw [List.getLast?_reverse]; exact c2
      · intro p hp
        rw [List.dropLast_reverse] at hp
        have hp2 : p ∈ ch.tail := List.mem_reverse.mp hp
        have hp3 : p ∈ ch := List.mem_of_mem_tail hp2
        have hp4 := (c4 p hp3).1
        rw [hpost.closed_eq, hclosedA] at hp4
        rcases List.mem_append.mp hp4 with h1 | h1
        · exact h1
        · simp only [List.mem_singleton] at h1
          exfalso
          cases ch with
          | nil => simp at hp2
          | cons x xs =>
            simp only [List.head?_cons, Option.some.injEq] at c2
            simp only [List.tail_cons] at hp2
            rw [List.nodup_cons] at c5
            rw [c2, ← h1] at c5
            exact c5.1 hp2
      · have hpath5 : s5.circle_path =
            List.range' (s4.brk + 1) (((s0.brk + 1) :: ch).length + 1) := by
          rw [r2, h4path, hinv3.path_eq, hp0, List.nil_append]
        unfold pathNodes
        rw [hpath5, List.map_map]
        have hmapc := congrArg (List.map (fun n : CircleNode R => n.circle)) r7
        simp only [List.map_map] at hmapc
        have hfn : ((fun n : CircleNode R => n.circle) ∘ fun p => dropParent (s5.heap p)) =
            ((fun x : CircleNode R => x.circle) ∘ s5.heap) := rfl
        rw [hfn] at hmapc
        rw [hmapc]
        simp only [List.reverse_cons, List.map_append, List.map_cons, List.map_nil,
          List.append_assoc, List.singleton_append, Function.comp]
        have hg5 : (s5.heap (s0.brk + 1)).circle =
            ⟨s0.goal.position, s0.grid.GetObstacleDistance s0.goal.position⟩ := by
          rw [hcirc5 _ (by omega), hinv3.goal_node]
        have ht5 : (s5.heap s4.brk).circle =
            ⟨s0.goal.position, s0.grid.GetObstacleDistance s0.goal.position⟩ := by
          rw [r6, h4g, hinv3.goal_node]
        rw [hg5, ht5]
        congr 1
        apply List.map_congr_left
        intro p hp
        exact hcircS p (List.mem_reverse.mp hp)
    · rw [if_neg hov] at h
      simp at h

/-- What a successful `SpaceExploration` leaves, in terms of the circle path
alone: the circles `cs` of a chain of search nodes followed by the goal circle
twice, where `cs` starts with the start circle, every circle of `cs` is a child
circle of the one before it, and no circle of `cs` but the last overlaps the
goal circle; along the path every node costs what its successor costs plus the
distance between the two centres, and the last node costs `0`. -/
theorem SpaceExploration_success_detail (env : Env R) (fuel : Nat)
    (s s1 : HolonomicHeuristic R) (hq : Quiescent s) (hp : s.circle_path = [])
    (h : SpaceExploration env fuel s = Outcome.ok (true, s1)) :
    s1.goal = s.goal ∧
    ∃ cs : List (Circle R),
      (pathNodes s1).map (fun x => x.circle) =
        cs ++ [⟨s.goal.position, s.grid.GetObstacleDistance s.goal.position⟩,
          ⟨s.goal.position, s.grid.GetObstacleDistance s.goal.position⟩] ∧
      cs.head? = some ⟨s.start.position, s.grid.GetObstacleDistance s.start.position⟩ ∧
      List.Chain' (fun par child => ChildCircle env s.grid par child) cs ∧
      List.Chain' (fun prev node => CostStep env node prev) (pathNodes s1) ∧
      ((pathNodes s1).map (fun x => x.g)).getLast? = some 0 ∧
      ∀ c, c ∈ cs.dropLast →
        Overlap env c ⟨s.goal.position, s.grid.GetObstacleDistance s.goal.position⟩ (1 / 2)
          = false := by
  rw [SpaceExploration_eq] at h
  cases hS : SpaceExplorationSearch env fuel s with
  | ok v =>
    obtain ⟨b, s2⟩ := v
    rw [hS] at h
    simp only [Outcome.ok.injEq, Prod.mk.injEq] at h
    obtain ⟨hb, hs1⟩ := h
    subst hb
    have hpn : pathNodes s1 = pathNodes s2 := by rw [← hs1]; rfl
    have hgoal : s1.goal = s2.goal := by rw [← hs1]; rfl
    obtain ⟨hg1, hinv0⟩ := explorationInit_inv env s hq
    unfold SpaceExplorationSearch at hS
    rw [hg1] at hS
    obtain ⟨sp, cn, i1, i2, i3, i4, i5⟩ :=
      (mainLoop_result_inv env s (GoalFree env s) (LoopInvariant_goalFree env s) fuel _ true s2
        hinv0 (explorationInit_goalFree env s hq) hS).2 rfl
    obtain ⟨hsucc, _⟩ := (ProcessNodeSearch_post env s sp cn i1 i3 i4 true s2 i5).2 rfl
    obtain ⟨chp, k1, k2, k3⟩ := ProcessNodeSearch_success_chain env s sp cn i1 i3 i4 hp s2 i5
    obtain ⟨newPtrs, cs, n, e1, _, e3, e4, _, _, e7, e8, e9⟩ := hsucc.path
    rw [hp, List.nil_append] at e1
    have hcs : cs = chp.map (fun p => (sp.heap p).circle) := by
      have h3 : (pathNodes s2).map (fun x => x.circle) =
          newPtrs.map (fun p => (s2.heap p).circle) := by
        unfold pathNodes; rw [e1, List.map_map]; rfl
      rw [h3, e3] at k3
      exact List.append_cancel_right k3
    refine ⟨hgoal.trans hsucc.goal_eq, cs, ?_, e4, e7, ?_, ?_, ?_⟩
    · rw [hpn]
      unfold pathNodes
      rw [e1, List.map_map]
      exact e3
    · rw [hpn]; unfold pathNodes; rw [e1]; exact e8
    · rw [hpn]; unfold pathNodes; rw [e1, List.map_map]; exact e9
    · intro c hc
      rw [hcs, ← List.map_dropLast] at hc
      obtain ⟨p, hp1, hp2⟩ := List.mem_map.mp hc
      rw [← hp2]
      exact i2 p (k2 p hp1)
  | diverge => rw [hS] at h; simp at h
  | outOfFuel => rw [hS] at h; simp at h
  | undefined => rw [hS] at h; simp at h

/-- The query in terms of the scan of the path: `i` is the first position of
least distance to the probe, and the look-ahead moves to `i + 1` when the
squared-distance test says so. -/
theorem GetHeuristicValue_scan (env : Env R) (s : HolonomicHeuristic R)
    (p : Pose2D R) (h : s.circle_path ≠ []) :
    ∃ i, i < s.circle_path.length ∧
      (∀ k, k < s.circle_path.length → probeDistance env s p i ≤ probeDistance env s p k) ∧
      (∀ k, k < i → probeDistance env s p i < probeDistance env s p k) ∧
      GetHeuristicValue env s p =
        if i + 1 < s.circle_path.length ∧
            Distance2 (pathNode s i).circle.position (pathNode s (i + 1)).circle.position >
              Distance2 p.position (pathNode s (i + 1)).circle.position
        then (pathNode s (i + 1)).g + probeDistance env s p (i + 1)
        else (pathNode s i).g + probeDistance env s p i := by
  obtain ⟨c0, rest, hcp⟩ : ∃ c0 rest, s.circle_path = c0 :: rest := by
    cases hc : s.circle_path with
    | nil => exact absurd hc h
    | cons c0 rest => exact ⟨c0, rest, rfl⟩
  obtain ⟨hi, hmin, hfirst⟩ := nearestScan_spec env s.heap p.position 0 rest [c0] 0
    (Distance env p.position (s.heap c0).circle.position) (by simp) (by simp)
    (by intro k hk; simp at hk; subst hk; simp) (by intro k hk; omega)
  simp only [List.singleton_append, List.length_singleton] at hi hmin hfirst
  obtain ⟨i, hidef⟩ : ∃ i, i = nearestScan env s.heap p.position rest 1 0
      (Distance env p.position (s.heap c0).circle.position) := ⟨_, rfl⟩
  rw [← hidef] at hi hmin hfirst
  refine ⟨i, by rw [hcp]; exact hi, ?_, ?_, ?_⟩
  · intro k hk
    rw [hcp] at hk
    simp only [probeDistance, pathNode, hcp]
    exact hmin k hk
  · intro k hk
    simp only [probeDistance, pathNode, hcp]
    exact hfirst k hk
  · simp only [GetHeuristicValue, NearestCircleNode, hcp, probeDistance, pathNode]
    rw [← hidef]
    by_cases hnext : i + 1 < (c0 :: rest).length
    · rw [getD_default_irrel (c0 :: rest) _ c0 0 hnext, getD_default_irrel (c0 :: rest) _ c0 0 hi]
      by_cases hcmp : Distance2 (s.heap ((c0 :: rest).getD i 0)).circle.position
          (s.heap ((c0 :: rest).getD (i + 1) 0)).circle.position >
          Distance2 p.position (s.heap ((c0 :: rest).getD (i + 1) 0)).circle.position
      · simp only [hnext, hcmp, if_true, and_self]
      · simp only [hnext, hcmp, if_true, if_false, and_false]
    · rw [getD_default_irrel (c0 :: rest) _ c0 0 hi]
      simp only [hnext, if_false, false_and]

theorem Distance2_self (a : Vector2D R) : Distance2 a a = 0 := by
  simp [Distance2]

theorem Distance2_eq_zero (a b : Vector2D R) (h : Distance2 a b = 0) : a = b := by
  unfold Distance2 at h
  obtain ⟨h1, h2⟩ := mul_self_add_mul_self_eq_zero.mp h
  cases a; cases b
  simp only [Vector2D.mk.injEq]
  exact ⟨sub_eq_zero.mp h1, sub_eq_zero.mp h2⟩

theorem sqrt_nonneg_of (env : Env R) (hsqrt0 : env.sqrt 0 = 0)
    (hsqrtpos : ∀ x, 0 < x → 0 < env.sqrt x) : ∀ x, 0 ≤ x → 0 ≤ env.sqrt x := by
  intro x hx
  rcases eq_or_lt_of_le hx with h | h
  · rw [← h, hsqrt0]
  · exact le_of_lt (hsqrtpos x h)

theorem chain_tail_child (env : Env R) (grid : InternalGridMap R) :
    ∀ (l : List (Circle R)) (a : Circle R),
      List.Chain' (fun par child => ChildCircle env grid par child) (a :: l) →
      ∀ c, c ∈ l → c.r = grid.GetObstacleDistance c.position - 1 / 4 ∧ c.r > 3 / 2 := by
  intro l
  induction l with
  | nil => intro a _ c hc; simp at hc
  | cons b rest ih =>
    intro a hch c hc
    rw [List.chain'_cons] at hch
    rcases List.mem_cons.mp hc with h1 | h1
    · rw [h1]; exact ⟨hch.1.2.2.1, hch.1.2.2.2⟩
    · exact ih b hch.2 c h1

/-- A child circle centred at the goal position overlaps the goal circle. -/
theorem child_at_goal_overlaps (env : Env R) (hsqrt0 : env.sqrt 0 = 0)
    (grid : InternalGridMap R) (gp : Vector2D R) (c : Circle R) (hpos : c.position = gp)
    (hr : c.r = grid.GetObstacleDistance c.position - 1 / 4) (hgt : c.r > 3 / 2) :
    Overlap env c ⟨gp, grid.GetObstacleDistance gp⟩ (1 / 2) = true := by
  rw [Overlap_eq_decide]
  simp only [decide_eq_true_eq]
  have hd : Distance env c.position gp = 0 := by
    rw [hpos]; unfold Distance; rw [Distance2_self, hsqrt0]
  rw [hpos] at hr
  have hrg : grid.GetObstacleDistance gp = c.r + 1 / 4 := by rw [hr]; ring
  rw [hd, hrg, max_eq_right (by linarith), min_eq_left (by linarith)]
  linarith

theorem cost_chain_zero (env : Env R) (hsqrt0 : env.sqrt 0 = 0) (gp : Vector2D R) :
    ∀ (l : List (CircleNode R)),
      List.Chain' (fun prev node => CostStep env node prev) l →
      (l.map (fun n => n.g)).getLast? = some 0 →
      (∀ n, n ∈ l → n.circle.position = gp) → ∀ n, n ∈ l → n.g = 0 := by
  intro l
  induction l with
  | nil => intro _ _ _ n hn; simp at hn
  | cons a rest ih =>
    intro hch hlast hpos n hn
    cases rest with
    | nil =>
      simp only [List.map_cons, List.map_nil, List.getLast?_singleton, Option.some.injEq] at hlast
      simp only [List.mem_singleton] at hn
      rw [hn, hlast]
    | cons b rest2 =>
      rw [List.chain'_cons] at hch
      have hlast2 : (List.map (fun n => n.g) (b :: rest2)).getLast? = some 0 := by
        simp only [List.map_cons] at hlast ⊢
        rw [List.getLast?_cons_cons] at hlast
        exact hlast
      have ihb := ih hch.2 hlast2 (fun m hm => hpos m (List.mem_cons_of_mem _ hm))
      rcases List.mem_cons.mp hn with h1 | h1
      · rw [h1]
        have hstep : a.g = Distance env b.circle.position a.circle.position + b.g := hch.1
        rw [hstep, ihb b (List.mem_cons_self _ _), hpos a (List.mem_cons_self _ _),
          hpos b (List.mem_cons_of_mem _ (List.mem_cons_self _ _))]
        unfold Distance
        rw [Distance2_self, hsqrt0, add_zero]
      · exact ihb n h1

theorem pathNode_eq_getD (s : HolonomicHeuristic R) (k : Nat) :
    pathNode s k = (pathNodes s).getD k (s.heap 0) := by
  unfold pathNode pathNodes
  exact (List.getD_map _ _ s.heap).symm

theorem mem_drop_getD {α : Type} (l : List α) (i : Nat) (a d : α) (h : a ∈ l.drop i) :
    ∃ j, i + j < l.length ∧ l.getD (i + j) d = a := by
  obtain ⟨j, hj⟩ := List.mem_iff_getElem?.mp h
  rw [List.getElem?_drop] at hj
  have hlt : i + j < l.length := by
    by_contra hge
    rw [List.getElem?_eq_none (not_lt.mp hge)] at hj
    simp at hj
  refine ⟨j, hlt, ?_⟩
  rw [List.getD_eq_getElem?_getD, hj]
  rfl

/-- C12: whenever `SpaceExploration` reports success, the query at the goal
position is at most the cost `g` of the last node of the circle path, given a
`sqrt` that is zero at zero and positive on positive numbers and a
non-negative clearance of the start. -/
theorem GetHeuristicValue_goal_le_last (env : Env R) (fuel : Nat)
    (s s1 : HolonomicHeuristic R) (hsqrt0 : env.sqrt 0 = 0)
    (hsqrtpos : ∀ x, 0 < x → 0 < env.sqrt x)
    (hclear : 0 ≤ s.grid.GetObstacleDistance s.start.position)
    (hq : Quiescent s) (hp : s.circle_path = [])
    (h : SpaceExploration env fuel s = Outcome.ok (true, s1))
    (p : Pose2D R) (hprobe : p.position = s1.goal.position) :
    ∃ last, (pathNodes s1).getLast? = some last ∧ GetHeuristicValue env s1 p ≤ last.g := by
  obtain ⟨hgoal, cs, f1, f2, f3, f4, f5, f6⟩ :=
    SpaceExploration_success_detail env fuel s s1 hq hp h
  rw [hgoal] at hprobe
  have hnn := sqrt_nonneg_of env hsqrt0 hsqrtpos
  obtain ⟨G, hG⟩ : ∃ G : Circle R,
      G = ⟨s.goal.position, s.grid.GetObstacleDistance s.goal.position⟩ := ⟨_, rfl⟩
  rw [← hG] at f1 f6
  have hGpos : G.position = s.goal.position := by rw [hG]
  have hlenN : (pathNodes s1).length = cs.length + 2 := by
    have := congrArg List.length f1
    simpa using this
  have hlen : s1.circle_path.length = cs.length + 2 := by
    rw [← hlenN]; unfold pathNodes; rw [List.length_map]
  have hcirc : ∀ k, (pathNode s1 k).circle = (cs ++ [G, G]).getD k (s1.heap 0).circle := by
    intro k
    rw [pathNode_eq_getD, ← f1]
    exact (List.getD_map _ _ (fun x : CircleNode R => x.circle)).symm
  have hcircHi : ∀ k, cs.length ≤ k → k < cs.length + 2 → (pathNode s1 k).circle = G := by
    intro k hk1 hk2
    rw [hcirc k, List.getD_append_right _ _ _ _ hk1]
    have hk3 : k - cs.length = 0 ∨ k - cs.length = 1 := by omega
    rcases hk3 with h3 | h3
    · rw [h3]; rfl
    · rw [h3]; rfl
  have hne : s1.circle_path ≠ [] := by
    intro hnil
    rw [hnil] at hlen
    simp at hlen
  obtain ⟨i, hi, hmin, _, hval⟩ := GetHeuristicValue_scan env s1 p hne
  -- the distance at the nearest position is zero
  have hdlast : probeDistance env s1 p (cs.length + 1) = 0 := by
    unfold probeDistance
    rw [hcircHi (cs.length + 1) (by omega) (by omega), hGpos, hprobe]
    unfold Distance
    rw [Distance2_self, hsqrt0]
  have hdi : probeDistance env s1 p i = 0 := by
    have h1 := hmin (cs.length + 1) (by omega)
    rw [hdlast] at h1
    exact le_antisymm h1 (Distance_nonneg env hnn _ _)
  have hci : (pathNode s1 i).circle.position = s.goal.position := by
    have h2 : Distance2 p.position (pathNode s1 i).circle.position = 0 := by
      by_contra hne2
      have hpos : 0 < Distance2 p.position (pathNode s1 i).circle.position :=
        lt_of_le_of_ne (Distance2_nonneg _ _) (fun h3 => hne2 h3.symm)
      have := hsqrtpos _ hpos
      unfold probeDistance Distance at hdi
      rw [hdi] at this
      exact lt_irrefl _ this
    rw [← Distance2_eq_zero _ _ h2, hprobe]
  -- the look-ahead does not move
  have hval2 : GetHeuristicValue env s1 p = (pathNode s1 i).g := by
    rw [hval, if_neg, hdi, add_zero]
    rintro ⟨_, hgt⟩
    rw [hci, hprobe] at hgt
    exact lt_irrefl _ hgt
  -- the nearest position is not before the last search circle
  have hge : cs.length ≤ i + 1 := by
    by_contra hlt
    have hlt2 : i + 1 < cs.length := not_le.mp hlt
    have hci2 : (pathNode s1 i).circle = cs.getD i (s1.heap 0).circle := by
      rw [hcirc i, List.getD_append _ _ _ _ (by omega)]
    have hmemD : (pathNode s1 i).circle ∈ cs.dropLast := by
      have hlt3 : i < cs.dropLast.length := by rw [List.length_dropLast]; omega
      have hlt4 : i < cs.length := by omega
      rw [hci2, List.getD_eq_getElem _ _ hlt4, ← List.getElem_dropLast cs i hlt3]
      exact List.getElem_mem _
    have hno := f6 _ hmemD
    cases cs with
    | nil => simp at hlt2
    | cons c0 rest =>
      simp only [List.head?_cons, Option.some.injEq] at f2
      cases i with
      | zero =>
        have hc0 : (pathNode s1 0).circle = c0 := by rw [hci2]; rfl
        rw [hc0] at hno hci
        cases rest with
        | nil => simp at hlt2
        | cons c1 rest2 =>
          rw [List.chain'_cons] at f3
          have hr0 : c0.r = s.grid.GetObstacleDistance c0.position := by rw [f2]
          have hrg : s.grid.GetObstacleDistance s.goal.position = c0.r := by
            rw [hr0, hci]
          have hr0nn : 0 ≤ c0.r := by rw [f2]; exact hclear
          rw [Overlap_eq_decide, hG] at hno
          simp only [decide_eq_false_iff_not, not_lt] at hno
          rw [hci, hrg, max_self, min_self] at hno
          unfold Distance at hno
          rw [Distance2_self, hsqrt0] at hno
          have hz : c0.r = 0 := by linarith
          exact no_child_of_zero env s.grid c0 c1 hz (by rw [← hr0, hz]) f3.1
      | succ j =>
        have hcj : (pathNode s1 (j + 1)).circle ∈ rest := by
          have hlt4 : j < rest.length := by simp at hlt2; omega
          rw [hci2]
          show rest.getD j _ ∈ rest
          rw [List.getD_eq_getElem _ _ hlt4]
          exact List.getElem_mem _
        obtain ⟨t1, t2⟩ := chain_tail_child env s.grid rest c0 f3 _ hcj
        have := child_at_goal_overlaps env hsqrt0 s.grid s.goal.position _ hci t1 t2
        rw [hG, this] at hno
        exact absurd hno (by simp)
  -- from the nearest position on every centre is the goal position
  have hall : ∀ n, n ∈ (pathNodes s1).drop i → n.circle.position = s.goal.position := by
    intro n hn
    obtain ⟨j, hj1, hj2⟩ := mem_drop_getD _ i n (s1.heap 0) hn
    rw [← hj2, ← pathNode_eq_getD]
    cases j with
    | zero => exact hci
    | succ j2 =>
      rw [hcircHi (i + (j2 + 1)) (by omega) (by rw [← hlenN]; exact hj1), hGpos]
  have hchd := List.Chain'.drop f4 i
  have hlastd : (((pathNodes s1).drop i).map (fun x => x.g)).getLast? = some 0 := by
    rw [List.map_drop, List.getLast?_drop, if_neg, f5]
    rw [List.length_map, hlenN, ← hlen]
    exact not_le.mpr hi
  have hmemi : pathNode s1 i ∈ (pathNodes s1).drop i := by
    rw [List.mem_iff_getElem?]
    refine ⟨0, ?_⟩
    rw [List.getElem?_drop, add_zero, pathNode_eq_getD, List.getD_eq_getElem?_getD]
    have hlt : i < (pathNodes s1).length := by rw [hlenN, ← hlen]; exact hi
    rw [List.getElem?_eq_getElem hlt]
    rfl
  have hgi : (pathNode s1 i).g = 0 :=
    cost_chain_zero env hsqrt0 s.goal.position _ hchd hlastd hall _ hmemi
  cases hl : (pathNodes s1).getLast? with
  | none =>
    rw [List.getLast?_eq_none_iff] at hl
    rw [hl] at hlenN
    simp at hlenN
  | some last =>
    refine ⟨last, rfl, ?_⟩
    rw [List.getLast?_map, hl] at f5
    simp only [Option.map_some', Option.some.injEq] at f5
    rw [hval2, hgi, f5]

end GoalQuery

/-- C12, witness: the flat field over the reals, where the root overlaps the
goal; and on the field with the post over the rationals the query at the goal
`(8, 0)` evaluates to `0`. -/
theorem GetHeuristicValue_goal_le_last_witness :
    Real.sqrt 0 = 0 ∧ (∀ x : ℝ, 0 < x → 0 < Real.sqrt x) ∧
    (0 : ℝ) ≤ (flatField ℝ).grid.GetObstacleDistance (flatField ℝ).start.position ∧
    Quiescent (flatField ℝ) ∧ (flatField ℝ).circle_path = [] ∧
    GetHeuristicValue envQ ((UpdateHeuristic envQ 5 (construct lonePost) lonePost ⟨⟨0, 0⟩, 0⟩
      ⟨⟨8, 0⟩, 0⟩).getD (construct lonePost)) ⟨⟨8, 0⟩, 0⟩ = 0 ∧
    ∃ s1, SpaceExploration
        (⟨Real.sqrt, Real.cos, Real.sin, Real.pi, fun _ _ _ => 0, fun _ _ _ => 0⟩ : Env ℝ) 1
        (flatField ℝ) = Outcome.ok (true, s1) ∧
      ∃ last, (pathNodes s1).getLast? = some last ∧
        GetHeuristicValue
          (⟨Real.sqrt, Real.cos, Real.sin, Real.pi, fun _ _ _ => 0, fun _ _ _ => 0⟩ : Env ℝ)
          s1 ⟨s1.goal.position, 0⟩ ≤ last.g := by
  have hclear : (0 : ℝ) ≤ (flatField ℝ).grid.GetObstacleDistance (flatField ℝ).start.position := by
    show (0 : ℝ) ≤ 2
    norm_num
  have hov : Overlap (⟨Real.sqrt, Real.cos, Real.sin, Real.pi, fun _ _ _ => 0, fun _ _ _ => 0⟩ :
      Env ℝ)
      ⟨(flatField ℝ).start.position,
        (flatField ℝ).grid.GetObstacleDistance (flatField ℝ).start.position⟩
      ⟨(flatField ℝ).goal.position,
        (flatField ℝ).grid.GetObstacleDistance (flatField ℝ).goal.position⟩ (1 / 2) = true := by
    simp only [Overlap, Distance, Distance2, flatField, construct]
    norm_num
  obtain ⟨s1, h⟩ := SpaceExploration_root_overlap
    (⟨Real.sqrt, Real.cos, Real.sin, Real.pi, fun _ _ _ => 0, fun _ _ _ => 0⟩ : Env ℝ) 0
    (flatField ℝ) ⟨rfl, rfl, rfl⟩ Real.pi_pos hov
  exact ⟨Real.sqrt_zero, fun x hx => Real.sqrt_pos.mpr hx, hclear, ⟨rfl, rfl, rfl⟩, rfl,
    by decide!, s1, h,
    GetHeuristicValue_goal_le_last _ 1 (flatField ℝ) s1 Real.sqrt_zero
      (fun x hx => Real.sqrt_pos.mpr hx) hclear ⟨rfl, rfl, rfl⟩ rfl h ⟨s1.goal.position, 0⟩ rfl⟩

/-! ## Termination: the counting argument -/

section Counting

/-- A non-empty list splits at the last element whose class is new: the classes
of all later elements occur up to that element. -/
theorem new_class_split {α γ : Type} (col : α → γ) :
    ∀ L : List α, L = [] ∨ ∃ P0 y S, L = P0 ++ y :: S ∧ col y ∉ P0.map col ∧
      ∀ z, z ∈ S → col z ∈ (P0 ++ [y]).map col := by
  intro L
  induction L using List.reverseRecOn with
  | nil => exact Or.inl rfl
  | append_singleton L z ih =>
    right
    by_cases hz : col z ∈ L.map col
    · rcases ih with h | ⟨P0, y, S, h1, h2, h3⟩
      · rw [h] at hz; simp at hz
      · refine ⟨P0, y, S ++ [z], by rw [h1]; simp, h2, ?_⟩
        intro w hw
        rcases List.mem_append.mp hw with h4 | h4
        · exact h3 w h4
        · simp only [List.mem_singleton] at h4
          rw [h4]
          rw [h1, List.map_append, List.map_cons, List.mem_append, List.mem_cons] at hz
          rw [List.map_append, List.map_cons, List.map_nil, List.mem_append, List.mem_singleton]
          rcases hz with h5 | h5 | h5
          · exact Or.inl h5
          · exact Or.inr h5
          · obtain ⟨u, hu1, hu2⟩ := List.mem_map.mp h5
            have := h3 u hu1
            rw [hu2, List.map_append, List.map_cons, List.map_nil, List.mem_append,
              List.mem_singleton] at this
            exact this
    · exact ⟨L, z, [], rfl, hz, by intro w hw; simp at hw⟩

/-- The counting argument of the termination proof: in a duplicate-free list of
addresses whose classes lie in a set of at most `k` classes, if every element
that comes after an element of its own class at position `i` is an address below
`c + 37 (i + 1)`, then the list has at most `closedBound c k` elements. -/
theorem class_count_bound {γ : Type} [DecidableEq γ] (col : Nat → γ) (c : Nat) :
    ∀ (k : Nat) (K : Finset γ), K.card ≤ k → ∀ L : List Nat, L.Nodup →
      (∀ x, x ∈ L → col x ∈ K) →
      (∀ l1 l2 x y, L = l1 ++ x :: l2 → y ∈ l2 → col y = col x →
        y < c + 37 * (l1.length + 1)) →
      L.length ≤ closedBound c k := by
  intro k
  induction k with
  | zero =>
    intro K hK L _ hcol _
    have hK0 : K = ∅ := Finset.card_eq_zero.mp (Nat.le_zero.mp hK)
    cases L with
    | nil => simp
    | cons a rest =>
      have := hcol a (List.mem_cons_self _ _)
      rw [hK0] at this
      simp at this
  | succ k ih =>
    intro K hK L hnd hcol hH
    rcases new_class_split col L with h | ⟨P0, y, S, h1, h2, h3⟩
    · rw [h]; simp
    · have hyK : col y ∈ K := hcol y (by rw [h1]; simp)
      have hK' : (K.erase (col y)).card ≤ k := by
        rw [Finset.card_erase_of_mem hyK]; omega
      have hP0nd : P0.Nodup := by
        rw [h1] at hnd
        exact (List.nodup_append.mp hnd).1
      have hSnd : S.Nodup := by
        rw [h1] at hnd
        exact ((List.nodup_cons.mp (List.nodup_append.mp hnd).2.1)).2
      have hP0col : ∀ x, x ∈ P0 → col x ∈ K.erase (col y) := by
        intro x hx
        rw [Finset.mem_erase]
        refine ⟨?_, hcol x (by rw [h1]; exact List.mem_append_left _ hx)⟩
        intro heq
        exact h2 (heq ▸ List.mem_map_of_mem col hx)
      have hP0H : ∀ l1 l2 x w, P0 = l1 ++ x :: l2 → w ∈ l2 → col w = col x →
          w < c + 37 * (l1.length + 1) := by
        intro l1 l2 x w hs hw hc
        apply hH l1 (l2 ++ y :: S) x w
        · rw [h1, hs]; simp
        · exact List.mem_append_left _ hw
        · exact hc
      have hlenP0 := ih (K.erase (col y)) hK' P0 hP0nd hP0col hP0H
      have hSlt : ∀ z, z ∈ S → z < c + 37 * (P0.length + 1) := by
        intro z hz
        obtain ⟨x, hx1, hx2⟩ := List.mem_map.mp (h3 z hz)
        obtain ⟨l1, l2, hs⟩ := List.append_of_mem hx1
        have hl : l1.length + 1 + l2.length = P0.length + 1 := by
          have := congrArg List.length hs
          simp at this
          omega
        have hsplit : L = l1 ++ x :: (l2 ++ S) := by
          have h4 : P0 ++ y :: S = (P0 ++ [y]) ++ S := by simp
          rw [h1, h4, hs]; simp
        have hb := hH l1 (l2 ++ S) x z hsplit
          (List.mem_append_right _ hz) hx2.symm
        have : 37 * (l1.length + 1) ≤ 37 * (P0.length + 1) := by
          apply Nat.mul_le_mul_left
          omega
        omega
      have hlenS := length_le_of_nodup_lt S _ hSnd hSlt
      have hlen : L.length = P0.length + 1 + S.length := by
        rw [h1]; simp; omega
      rw [hlen]
      simp only [closedBound]
      omega

end Counting

/-! ## Termination: allocation bounds and the measure of the main loop -/

section Allocation

variable {R : Type} [LinearOrderedField R]

theorem GetChildren_alloc_le (env : Env R) (s s1 : HolonomicHeuristic R) (cn : Nat)
    (cs : List Nat) (hpi : 0 < env.M_PI) (hcn : cn < s.brk)
    (h : GetChildren env s cn = some (cs, s1)) : s1.brk ≤ s.brk + 37 := by
  obtain ⟨cs2, s2, new, hrun, hcs, hnew, _⟩ :=
    getChildrenLoop_run env cn (s.heap cn).circle.position.x (s.heap cn).circle.position.y
      (s.heap cn).circle.r 37
      (fun j hj => (sampleAngle_le_twopi env hpi j).mpr (by omega))
      (fun h => absurd ((sampleAngle_le_twopi env hpi 37).mp h) (by omega))
      38 0 s [] (by omega) (by omega)
  have hG : GetChildren env s cn = some (cs2, s2) := hrun
  rw [hG] at h
  simp only [Option.some.injEq, Prod.mk.injEq] at h
  obtain ⟨h1, h2⟩ := h
  subst h1; subst h2
  have hpost := GetChildren_post env s s2 cn cs2 hcn hG
  have hlen1 : cs2.length = s2.brk - s.brk := by
    rw [hpost.children_eq]; simp
  have hlen2 : new.length ≤ 37 := by
    have := congrArg List.length hnew
    rw [List.length_map] at this
    rw [this]
    exact le_trans (List.length_filterMap_le _ _) (by simp)
  have hlen3 : cs2.length = new.length := by rw [hcs]; simp
  have := hpost.brk_le
  omega

theorem ProcessNodeSearch_false_alloc (env : Env R) (s s1 : HolonomicHeuristic R)
    (goal cn : Nat) (hpi : 0 < env.M_PI) (hcn : cn < s.brk)
    (h : ProcessNodeSearch env goal cn s = Outcome.ok (false, s1)) :
    s1.brk ≤ s.brk + 37 := by
  obtain ⟨sA, hsA⟩ : ∃ x : HolonomicHeuristic R, x = { s with
      closed := s.closed ++ [cn]
      heap := Function.update s.heap cn { s.heap cn with explored := true } } := ⟨_, rfl⟩
  have hunf : ProcessNodeSearch env goal cn s =
      (match ExploreCircleNode env cn sA with
      | none => Outcome.diverge
      | some s3 =>
        if Overlap env (s3.heap cn).circle (s3.heap goal).circle (1 / 2) = true then
          (match RebuildCirclePath env goal { s3 with
              heap := Function.update s3.heap goal
                { s3.heap goal with parent := some cn } } with
          | none => Outcome.diverge
          | some s5 => Outcome.ok (true, s5))
        else Outcome.ok (false, s3)) := by
    rw [hsA]; rfl
  have hbrk : sA.brk = s.brk := by rw [hsA]
  rw [hunf] at h
  cases hE : ExploreCircleNode env cn sA with
  | none => rw [hE] at h; simp at h
  | some s3 =>
    rw [hE] at h
    simp only at h
    have hb3 : s3.brk ≤ sA.brk + 37 := by
      unfold ExploreCircleNode at hE
      cases hG : GetChildren env sA cn with
      | none => rw [hG] at hE; simp at hE
      | some r =>
        obtain ⟨children, sG⟩ := r
        rw [hG] at hE
        simp only [Option.some.injEq] at hE
        rw [← hE, (exploreLoop_post env children sG).2.1]
        exact GetChildren_alloc_le env sA sG cn children hpi (by rw [hbrk]; exact hcn) hG
    by_cases hov : Overlap env (s3.heap cn).circle (s3.heap goal).circle (1 / 2) = true
    · rw [if_pos hov] at h
      split at h
      · simp at h
      · simp at h
    · rw [if_neg hov] at h
      simp only [Outcome.ok.injEq, Prod.mk.injEq, true_and] at h
      subst h
      omega

theorem LoopInvariant_alloc (env : Env R) (s0 : HolonomicHeuristic R) (hpi : 0 < env.M_PI) :
    LoopInvariant env s0 (AllocBound s0) := by
  refine ⟨fun s q h _ => h, fun s q h _ => h, ?_⟩
  intro s s1 cn hinv hA hcn hexp h
  obtain ⟨hpost, _⟩ := ProcessNodeSearch_false env s s1 (s0.brk + 1) cn hcn.2.1 h
  have hb1 := ProcessNodeSearch_false_alloc env s s1 (s0.brk + 1) cn hpi hcn.2.1 h
  obtain ⟨hA1, hA2⟩ := hA
  have hcnot : cn ∉ s.closed := by
    intro hmem
    have := hinv.closed_explored cn hmem
    rw [hexp] at this
    exact absurd this (by simp)
  have hcl : s1.closed = s.closed ++ [cn] := hpost.closed_eq
  refine ⟨?_, ?_⟩
  · rw [hcl, List.length_append, List.length_singleton]
    omega
  · intro p q l1 l2 hp0 hp1 hpar hsplit
    rw [hcl] at hsplit
    by_cases hqc : q = cn
    · subst hqc
      obtain ⟨h1, _⟩ := append_singleton_last s.closed l1 l2 q hsplit hcnot
      rw [h1]
      omega
    · have hq : q ∈ s.closed := by
        have : q ∈ s.closed ++ [cn] := by rw [hsplit]; simp
        rcases List.mem_append.mp this with h1 | h1
        · exact h1
        · simp only [List.mem_singleton] at h1
          exact absurd h1 hqc
      obtain ⟨l3, hl3⟩ := append_singleton_split s.closed l1 l2 cn q hsplit hq hcnot
      by_cases hlt : p < s.brk
      · rw [hpost.old_heap p hlt] at hpar
        have hpar2 : (s.heap p).parent = some q := by
          have hpar3 : (Function.update s.heap cn { s.heap cn with explored := true }
              p).parent = some q := hpar
          by_cases hpc : p = cn
          · rw [hpc, Function.update_same] at hpar3
            rw [hpc]; exact hpar3
          · rw [Function.update_noteq hpc] at hpar3
            exact hpar3
        exact hA2 p q l1 l3 hp0 hlt hpar2 hl3
      · have := (hpost.child p (not_lt.mp hlt) hp1).2.1
        rw [this] at hpar
        simp only [Option.some.injEq] at hpar
        exact absurd hpar.symm hqc

theorem explorationInit_alloc (env : Env R) (s : HolonomicHeuristic R) (hq : Quiescent s) :
    AllocBound s (explorationInit env s).2 := by
  have hb : (explorationInit env s).2.brk = s.brk + 2 := rfl
  refine ⟨by rw [hb]; omega, ?_⟩
  intro p q l1 l2 hp0 hp1 hpar _
  rw [hb] at hp1
  exfalso
  have hinv := (explorationInit_inv env s hq).2
  by_cases h1 : p = s.brk
  · rw [h1, hinv.root_parent] at hpar
    simp at hpar
  · have h2 : p = s.brk + 1 := by omega
    rw [h2, hinv.goal_node] at hpar
    simp at hpar

theorem popAt_cons_ne_none (x : Nat) (l : List Nat) (i : Nat) :
    ∃ c q, popAt (x :: l) i = some (c, q) := ⟨_, _, rfl⟩

/-- A visit of a search node returns, and when it reports no success it adds
the same `a` nodes to both queues and `e` nodes to the closed set, with
`a ≤ 37 e` and `e ≤ 1`. -/
theorem visit_total (env : Env R) (s0 s : HolonomicHeuristic R) (cn : Nat)
    (hpi : 0 < env.M_PI) (hinv : SearchInv env s0 s) (hA : AllocBound s0 s)
    (hcn : SearchNode env s0 s cn) :
    ∃ b s1, visit (ProcessNodeSearch env (s0.brk + 1)) cn s = Outcome.ok (b, s1) ∧
      (b = false → SearchInv env s0 s1 ∧ AllocBound s0 s1 ∧
        ∃ a e, a ≤ 37 * e ∧ s1.nearest_open.length = s.nearest_open.length + a ∧
          s1.largest_open.length = s.largest_open.length + a ∧
          s1.closed.length = s.closed.length + e) := by
  unfold visit
  by_cases hexp : (s.heap cn).explored = false
  · rw [if_pos hexp]
    obtain ⟨b, s1, hP, _⟩ := ProcessNodeSearch_total env s0 s cn hinv hcn hexp hpi
    refine ⟨b, s1, hP, ?_⟩
    intro hb
    subst hb
    have hinv1 := (ProcessNodeSearch_post env s0 s cn hinv hcn hexp false s1 hP).1 rfl
    have hA1 := (LoopInvariant_alloc env s0 hpi).proc s s1 cn hinv hA hcn hexp hP
    obtain ⟨hpost, _⟩ := ProcessNodeSearch_false env s s1 (s0.brk + 1) cn hcn.2.1 hP
    have hb1 := ProcessNodeSearch_false_alloc env s s1 (s0.brk + 1) cn hpi hcn.2.1 hP
    have hb0 : s.brk ≤ s1.brk := hpost.brk_le
    refine ⟨hinv1, hA1,
      ((List.range' s.brk (s1.brk - s.brk)).filter (fun c => NotExist env s1 c)).length, 1,
      ?_, ?_, ?_, ?_⟩
    · have := List.length_filter_le (fun c => NotExist env s1 c)
        (List.range' s.brk (s1.brk - s.brk))
      rw [List.length_range'] at this
      omega
    · rw [hpost.nearest_eq, List.length_append]
    · rw [hpost.largest_eq, List.length_append]
    · rw [hpost.closed_eq]
      show (s.closed ++ [cn]).length = _
      simp
  · rw [if_neg hexp]
    exact ⟨false, s, rfl, fun _ => ⟨hinv, hA, 0, 0, by omega, by omega, by omega, by omega⟩⟩

/-- The main loop returns when its fuel exceeds the measure
`|nearest_open| + 37 (Bd − |closed|)`, where `Bd` bounds the closed set. -/
theorem mainLoop_terminates (env : Env R) (s0 : HolonomicHeuristic R) (Bd : Nat)
    (hpi : 0 < env.M_PI)
    (hbd : ∀ s, SearchInv env s0 s → AllocBound s0 s → s.closed.length ≤ Bd) :
    ∀ (fuel : Nat) (s : HolonomicHeuristic R), SearchInv env s0 s → AllocBound s0 s →
      s.largest_open.length = s.nearest_open.length →
      s.nearest_open.length + 37 * (Bd - s.closed.length) < fuel →
      ∃ b s1, mainLoop env (ProcessNodeSearch env (s0.brk + 1)) fuel s = Outcome.ok (b, s1) := by
  intro fuel
  induction fuel with
  | zero => intro s _ _ _ hm; omega
  | succ fuel ih =>
    intro s hinv hA hlen hm
    rw [mainLoop_visit]
    cases hpop : popAt s.nearest_open (env.pickNearest fuel s.heap s.nearest_open) with
    | none => exact ⟨false, s, rfl⟩
    | some r =>
      obtain ⟨cn, q⟩ := r
      simp only
      obtain ⟨_, _, hq⟩ := popAt_some _ _ _ _ hpop
      obtain ⟨hinvN, hAN, hcnN⟩ :=
        visit_first env s0 _ (LoopInvariant_alloc env s0 hpi) s _ cn q hinv hA hpop
      obtain ⟨b, s2, hv, hpost⟩ := visit_total env s0 _ cn hpi hinvN hAN hcnN
      rw [hv]
      cases b with
      | true => exact ⟨true, s2, rfl⟩
      | false =>
        simp only
        obtain ⟨hinv2, hA2, a1, e1, ha1, hn2, hl2, hc2⟩ := hpost rfl
        have hn2b : s2.nearest_open.length = q.length + a1 := hn2
        have hl2b : s2.largest_open.length = s.largest_open.length + a1 := hl2
        have hc2b : s2.closed.length = s.closed.length + e1 := hc2
        have hne : s2.largest_open ≠ [] := by
          intro hnil
          rw [hnil] at hl2b
          simp at hl2b
          omega
        obtain ⟨cn2, q2, hpop2⟩ : ∃ c q2, popAt s2.largest_open
            (env.pickLargest fuel s2.heap s2.largest_open) = some (c, q2) := by
          cases hL : s2.largest_open with
          | nil => exact absurd hL hne
          | cons x l => exact popAt_cons_ne_none x l _
        rw [hpop2]
        simp only
        obtain ⟨_, _, hq2⟩ := popAt_some _ _ _ _ hpop2
        obtain ⟨hinvL, hAL, hcnL⟩ :=
          visit_second env s0 _ (LoopInvariant_alloc env s0 hpi) s2 _ cn2 q2 hinv2 hA2 hpop2
        obtain ⟨b2, s4, hv2, hpost2⟩ := visit_total env s0 _ cn2 hpi hinvL hAL hcnL
        rw [hv2]
        cases b2 with
        | true => exact ⟨true, s4, rfl⟩
        | false =>
          simp only
          obtain ⟨hinv4, hA4, a2, e2, ha2, hn4, hl4, hc4⟩ := hpost2 rfl
          have hn4b : s4.nearest_open.length = s2.nearest_open.length + a2 := hn4
          have hl4b : s4.largest_open.length = q2.length + a2 := hl4
          have hc4b : s4.closed.length = s2.closed.length + e2 := hc4
          have hbd4 := hbd s4 hinv4 hA4
          apply ih s4 hinv4 hA4
          · omega
          · omega

end Allocation

/-! ## Termination: bounded maps -/

section Termination

variable {R : Type} [LinearOrderedField R] [FloorRing R]

/-- Two circles of radius above `1.5` whose centres lie in the same unit cell
overlap under factor `0.1`. -/
theorem near_overlap (env : Env R) (hsq : ∀ x, 0 ≤ x → env.sqrt x * env.sqrt x = x)
    (hnn : ∀ x, 0 ≤ x → 0 ≤ env.sqrt x) (a b : Circle R)
    (hx : ⌊a.position.x⌋ = ⌊b.position.x⌋) (hy : ⌊a.position.y⌋ = ⌊b.position.y⌋)
    (ha : 3 / 2 < a.r) (hb : 3 / 2 < b.r) : Overlap env a b (1 / 10) = true := by
  rw [Overlap_eq_decide]
  simp only [decide_eq_true_eq]
  have h1 := Int.abs_sub_lt_one_of_floor_eq_floor hx
  have h2 := Int.abs_sub_lt_one_of_floor_eq_floor hy
  have h3 : (a.position.x - b.position.x) * (a.position.x - b.position.x) < 1 := by
    rw [← abs_mul_abs_self]
    calc |a.position.x - b.position.x| * |a.position.x - b.position.x|
        < 1 * 1 := mul_lt_mul'' h1 h1 (abs_nonneg _) (abs_nonneg _)
      _ = 1 := by norm_num
  have h4 : (a.position.y - b.position.y) * (a.position.y - b.position.y) < 1 := by
    rw [← abs_mul_abs_self]
    calc |a.position.y - b.position.y| * |a.position.y - b.position.y|
        < 1 * 1 := mul_lt_mul'' h2 h2 (abs_nonneg _) (abs_nonneg _)
      _ = 1 := by norm_num
  have hd2 : Distance2 a.position b.position < 2 := by
    unfold Distance2; linarith
  have hd : Distance env a.position b.position < 3 / 2 := by
    by_contra hge
    have hge2 : 3 / 2 ≤ Distance env a.position b.position := not_lt.mp hge
    have := mul_self_le_mul_self (by norm_num : (0 : R) ≤ 3 / 2) hge2
    unfold Distance at this
    rw [hsq _ (Distance2_nonneg _ _)] at this
    norm_num at this
    linarith
  have hmax : 3 / 2 < max a.r b.r := lt_of_lt_of_le ha (le_max_left _ _)
  have hmin : 3 / 2 < min a.r b.r := lt_min ha hb
  linarith

theorem split_mem {α : Type} (l1 l2 l3 l4 : List α) (x q : α)
    (h : l1 ++ x :: l2 = l3 ++ q :: l4) (hlt : l1.length < l3.length) : x ∈ l3 := by
  have h1 : (l1 ++ x :: l2)[l1.length]? = some x := by
    rw [List.getElem?_append_right (le_refl _)]; simp
  rw [h, List.getElem?_append_left hlt] at h1
  exact List.getElem?_mem h1

/-- The closed set of a search on a map whose valid points lie in the square
`|x|, |y| ≤ B` never holds more than `closedBound` nodes. -/
theorem closed_length_le (env : Env R) (hsq : ∀ x, 0 ≤ x → env.sqrt x * env.sqrt x = x)
    (hnn : ∀ x, 0 ≤ x → 0 ≤ env.sqrt x) (s0 s : HolonomicHeuristic R) (B : Nat)
    (hB : ∀ v, s0.grid.isValidPoint v = true → |v.x| ≤ B ∧ |v.y| ≤ B)
    (hinv : SearchInv env s0 s) (hA : AllocBound s0 s) :
    s.closed.length ≤ closedBound (s0.brk + 2) ((2 * B + 1) * (2 * B + 1) + 1) := by
  have hchild : ∀ p, p ∈ s.closed → p ≠ s0.brk →
      s0.grid.isValidPoint (s.heap p).circle.position = true ∧ 3 / 2 < (s.heap p).circle.r ∧
      ∃ q, (s.heap p).parent = some q ∧ q ∈ s.closed ∧
        ∀ l1 l2, s.closed = l1 ++ q :: l2 →
          ∀ t, t ∈ l1 → Overlap env (s.heap p).circle (s.heap t).circle (1 / 10) = false := by
    intro p hp hne
    obtain ⟨_, _, _, a4⟩ := hinv.nodes p (Or.inr (Or.inr hp))
    rcases a4 with a4 | ⟨q, b1, b2, _, b4, b5⟩
    · exact absurd a4 hne
    · exact ⟨b4.1.2.1, b4.1.2.2.2, q, b1, b2, b5⟩
  apply class_count_bound (cellClass s0 s) (s0.brk + 2) _
    (Finset.insertNone (Finset.Icc (-(B : ℤ)) B ×ˢ Finset.Icc (-(B : ℤ)) B)) _ s.closed
    hinv.closed_nodup
  · intro x hx
    unfold cellClass
    by_cases hr : x = s0.brk
    · rw [if_pos hr]; simp
    · rw [if_neg hr, Finset.some_mem_insertNone, Finset.mem_product, Finset.mem_Icc,
        Finset.mem_Icc]
      obtain ⟨hv, _, _⟩ := hchild x hx hr
      obtain ⟨bx, by1⟩ := hB _ hv
      rw [abs_le] at bx by1
      refine ⟨⟨?_, ?_⟩, ⟨?_, ?_⟩⟩
      · rw [Int.le_floor]; push_cast; exact bx.1
      · have := Int.floor_le_floor bx.2
        rw [Int.floor_natCast] at this
        exact this
      · rw [Int.le_floor]; push_cast; exact by1.1
      · have := Int.floor_le_floor by1.2
        rw [Int.floor_natCast] at this
        exact this
  · intro l1 l2 x y hsplit hy hcol
    have hxm : x ∈ s.closed := by rw [hsplit]; simp
    have hym : y ∈ s.closed := by rw [hsplit]; simp [hy]
    have hxy : x ≠ y := by
      intro heq
      have hnd := hinv.closed_nodup
      rw [hsplit, List.nodup_append] at hnd
      have := (List.nodup_cons.mp hnd.2.1).1
      exact this (heq ▸ hy)
    have hyr : y ≠ s0.brk := by
      intro hyr
      unfold cellClass at hcol
      rw [if_pos hyr] at hcol
      by_cases hxr : x = s0.brk
      · exact hxy (hxr.trans hyr.symm)
      · rw [if_neg hxr] at hcol
        simp at hcol
    have hxr : x ≠ s0.brk := by
      intro hxr
      unfold cellClass at hcol
      rw [if_pos hxr, if_neg hyr] at hcol
      simp at hcol
    unfold cellClass at hcol
    rw [if_neg hxr, if_neg hyr] at hcol
    simp only [Option.some.injEq, Prod.mk.injEq] at hcol
    obtain ⟨_, hry, q, hpar, hq, hprune⟩ := hchild y hym hyr
    obtain ⟨_, hrx, _⟩ := hchild x hxm hxr
    obtain ⟨l3, l4, hs2⟩ := List.append_of_mem hq
    have hle : l3.length ≤ l1.length := by
      by_contra hgt
      have hx3 : x ∈ l3 := split_mem l1 l2 l3 l4 x q (by rw [← hsplit, hs2]) (not_le.mp hgt)
      have h1 := hprune l3 l4 hs2 x hx3
      rw [near_overlap env hsq hnn _ _ hcol.1 hcol.2 hry hrx] at h1
      exact absurd h1 (by simp)
    have hnode := hinv.nodes y (Or.inr (Or.inr hym))
    have h2 := hA.2 y q l3 l4 hnode.1 hnode.2.1 hpar hs2
    have : 37 * (l3.length + 1) ≤ 37 * (l1.length + 1) := by
      apply Nat.mul_le_mul_left
      omega
    omega
  · rw [Finset.card_insertNone, Finset.card_product, Int.card_Icc]
    have : ((B : ℤ) + 1 - -(B : ℤ)).toNat = 2 * B + 1 := by omega
    rw [this]

/-- C18: for every grid whose valid points lie in a bounded region, a square
`|x|, |y| ≤ B`, and every start and goal, `SpaceExploration` returns, with
success or with failure, for every amount of fuel from some amount on: the
closed set never holds more than `closedBound` nodes, because a child is
admitted only at a distance above `1.5` from the nodes closed before its
parent, and every round of the main loop pops a node of `nearest_open`.
The square root is exact and `M_PI` is positive. -/
theorem SpaceExploration_terminates (env : Env R) (s : HolonomicHeuristic R) (B : Nat)
    (hpi : 0 < env.M_PI) (hsq : ∀ x, 0 ≤ x → env.sqrt x * env.sqrt x = x)
    (hnn : ∀ x, 0 ≤ x → 0 ≤ env.sqrt x)
    (hB : ∀ v, s.grid.isValidPoint v = true → |v.x| ≤ B ∧ |v.y| ≤ B)
    (hq : Quiescent s) :
    ∃ N, ∀ fuel, N ≤ fuel → ∃ b s1, SpaceExploration env fuel s = Outcome.ok (b, s1) := by
  obtain ⟨hg1, hinv0⟩ := explorationInit_inv env s hq
  have hA0 := explorationInit_alloc env s hq
  obtain ⟨q1, q2, q3⟩ := hq
  have hN0 : (explorationInit env s).2.nearest_open = [s.brk] := by
    simp only [explorationInit, alloc, q1, List.nil_append]
  have hL0 : (explorationInit env s).2.largest_open = [s.brk] := by
    simp only [explorationInit, alloc, q2, List.nil_append]
  refine ⟨2 + 37 * closedBound (s.brk + 2) ((2 * B + 1) * (2 * B + 1) + 1), ?_⟩
  intro fuel hfuel
  obtain ⟨b, s1, hrun⟩ := mainLoop_terminates env s
    (closedBound (s.brk + 2) ((2 * B + 1) * (2 * B + 1) + 1)) hpi
    (fun st h1 h2 => closed_length_le env hsq hnn s st B hB h1 h2) fuel
    (explorationInit env s).2 hinv0 hA0 (by rw [hN0, hL0])
    (by
      rw [hN0]
      have : 37 * (closedBound (s.brk + 2) ((2 * B + 1) * (2 * B + 1) + 1) -
          (explorationInit env s).2.closed.length) ≤
          37 * closedBound (s.brk + 2) ((2 * B + 1) * (2 * B + 1) + 1) :=
        Nat.mul_le_mul_left _ (Nat.sub_le _ _)
      simp only [List.length_singleton]
      omega)
  refine ⟨b, RemoveAllCircleNodes s1, ?_⟩
  rw [SpaceExploration_eq]
  unfold SpaceExplorationSearch
  rw [hg1, hrun]

end Termination

/-- C18, witness: the bounded field over the reals, with the real `sqrt`. -/
theorem SpaceExploration_terminates_witness :
    (0 : ℝ) < Real.pi ∧ (∀ x : ℝ, 0 ≤ x → Real.sqrt x * Real.sqrt x = x) ∧
    (∀ x : ℝ, 0 ≤ x → 0 ≤ Real.sqrt x) ∧
    (∀ v : Vector2D ℝ, (boxField ℝ).grid.isValidPoint v = true →
      |v.x| ≤ ((50 : Nat) : ℝ) ∧ |v.y| ≤ ((50 : Nat) : ℝ)) ∧
    Quiescent (boxField ℝ) ∧
    ∃ N, ∀ fuel, N ≤ fuel → ∃ b s1, SpaceExploration
      (⟨Real.sqrt, Real.cos, Real.sin, Real.pi, fun _ _ _ => 0, fun _ _ _ => 0⟩ : Env ℝ)
      fuel (boxField ℝ) = Outcome.ok (b, s1) := by
  have hsq : ∀ x : ℝ, 0 ≤ x → Real.sqrt x * Real.sqrt x = x := fun x hx => Real.mul_self_sqrt hx
  have hnn : ∀ x : ℝ, 0 ≤ x → 0 ≤ Real.sqrt x := fun x _ => Real.sqrt_nonneg x
  have hB : ∀ v : Vector2D ℝ, (boxField ℝ).grid.isValidPoint v = true →
      |v.x| ≤ ((50 : Nat) : ℝ) ∧ |v.y| ≤ ((50 : Nat) : ℝ) := by
    intro v hv
    have h1 : decide (|v.x| ≤ 50 ∧ |v.y| ≤ 50) = true := hv
    have h2 := of_decide_eq_true h1
    push_cast
    exact h2
  exact ⟨Real.pi_pos, hsq, hnn, hB, ⟨rfl, rfl, rfl⟩,
    SpaceExploration_terminates _ (boxField ℝ) 50 Real.pi_pos hsq hnn hB ⟨rfl, rfl, rfl⟩⟩

/-! ## The two open queues of the main loop -/

section Balance
variable {R : Type} [LinearOrderedField R]

/-- A visit that reports no success adds the same number of nodes to both
queues. -/
theorem visit_balance (env : Env R) (s0 s s1 : HolonomicHeuristic R) (cn : Nat)
    (hcn : SearchNode env s0 s cn)
    (h : visit (ProcessNodeSearch env (s0.brk + 1)) cn s = Outcome.ok (false, s1)) :
    ∃ a, s1.nearest_open.length = s.nearest_open.length + a ∧
      s1.largest_open.length = s.largest_open.length + a := by
  unfold visit at h
  by_cases hexp : (s.heap cn).explored = false
  · rw [if_pos hexp] at h
    obtain ⟨hpost, _⟩ := ProcessNodeSearch_false env s s1 (s0.brk + 1) cn hcn.2.1 h
    refine ⟨((List.range' s.brk (s1.brk - s.brk)).filter (fun c => NotExist env s1 c)).length,
      ?_, ?_⟩
    · rw [hpost.nearest_eq, List.length_append]
    · rw [hpost.largest_eq, List.length_append]
  · rw [if_neg hexp] at h
    simp only [Outcome.ok.injEq, Prod.mk.injEq, true_and] at h
    subst h
    exact ⟨0, rfl, rfl⟩

theorem ProcessNodeSearch_ne_undefined (env : Env R) (goal cn : Nat)
    (s : HolonomicHeuristic R) :
    ProcessNodeSearch env goal cn s ≠ Outcome.undefined ∧
      ProcessNodeSearch env goal cn s ≠ Outcome.outOfFuel := by
  unfold ProcessNodeSearch
  simp only
  split
  · exact ⟨by simp, by simp⟩
  · split
    · split
      · exact ⟨by simp, by simp⟩
      · exact ⟨by simp, by simp⟩
    · exact ⟨by simp, by simp⟩

theorem visit_ne_undefined (env : Env R) (goal cn : Nat) (s : HolonomicHeuristic R) :
    visit (ProcessNodeSearch env goal) cn s ≠ Outcome.undefined := by
  unfold visit
  split
  · exact (ProcessNodeSearch_ne_undefined env goal cn s).1
  · simp

/-- The balance of the two queues along the main loop: equal lengths at the
loop test, one more node in `largest_open` between the two halves of a round;
and the second pop never finds `largest_open` empty. -/
theorem mainLoop_balanced (env : Env R) (s0 : HolonomicHeuristic R) :
    ∀ (fuel : Nat) (s : HolonomicHeuristic R), SearchInv env s0 s →
      s.nearest_open.length = s.largest_open.length →
      (∀ pt, pt ∈ mainLoopPoints env (ProcessNodeSearch env (s0.brk + 1)) fuel s →
        (pt.1 = true → pt.2.nearest_open.length = pt.2.largest_open.length) ∧
        (pt.1 = false → pt.2.largest_open.length = pt.2.nearest_open.length + 1)) ∧
      mainLoop env (ProcessNodeSearch env (s0.brk + 1)) fuel s ≠ Outcome.undefined := by
  intro fuel
  induction fuel with
  | zero =>
    intro s _ hlen
    refine ⟨?_, by simp [mainLoop]⟩
    intro pt hpt
    simp only [mainLoopPoints, List.mem_singleton] at hpt
    rw [hpt]
    exact ⟨fun _ => hlen, fun hf => absurd hf (by simp)⟩
  | succ fuel ih =>
    intro s hinv hlen
    rw [mainLoop_visit, mainLoopPoints]
    have hhead : ∀ pt : Bool × HolonomicHeuristic R, pt = (true, s) →
        (pt.1 = true → pt.2.nearest_open.length = pt.2.largest_open.length) ∧
        (pt.1 = false → pt.2.largest_open.length = pt.2.nearest_open.length + 1) := by
      intro pt hpt
      rw [hpt]
      exact ⟨fun _ => hlen, fun hf => absurd hf (by simp)⟩
    cases hpop : popAt s.nearest_open (env.pickNearest fuel s.heap s.nearest_open) with
    | none =>
      refine ⟨?_, by simp⟩
      intro pt hpt
      simp only [List.mem_cons, List.not_mem_nil, or_false] at hpt
      exact hhead pt hpt
    | some r =>
      obtain ⟨cn, q⟩ := r
      simp only
      obtain ⟨_, _, hq⟩ := popAt_some _ _ _ _ hpop
      obtain ⟨hinvN, _, hcnN⟩ :=
        visit_first env s0 _ (LoopInvariant_true env s0) s _ cn q hinv trivial hpop
      cases hv : visit (ProcessNodeSearch env (s0.brk + 1)) cn
          ({ s with nearest_open := q } : HolonomicHeuristic R) with
      | ok v =>
        obtain ⟨b, s2⟩ := v
        cases b with
        | true =>
          refine ⟨?_, by simp⟩
          intro pt hpt
          simp only [List.mem_cons, List.not_mem_nil, or_false] at hpt
          exact hhead pt hpt
        | false =>
          simp only
          obtain ⟨hinv2, _⟩ :=
            (visit_post env s0 _ (LoopInvariant_true env s0) _ cn hinvN trivial hcnN false s2
              hv).1 rfl
          obtain ⟨a1, hn2, hl2⟩ := visit_balance env s0 _ s2 cn hcnN hv
          have hn2b : s2.nearest_open.length = q.length + a1 := hn2
          have hl2b : s2.largest_open.length = s.largest_open.length + a1 := hl2
          have hmid : s2.largest_open.length = s2.nearest_open.length + 1 := by omega
          have hmidpt : ∀ pt : Bool × HolonomicHeuristic R, pt = (false, s2) →
              (pt.1 = true → pt.2.nearest_open.length = pt.2.largest_open.length) ∧
              (pt.1 = false → pt.2.largest_open.length = pt.2.nearest_open.length + 1) := by
            intro pt hpt
            rw [hpt]
            exact ⟨fun hf => absurd hf (by simp), fun _ => hmid⟩
          cases hpop2 : popAt s2.largest_open (env.pickLargest fuel s2.heap s2.largest_open) with
          | none =>
            have := popAt_none _ _ hpop2
            rw [this] at hmid
            simp at hmid
          | some r2 =>
            obtain ⟨cn2, q2⟩ := r2
            simp only
            obtain ⟨_, _, hq2⟩ := popAt_some _ _ _ _ hpop2
            obtain ⟨hinvL, _, hcnL⟩ :=
              visit_second env s0 _ (LoopInvariant_true env s0) s2 _ cn2 q2 hinv2 trivial hpop2
            cases hv2 : visit (ProcessNodeSearch env (s0.brk + 1)) cn2
                ({ s2 with largest_open := q2 } : HolonomicHeuristic R) with
            | ok v2 =>
              obtain ⟨b2, s4⟩ := v2
              cases b2 with
              | true =>
                refine ⟨?_, by simp⟩
                intro pt hpt
                simp only [List.mem_cons, List.not_mem_nil, or_false] at hpt
                rcases hpt with hpt | hpt
                · exact hhead pt hpt
                · exact hmidpt pt hpt
              | false =>
                simp only
                obtain ⟨hinv4, _⟩ :=
                  (visit_post env s0 _ (LoopInvariant_true env s0) _ cn2 hinvL trivial hcnL
                    false s4 hv2).1 rfl
                obtain ⟨a2, hn4, hl4⟩ := visit_balance env s0 _ s4 cn2 hcnL hv2
                have hn4b : s4.nearest_open.length = s2.nearest_open.length + a2 := hn4
                have hl4b : s4.largest_open.length = q2.length + a2 := hl4
                obtain ⟨ih1, ih2⟩ := ih s4 hinv4 (by omega)
                refine ⟨?_, ih2⟩
                intro pt hpt
                simp only [List.mem_cons] at hpt
                rcases hpt with hpt | hpt | hpt
                · exact hhead pt hpt
                · exact hmidpt pt hpt
                · exact ih1 pt hpt
            | diverge =>
              refine ⟨?_, by simp⟩
              intro pt hpt
              simp only [List.mem_cons, List.not_mem_nil, or_false] at hpt
              rcases hpt with hpt | hpt
              · exact hhead pt hpt
              · exact hmidpt pt hpt
            | outOfFuel =>
              refine ⟨?_, by simp⟩
              intro pt hpt
              simp only [List.mem_cons, List.not_mem_nil, or_false] at hpt
              rcases hpt with hpt | hpt
              · exact hhead pt hpt
              · exact hmidpt pt hpt
            | undefined => exact absurd hv2 (visit_ne_undefined env _ _ _)
      | diverge =>
        refine ⟨?_, by simp⟩
        intro pt hpt
        simp only [List.mem_cons, List.not_mem_nil, or_false] at hpt
        exact hhead pt hpt
      | outOfFuel =>
        refine ⟨?_, by simp⟩
        intro pt hpt
        simp only [List.mem_cons, List.not_mem_nil, or_false] at hpt
        exact hhead pt hpt
      | undefined => exact absurd hv (visit_ne_undefined env _ _ _)

/-- C21: at the head of every iteration of the main loop of `SpaceExploration`
the two queues hold the same number of nodes, and at the pop from
`largest_open` (line 507, after the pop from `nearest_open` and the first
`ProcessNode`) `largest_open` holds one node more than `nearest_open`, so it is
not empty: the search never calls `top()` on an empty queue. -/
theorem SpaceExploration_queues_balanced (env : Env R) (fuel : Nat)
    (s : HolonomicHeuristic R) (hq : Quiescent s) :
    (∀ st, (true, st) ∈ searchPoints env fuel s →
      st.nearest_open.length = st.largest_open.length) ∧
    (∀ st, (false, st) ∈ searchPoints env fuel s →
      st.largest_open.length = st.nearest_open.length + 1 ∧ st.largest_open ≠ []) ∧
    SpaceExplorationSearch env fuel s ≠ Outcome.undefined ∧
    SpaceExploration env fuel s ≠ Outcome.undefined := by
  obtain ⟨hg1, hinv0⟩ := explorationInit_inv env s hq
  obtain ⟨q1, q2, _⟩ := hq
  have hN0 : (explorationInit env s).2.nearest_open = [s.brk] := by
    simp only [explorationInit, alloc, q1, List.nil_append]
  have hL0 : (explorationInit env s).2.largest_open = [s.brk] := by
    simp only [explorationInit, alloc, q2, List.nil_append]
  obtain ⟨hpts, hund⟩ := mainLoop_balanced env s fuel (explorationInit env s).2 hinv0
    (by rw [hN0, hL0])
  have hsearch : SpaceExplorationSearch env fuel s ≠ Outcome.undefined := by
    unfold SpaceExplorationSearch
    rw [hg1]; exact hund
  refine ⟨?_, ?_, hsearch, ?_⟩
  · intro st hst
    exact (hpts (true, st) (by unfold searchPoints at hst; rw [hg1] at hst; exact hst)).1 rfl
  · intro st hst
    have := (hpts (false, st) (by unfold searchPoints at hst; rw [hg1] at hst; exact hst)).2 rfl
    refine ⟨this, ?_⟩
    intro hnil
    rw [hnil] at this
    simp at this
  · rw [SpaceExploration_eq]
    cases hS : SpaceExplorationSearch env fuel s with
    | ok v => simp
    | diverge => simp
    | outOfFuel => simp
    | undefined => exact absurd hS hsearch

end Balance

/-- C21, witness: the search of the dead-end corridor; the lengths of
`nearest_open` and `largest_open` at its eleven points. -/
theorem SpaceExploration_queues_balanced_witness :
    Quiescent corridorState ∧
    (searchPoints envQ 20 corridorState).map
        (fun pt => (pt.1, pt.2.nearest_open.length, pt.2.largest_open.length)) =
      [(true, 1, 1), (false, 4, 5), (true, 4, 4), (false, 3, 4), (true, 3, 3), (false, 2, 3),
        (true, 2, 2), (false, 1, 2), (true, 1, 1), (false, 0, 1), (true, 0, 0)] ∧
    (∀ st, (true, st) ∈ searchPoints envQ 20 corridorState →
      st.nearest_open.length = st.largest_open.length) ∧
    (∀ st, (false, st) ∈ searchPoints envQ 20 corridorState →
      st.largest_open.length = st.nearest_open.length + 1 ∧ st.largest_open ≠ []) ∧
    SpaceExplorationSearch envQ 20 corridorState ≠ Outcome.undefined ∧
    SpaceExploration envQ 20 corridorState ≠ Outcome.undefined :=
  ⟨corridorState_quiescent, by decide!,
    SpaceExploration_queues_balanced envQ 20 corridorState corridorState_quiescent⟩

/-! ## The rebuilt path: remaining length -/

section Remaining
variable {R : Type} [LinearOrderedField R]

/-- Along a list of cells in which every node costs what its successor costs
plus the distance between the two centres, and the last node costs `0`, the
cost of the first node is the length of the polyline through the centres. -/
theorem cost_chain_total (env : Env R) (heap : Nat → CircleNode R) :
    ∀ (l : List Nat), List.Chain' (fun prev node => CostStep env node prev) (l.map heap) →
      (l.map (fun p => (heap p).g)).getLast? = some 0 →
      (heap (l.getD 0 0)).g = chordLength env heap l := by
  intro l
  induction l with
  | nil => intro _ hl; simp at hl
  | cons a rest ih =>
    intro hch hlast
    cases rest with
    | nil =>
      simp only [List.map_cons, List.map_nil, List.getLast?_singleton, Option.some.injEq] at hlast
      simp only [chordLength]
      exact hlast
    | cons b rest2 =>
      simp only [List.map_cons] at hch hlast
      rw [List.chain'_cons] at hch
      rw [List.getLast?_cons_cons] at hlast
      have ihb := ih (by simpa using hch.2) (by simpa using hlast)
      have hstep : (heap a).g =
          Distance env (heap b).circle.position (heap a).circle.position + (heap b).g := hch.1
      simp only [chordLength]
      have h0 : (a :: b :: rest2).getD 0 0 = a := rfl
      have h1 : (b :: rest2).getD 0 0 = b := rfl
      rw [h0, hstep, Distance_comm]
      rw [h1] at ihb
      rw [ihb]

/-- C22: called with an empty circle path on a goal node `cn` with `g = 0` whose
parent links lead through the `k` allocated cells `ch` (goal node first, root
last) to `nullptr`, `RebuildCirclePath` returns and installs `k + 1` entries:
the circles of the chain in root-to-goal order followed by the goal circle once
more. The last two entries have `g = 0`, every entry but the last costs what
its successor costs plus the distance between the two centres, so `g` does not
increase along the path, and the `g` of the first entry is the length of the
polyline through the centres of the path. The square root is `0` at `0` and
non-negative on non-negative numbers. -/
theorem RebuildCirclePath_cost_remaining (env : Env R) (s : HolonomicHeuristic R) (cn : Nat)
    (ch : List Nat) (hsqrt0 : env.sqrt 0 = 0) (hnn : ∀ x, 0 ≤ x → 0 ≤ env.sqrt x)
    (hch : IsChain s.heap (some cn) ch) (hlt : ∀ c, c ∈ ch → c < s.brk)
    (hp : s.circle_path = []) (hg : (s.heap cn).g = 0) :
    ∃ s1, RebuildCirclePath env cn s = some s1 ∧
      s1.circle_path.length = ch.length + 1 ∧
      (pathNodes s1).map (fun x => x.circle) =
        ch.reverse.map (fun p => (s.heap p).circle) ++ [(s.heap cn).circle] ∧
      (pathNode s1 ch.length).g = 0 ∧ (pathNode s1 (ch.length - 1)).g = 0 ∧
      (∀ i, i + 1 < s1.circle_path.length →
        (pathNode s1 i).g = (pathNode s1 (i + 1)).g +
          Distance env (pathNode s1 i).circle.position (pathNode s1 (i + 1)).circle.position) ∧
      (∀ i, i + 1 < s1.circle_path.length → (pathNode s1 (i + 1)).g ≤ (pathNode s1 i).g) ∧
      (pathNode s1 0).g = chordLength env s1.heap s1.circle_path := by
  obtain ⟨s1, r1, r2, _, r4, _, r6, r7, r8, _⟩ :=
    RebuildCirclePath_post env s cn ch hch (IsChain_nodup s.heap ch _ hch) hlt
  rw [hp, List.nil_append] at r2
  obtain ⟨rest, hrest⟩ : ∃ rest, ch = cn :: rest := by
    cases ch with
    | nil => simp [IsChain] at hch
    | cons a rest => simp only [IsChain] at hch; exact ⟨rest, by rw [hch.1]⟩
  have hlen : s1.circle_path.length = ch.length + 1 := by rw [r2]; simp
  -- circles
  have hcircles : (pathNodes s1).map (fun x => x.circle) =
      ch.reverse.map (fun p => (s.heap p).circle) ++ [(s.heap cn).circle] := by
    have hmapc := congrArg (List.map (fun n : CircleNode R => n.circle)) r7
    simp only [List.map_map] at hmapc
    have hfn : ((fun n : CircleNode R => n.circle) ∘ fun p => dropParent (s1.heap p)) =
        (fun p => (s1.heap p).circle) := rfl
    rw [hfn] at hmapc
    rw [pathNodes, r2, List.map_map]
    have hfn2 : ((fun x : CircleNode R => x.circle) ∘ s1.heap) = (fun p => (s1.heap p).circle) :=
      rfl
    rw [hfn2, hmapc, List.map_append, List.map_cons, List.map_nil, r6]
    congr 1
    apply List.map_congr_left
    intro p hp1
    exact (r4 p (hlt p (List.mem_reverse.mp hp1))).1
  -- costs
  have hgmap : s1.circle_path.map (fun p => (s1.heap p).g) =
      (ch.reverse ++ [s.brk]).map (fun p => (s1.heap p).g) := by
    have hmapg := congrArg (List.map (fun n : CircleNode R => n.g)) r7
    simp only [List.map_map] at hmapg
    have hfn : ((fun n : CircleNode R => n.g) ∘ fun p => dropParent (s1.heap p)) =
        (fun p => (s1.heap p).g) := rfl
    rw [hfn] at hmapg
    rw [r2]; exact hmapg
  have hstep : ∀ i, i + 1 < s1.circle_path.length →
      (pathNode s1 i).g = (pathNode s1 (i + 1)).g +
        Distance env (pathNode s1 i).circle.position (pathNode s1 (i + 1)).circle.position := by
    intro i hi
    rw [← r2] at r8
    have := chain'_getD s1.heap (fun prev node => CostStep env node prev) s1.circle_path r8 i hi
    unfold CostStep at this
    unfold pathNode
    rw [this, add_comm, Distance_comm]
  have hlast : (pathNode s1 ch.length).g = 0 := by
    have h1 : (pathNode s1 ch.length).g =
        (s1.circle_path.map (fun p => (s1.heap p).g)).getD ch.length ((s1.heap 0).g) := by
      unfold pathNode
      exact (List.getD_map _ _ (fun p => (s1.heap p).g)).symm
    rw [h1, hgmap, List.getD_map _ _ (fun p => (s1.heap p).g),
      List.getD_append_right _ _ _ _ (by simp)]
    simp only [List.length_reverse, Nat.sub_self]
    show (s1.heap s.brk).g = 0
    rw [r6, hg]
  have hcircD : ∀ i, (pathNode s1 i).circle =
      (ch.reverse.map (fun p => (s.heap p).circle) ++ [(s.heap cn).circle]).getD i
        (s1.heap 0).circle := by
    intro i
    rw [pathNode_eq_getD, ← hcircles]
    exact (List.getD_map _ _ (fun x : CircleNode R => x.circle)).symm
  have hcl : (pathNode s1 ch.length).circle = (s.heap cn).circle := by
    rw [hcircD, List.getD_append_right _ _ _ _ (by simp)]
    simp
  have hcl2 : (pathNode s1 (ch.length - 1)).circle = (s.heap cn).circle := by
    rw [hcircD, hrest]
    simp only [List.length_cons, Nat.add_sub_cancel, List.reverse_cons, List.map_append,
      List.map_cons, List.map_nil, List.append_assoc, List.singleton_append]
    rw [List.getD_append_right _ _ _ _ (by simp)]
    simp
  have hlast2 : (pathNode s1 (ch.length - 1)).g = 0 := by
    have hk : ch.length - 1 + 1 = ch.length := by rw [hrest]; simp
    have := hstep (ch.length - 1) (by rw [hlen]; omega)
    rw [hk, hlast, hcl, hcl2] at this
    rw [this]
    unfold Distance
    rw [Distance2_self, hsqrt0, add_zero]
  refine ⟨s1, r1, hlen, hcircles, hlast, hlast2, hstep, ?_, ?_⟩
  · intro i hi
    rw [hstep i hi]
    have := Distance_nonneg env hnn (pathNode s1 i).circle.position
      (pathNode s1 (i + 1)).circle.position
    linarith
  · rw [← r2] at r8
    have hl0 : (s1.circle_path.map (fun p => (s1.heap p).g)).getLast? = some 0 := by
      rw [hgmap, List.map_append, List.map_cons, List.map_nil, List.getLast?_concat, r6, hg]
    exact cost_chain_total env s1.heap s1.circle_path r8 hl0

end Remaining

/-- C22, witness on `twoNodes`: the chain goal, root (`k = 2`) gives the three
entries root, goal, goal with the costs `8, 0, 0`. -/
theorem RebuildCirclePath_cost_remaining_witness :
    envQ.sqrt 0 = 0 ∧ (∀ x : ℚ, 0 ≤ x → 0 ≤ envQ.sqrt x) ∧
    IsChain twoNodes.heap (some 1) [1, 0] ∧ (∀ c, c ∈ [1, 0] → c < twoNodes.brk) ∧
    twoNodes.circle_path = [] ∧ (twoNodes.heap 1).g = 0 ∧
    ((RebuildCirclePath envQ 1 twoNodes).map
      (fun s1 => (pathNodes s1).map (fun x => (x.circle.position.x, x.g)))) =
        some [(0, 8), (8, 0), (8, 0)] ∧
    ∃ s1, RebuildCirclePath envQ 1 twoNodes = some s1 ∧
      s1.circle_path.length = [1, 0].length + 1 ∧
      (pathNodes s1).map (fun x => x.circle) =
        [1, 0].reverse.map (fun p => (twoNodes.heap p).circle) ++ [(twoNodes.heap 1).circle] ∧
      (pathNode s1 [1, 0].length).g = 0 ∧ (pathNode s1 ([1, 0].length - 1)).g = 0 ∧
      (∀ i, i + 1 < s1.circle_path.length →
        (pathNode s1 i).g = (pathNode s1 (i + 1)).g +
          Distance envQ (pathNode s1 i).circle.position (pathNode s1 (i + 1)).circle.position) ∧
      (∀ i, i + 1 < s1.circle_path.length → (pathNode s1 (i + 1)).g ≤ (pathNode s1 i).g) ∧
      (pathNode s1 0).g = chordLength envQ s1.heap s1.circle_path :=
  ⟨by decide!, fun x _ => sqrtQ_nonneg x, twoNodes_chain, by decide, rfl, by decide!, by decide!,
    RebuildCirclePath_cost_remaining envQ twoNodes 1 [1, 0] (by decide!)
      (fun x _ => sqrtQ_nonneg x) twoNodes_chain (by decide) rfl (by decide!)⟩

/-! ## The heuristic value and the straight-line distance -/

section Admissible
variable {R : Type} [LinearOrderedField R]

/-- With an exact square root the distance of two points obeys the triangle
inequality. -/
theorem Distance_triangle (env : Env R) (hsq : ∀ x, 0 ≤ x → env.sqrt x * env.sqrt x = x)
    (hnn : ∀ x, 0 ≤ x → 0 ≤ env.sqrt x) (a b c : Vector2D R) :
    Distance env a c ≤ Distance env a b + Distance env b c := by
  have hp := Distance_nonneg env hnn a b
  have hq := Distance_nonneg env hnn b c
  have hp2 : Distance env a b * Distance env a b = Distance2 a b := hsq _ (Distance2_nonneg a b)
  have hq2 : Distance env b c * Distance env b c = Distance2 b c := hsq _ (Distance2_nonneg b c)
  have hr2 : Distance env a c * Distance env a c = Distance2 a c := hsq _ (Distance2_nonneg a c)
  by_contra hcon
  push_neg at hcon
  have hlt := mul_self_lt_mul_self (add_nonneg hp hq) hcon
  rw [hr2] at hlt
  have hexp : (Distance env a b + Distance env b c) * (Distance env a b + Distance env b c) =
      Distance2 a b + Distance2 b c + 2 * (Distance env a b * Distance env b c) := by
    rw [← hp2, ← hq2]; ring
  rw [hexp] at hlt
  -- the inner product of the two differences
  have hdot : Distance2 a c = Distance2 a b + Distance2 b c +
      2 * ((a.x - b.x) * (b.x - c.x) + (a.y - b.y) * (b.y - c.y)) := by
    unfold Distance2; ring
  rw [hdot] at hlt
  have hlt2 : Distance env a b * Distance env b c <
      (a.x - b.x) * (b.x - c.x) + (a.y - b.y) * (b.y - c.y) := by linarith
  have hpq : 0 ≤ Distance env a b * Distance env b c := mul_nonneg hp hq
  have hsqlt := mul_self_lt_mul_self hpq hlt2
  have hprod : Distance env a b * Distance env b c * (Distance env a b * Distance env b c) =
      Distance2 a b * Distance2 b c := by
    rw [← hp2, ← hq2]; ring
  rw [hprod] at hsqlt
  have hcs : ((a.x - b.x) * (b.x - c.x) + (a.y - b.y) * (b.y - c.y)) *
      ((a.x - b.x) * (b.x - c.x) + (a.y - b.y) * (b.y - c.y)) ≤
      Distance2 a b * Distance2 b c := by
    unfold Distance2
    have := mul_self_nonneg ((a.x - b.x) * (b.y - c.y) - (a.y - b.y) * (b.x - c.x))
    linarith [this, show ((a.x - b.x) * (a.x - b.x) + (a.y - b.y) * (a.y - b.y)) *
      ((b.x - c.x) * (b.x - c.x) + (b.y - c.y) * (b.y - c.y)) -
      ((a.x - b.x) * (b.x - c.x) + (a.y - b.y) * (b.y - c.y)) *
      ((a.x - b.x) * (b.x - c.x) + (a.y - b.y) * (b.y - c.y)) =
      ((a.x - b.x) * (b.y - c.y) - (a.y - b.y) * (b.x - c.x)) *
      ((a.x - b.x) * (b.y - c.y) - (a.y - b.y) * (b.x - c.x)) by ring]
  exact absurd hsqlt (not_lt.mpr hcs)

/-- Along a list of nodes in which every node costs what its successor costs
plus the distance between the two centres, and the last node costs `0` and is
centred at `gp`, no node costs less than its distance to `gp`. -/
theorem cost_chain_ge_distance (env : Env R) (hsq : ∀ x, 0 ≤ x → env.sqrt x * env.sqrt x = x)
    (hnn : ∀ x, 0 ≤ x → 0 ≤ env.sqrt x) (gp : Vector2D R) :
    ∀ (l : List (CircleNode R)),
      List.Chain' (fun prev node => CostStep env node prev) l →
      (l.map (fun n => n.g)).getLast? = some 0 →
      (l.map (fun n => n.circle.position)).getLast? = some gp →
      ∀ n, n ∈ l → Distance env n.circle.position gp ≤ n.g := by
  intro l
  induction l with
  | nil => intro _ _ _ n hn; simp at hn
  | cons a rest ih =>
    intro hch hlast hpos n hn
    cases rest with
    | nil =>
      simp only [List.map_cons, List.map_nil, List.getLast?_singleton, Option.some.injEq]
        at hlast hpos
      simp only [List.mem_singleton] at hn
      rw [hn, hlast, hpos]
      unfold Distance
      rw [Distance2_self]
      have h0 := hsq 0 (le_refl _)
      rw [mul_self_eq_zero.mp h0]
    | cons b rest2 =>
      rw [List.chain'_cons] at hch
      have hlast2 : (List.map (fun n => n.g) (b :: rest2)).getLast? = some 0 := by
        simp only [List.map_cons] at hlast ⊢
        rw [List.getLast?_cons_cons] at hlast
        exact hlast
      have hpos2 : (List.map (fun n => n.circle.position) (b :: rest2)).getLast? = some gp := by
        simp only [List.map_cons] at hpos ⊢
        rw [List.getLast?_cons_cons] at hpos
        exact hpos
      have ihb := ih hch.2 hlast2 hpos2
      rcases List.mem_cons.mp hn with h1 | h1
      · rw [h1]
        have hstep : a.g = Distance env b.circle.position a.circle.position + b.g := hch.1
        have hb := ihb b (List.mem_cons_self _ _)
        have htri := Distance_triangle env hsq hnn a.circle.position b.circle.position gp
        rw [hstep, Distance_comm env b.circle.position a.circle.position]
        linarith
      · exact ihb n h1

/-- C23: after a successful `SpaceExploration`, started with empty containers
and an empty circle path, `GetHeuristicValue` at every probe is at least the
distance of the probe to the goal position: the `g` of every node of the
rebuilt path is at least the distance of its centre to the goal, and the
triangle inequality adds the distance of the probe to the nearest centre. The
square root is exact. -/
theorem GetHeuristicValue_ge_euclidean (env : Env R) (fuel : Nat)
    (s s1 : HolonomicHeuristic R) (hsq : ∀ x, 0 ≤ x → env.sqrt x * env.sqrt x = x)
    (hnn : ∀ x, 0 ≤ x → 0 ≤ env.sqrt x) (hq : Quiescent s) (hp : s.circle_path = [])
    (h : SpaceExploration env fuel s = Outcome.ok (true, s1)) (p : Pose2D R) :
    Distance env p.position s1.goal.position ≤ GetHeuristicValue env s1 p := by
  obtain ⟨hgoal, cs, hcirc, _, _, hcost, hlast, _⟩ :=
    SpaceExploration_success_detail env fuel s s1 hq hp h
  have hpos : ((pathNodes s1).map (fun n => n.circle.position)).getLast? =
      some s1.goal.position := by
    have hm := congrArg (List.map (fun c : Circle R => c.position)) hcirc
    rw [List.map_map] at hm
    have hfn : ((fun c : Circle R => c.position) ∘ fun x : CircleNode R => x.circle) =
        (fun n : CircleNode R => n.circle.position) := rfl
    rw [hfn] at hm
    rw [hm, hgoal]
    simp
  unfold GetHeuristicValue
  cases hn : NearestCircleNode env s1 p with
  | none =>
    simp only
    rw [Distance_comm]
  | some n =>
    simp only
    have hmem : s1.heap n ∈ pathNodes s1 :=
      List.mem_map.mpr ⟨n, NearestCircleNode_mem env s1 p n hn, rfl⟩
    have hb := cost_chain_ge_distance env hsq hnn s1.goal.position (pathNodes s1) hcost hlast
      hpos (s1.heap n) hmem
    have htri := Distance_triangle env hsq hnn p.position (s1.heap n).circle.position
      s1.goal.position
    linarith

end Admissible

/-- C23, witness: the flat field over the reals with the real `sqrt`, probed at
`(3, 4)`. -/
theorem GetHeuristicValue_ge_euclidean_witness :
    (∀ x : ℝ, 0 ≤ x → Real.sqrt x * Real.sqrt x = x) ∧
    (∀ x : ℝ, 0 ≤ x → 0 ≤ Real.sqrt x) ∧
    Quiescent (flatField ℝ) ∧ (flatField ℝ).circle_path = [] ∧
    ∃ s1, SpaceExploration
        (⟨Real.sqrt, Real.cos, Real.sin, Real.pi, fun _ _ _ => 0, fun _ _ _ => 0⟩ : Env ℝ) 1
        (flatField ℝ) = Outcome.ok (true, s1) ∧
      Distance (⟨Real.sqrt, Real.cos, Real.sin, Real.pi, fun _ _ _ => 0, fun _ _ _ => 0⟩ : Env ℝ)
          (⟨⟨3, 4⟩, 0⟩ : Pose2D ℝ).position s1.goal.position ≤
        GetHeuristicValue
          (⟨Real.sqrt, Real.cos, Real.sin, Real.pi, fun _ _ _ => 0, fun _ _ _ => 0⟩ : Env ℝ)
          s1 ⟨⟨3, 4⟩, 0⟩ := by
  have hsq : ∀ x : ℝ, 0 ≤ x → Real.sqrt x * Real.sqrt x = x := fun x hx => Real.mul_self_sqrt hx
  have hnn : ∀ x : ℝ, 0 ≤ x → 0 ≤ Real.sqrt x := fun x _ => Real.sqrt_nonneg x
  have hov : Overlap (⟨Real.sqrt, Real.cos, Real.sin, Real.pi, fun _ _ _ => 0, fun _ _ _ => 0⟩ :
      Env ℝ)
      ⟨(flatField ℝ).start.position,
        (flatField ℝ).grid.GetObstacleDistance (flatField ℝ).start.position⟩
      ⟨(flatField ℝ).goal.position,
        (flatField ℝ).grid.GetObstacleDistance (flatField ℝ).goal.position⟩ (1 / 2) = true := by
    simp only [Overlap, Distance, Distance2, flatField, construct]
    norm_num
  obtain ⟨s1, h⟩ := SpaceExploration_root_overlap
    (⟨Real.sqrt, Real.cos, Real.sin, Real.pi, fun _ _ _ => 0, fun _ _ _ => 0⟩ : Env ℝ) 0
    (flatField ℝ) ⟨rfl, rfl, rfl⟩ Real.pi_pos hov
  exact ⟨hsq, hnn, ⟨rfl, rfl, rfl⟩, rfl, s1, h,
    GetHeuristicValue_ge_euclidean _ 1 (flatField ℝ) s1 hsq hnn ⟨rfl, rfl, rfl⟩ rfl h
      ⟨⟨3, 4⟩, 0⟩⟩

/-! ## The exact rational environment -/

theorem sqrtBits_spec (n m : Nat) (h1 : m * m ≤ n) (h2 : n < (m + 1) * (m + 1)) :
    ∀ (b r : Nat), r ≤ m → m < r + 2 ^ b → sqrtBits n b r = m := by
  intro b
  induction b with
  | zero =>
    intro r hr hm
    simp only [sqrtBits]
    simp only [pow_zero] at hm
    omega
  | succ b ih =>
    intro r hr hm
    simp only [sqrtBits]
    have hpow : 2 ^ (b + 1) = 2 ^ b + 2 ^ b := by rw [pow_succ]; ring
    rw [hpow] at hm
    split
    · rename_i hle
      apply ih
      · by_contra hcon
        push_neg at hcon
        have h3 : m + 1 ≤ r + 2 ^ b := hcon
        have h4 := Nat.mul_le_mul h3 h3
        omega
      · omega
    · rename_i hnle
      apply ih _ hr
      by_contra hcon
      push_neg at hcon
      have h4 := Nat.mul_le_mul hcon hcon
      omega

theorem lt_two_pow_bitCount : ∀ (f n : Nat), n ≤ f → n < 2 ^ bitCount f n := by
  intro f
  induction f with
  | zero => intro n hn; simp only [bitCount]; omega
  | succ f ih =>
    intro n hn
    simp only [bitCount]
    split
    · rename_i h0; subst h0; simp
    · rename_i h0
      have h1 := ih (n / 2) (by omega)
      rw [pow_succ]
      omega

theorem sqrtNat_mul_self (k : Nat) : sqrtNat (k * k) = k := by
  unfold sqrtNat
  apply sqrtBits_spec (k * k) k (le_refl _)
    (Nat.mul_lt_mul_of_lt_of_le (Nat.lt_succ_self k) (Nat.le_succ k) (Nat.succ_pos k))
    _ 0 (Nat.zero_le k)
  rw [Nat.zero_add]
  have h1 : k * k < 2 ^ bitCount (k * k) (k * k) := lt_two_pow_bitCount _ _ (le_refl _)
  have h2 : k ≤ k * k := Nat.le_mul_self k
  omega

theorem sqrtExactQ_mul_self (x : ℚ) : sqrtExactQ (x * x) = |x| := by
  have hnum : (x * x).num.toNat = x.num.natAbs * x.num.natAbs := by
    rw [Rat.mul_self_num, ← Int.natAbs_mul_self]
    exact Int.toNat_natCast _
  have hden : (x * x).den = x.den * x.den := Rat.mul_self_den x
  have hval : ((sqrtNat (x * x).num.toNat : ℚ) / (sqrtNat (x * x).den : ℚ)) = |x| := by
    rw [hnum, hden, sqrtNat_mul_self, sqrtNat_mul_self]
    have hx : x = (x.num : ℚ) / (x.den : ℚ) := (Rat.num_div_den x).symm
    have hd : (0 : ℚ) < (x.den : ℚ) := by exact_mod_cast x.den_pos
    conv_rhs => rw [hx]
    rw [abs_div, abs_of_pos hd, Nat.cast_natAbs, Int.cast_abs]
  unfold sqrtExactQ
  rw [hval, if_pos (abs_mul_abs_self x)]

theorem unitQ_norm (k : Nat) :
    (unitQ k).1 * (unitQ k).1 + (unitQ k).2 * (unitQ k).2 = 1 := by
  have key : ∀ t : ℚ, ((1 - t * t) / (1 + t * t)) * ((1 - t * t) / (1 + t * t)) +
      (2 * t / (1 + t * t)) * (2 * t / (1 + t * t)) = 1 := by
    intro t
    have ht : (1 + t * t) ≠ 0 := by
      have := mul_self_nonneg t
      linarith
    field_simp
    ring
  unfold unitQ
  simp only
  split
  · exact key _
  · simp only [neg_mul_neg]
    exact key _


theorem openCorridor_success :
    (SpaceExploration envExact 9 openCorridorState).flag = some true := by
  decide!

theorem openCorridor_path :
    (pathNodes ((SpaceExploration envExact 9 openCorridorState).stateD
      openCorridorState)).map (fun x => x.circle) =
        [⟨⟨0, 0⟩, 11 / 5⟩, ⟨⟨11 / 5, 0⟩, 39 / 20⟩, ⟨⟨83 / 20, 0⟩, 39 / 20⟩, ⟨⟨6, 0⟩, 11 / 5⟩,
          ⟨⟨6, 0⟩, 11 / 5⟩] := by
  decide!

/-- C8, witness of the amended statement: the open corridor with the goal two
circles away, in the rational environment with the exact square root. The
installed path is the root, its child at `(11/5, 0)`, the child of that at
`(83/20, 0)` and the goal circle twice; the two pairs of search circles have
the distances `11/5 ≤ 11/5` and `39/20 ≤ 39/20`. -/
theorem path_segments_of_search_circles_witness :
    (∀ x : ℚ, envExact.sqrt (x * x) = |x|) ∧
    (∀ a : ℚ, envExact.cos a * envExact.cos a + envExact.sin a * envExact.sin a = 1) ∧
    (0 : ℚ) ≤ openCorridorState.grid.GetObstacleDistance openCorridorState.start.position ∧
    Quiescent openCorridorState ∧ openCorridorState.circle_path = [] ∧
    ∃ s1, SpaceExploration envExact 9 openCorridorState = Outcome.ok (true, s1) ∧
      (pathNodes s1).map (fun x => x.circle) =
        [⟨⟨0, 0⟩, 11 / 5⟩, ⟨⟨11 / 5, 0⟩, 39 / 20⟩, ⟨⟨83 / 20, 0⟩, 39 / 20⟩, ⟨⟨6, 0⟩, 11 / 5⟩,
          ⟨⟨6, 0⟩, 11 / 5⟩] ∧
      ∃ (cs : List (Circle ℚ)) (n : Circle ℚ),
        (pathNodes s1).map (fun x => x.circle) =
          cs ++ [⟨openCorridorState.goal.position,
              openCorridorState.grid.GetObstacleDistance openCorridorState.goal.position⟩,
            ⟨openCorridorState.goal.position,
              openCorridorState.grid.GetObstacleDistance openCorridorState.goal.position⟩] ∧
        cs.getLast? = some n ∧
        List.Chain' (fun prev node =>
          Distance envExact prev.position node.position ≤ prev.r) cs ∧
        Overlap envExact n ⟨openCorridorState.goal.position,
            openCorridorState.grid.GetObstacleDistance openCorridorState.goal.position⟩
          (1 / 2) = true := by
  obtain ⟨s1, h⟩ := Outcome.flag_eq_some (SpaceExploration envExact 9 openCorridorState) true
    openCorridor_success
  have hc := openCorridor_path
  rw [h] at hc
  have htrig : ∀ a : ℚ, envExact.cos a * envExact.cos a + envExact.sin a * envExact.sin a = 1 :=
    fun a => unitQ_norm (sampleQ a)
  have hclear : (0 : ℚ) ≤
      openCorridorState.grid.GetObstacleDistance openCorridorState.start.position := by
    decide!
  exact ⟨sqrtExactQ_mul_self, htrig, hclear, ⟨rfl, rfl, rfl⟩, rfl, s1, h, hc,
    path_segments_of_search_circles envExact 9 openCorridorState s1 sqrtExactQ_mul_self htrig
      hclear ⟨rfl, rfl, rfl⟩ rfl h⟩

/-- C9, witness of the amended statement on the longer dead-end corridor. The
search ends by exhaustion with twelve closed nodes; the cell `16` is a child of
the cell `2`, which was closed after the cells `0` and `3`, and the circle of
`16` overlaps neither of theirs under factor `0.1`. -/
theorem closed_pruned_at_termination_witness :
    Quiescent longCorridorState ∧
    ∃ s1, SpaceExplorationSearch envQ 40 longCorridorState = Outcome.ok (false, s1) ∧
      s1.closed = [0, 3, 2, 5, 13, 4, 12, 6, 16, 14, 20, 11] ∧
      (s1.heap 16).parent = some 2 ∧
      (∀ t, t ∈ [0, 3] → Overlap envQ (s1.heap 16).circle (s1.heap t).circle (1 / 10) = false) ∧
      ∀ p q l1 l2, p ∈ s1.closed → (s1.heap p).parent = some q → s1.closed = l1 ++ q :: l2 →
        ∀ t, t ∈ l1 → Overlap envQ (s1.heap p).circle (s1.heap t).circle (1 / 10) = false := by
  have hflag : (SpaceExplorationSearch envQ 40 longCorridorState).flag = some false := by decide!
  have hc : ((SpaceExplorationSearch envQ 40 longCorridorState).stateD longCorridorState).closed =
        [0, 3, 2, 5, 13, 4, 12, 6, 16, 14, 20, 11] ∧
      (((SpaceExplorationSearch envQ 40 longCorridorState).stateD longCorridorState).heap
        16).parent = some 2 := by decide!
  obtain ⟨s1, h⟩ := Outcome.flag_eq_some _ false hflag
  rw [h] at hc
  simp only [Outcome.stateD] at hc
  exact ⟨⟨rfl, rfl, rfl⟩, s1, h, hc.1, hc.2,
    closed_pruned_at_termination envQ 40 longCorridorState false s1 ⟨rfl, rfl, rfl⟩ h 16 2
      [0, 3] [5, 13, 4, 12, 6, 16, 14, 20, 11] (by rw [hc.1]; decide) hc.2 (by rw [hc.1]; rfl),
    closed_pruned_at_termination envQ 40 longCorridorState false s1 ⟨rfl, rfl, rfl⟩ h⟩

/-- C15, counterexample. On `blockedNear` the clearance of the start is `0`,
the root circle has radius `0`, and the goal circle, of radius `10` at distance
`1`, overlaps it: `SpaceExploration` reports success in its first round and
installs the path root, goal, goal; the query at `(0, 3/4)` returns `7/4`, not
the distance `5/4` to the goal. -/
theorem start_blocked_counterexample :
    blockedNear.grid.GetObstacleDistance blockedNear.start.position = 0 ∧
    Quiescent blockedNear ∧ blockedNear.circle_path = [] ∧
    ∃ s1, SpaceExploration envQ 5 blockedNear = Outcome.ok (true, s1) ∧
      (pathNodes s1).map (fun x => x.circle) = [⟨⟨0, 0⟩, 0⟩, ⟨⟨1, 0⟩, 10⟩, ⟨⟨1, 0⟩, 10⟩] ∧
      GetHeuristicValue envQ s1 ⟨⟨0, 3 / 4⟩, 0⟩ = 7 / 4 ∧
      Distance envQ (⟨0, 3 / 4⟩ : Vector2D ℚ) blockedNear.goal.position = 5 / 4 ∧
      ¬ (∃ s2, SpaceExploration envQ 5 blockedNear = Outcome.ok (false, s2) ∧
        s2.circle_path = [] ∧
        ∀ p, GetHeuristicValue envQ s2 p = Distance envQ p.position blockedNear.goal.position) := by
  have hflag : (SpaceExploration envQ 5 blockedNear).flag = some true := by decide!
  have hc : (pathNodes ((SpaceExploration envQ 5 blockedNear).stateD blockedNear)).map
        (fun x => x.circle) = [⟨⟨0, 0⟩, 0⟩, ⟨⟨1, 0⟩, 10⟩, ⟨⟨1, 0⟩, 10⟩] ∧
      GetHeuristicValue envQ ((SpaceExploration envQ 5 blockedNear).stateD blockedNear)
        ⟨⟨0, 3 / 4⟩, 0⟩ = 7 / 4 := by decide!
  obtain ⟨s1, h⟩ := Outcome.flag_eq_some _ true hflag
  rw [h] at hc
  simp only [Outcome.stateD] at hc
  refine ⟨by decide!, ⟨rfl, rfl, rfl⟩, rfl, s1, h, hc.1, hc.2, by decide!, ?_⟩
  rintro ⟨s2, h2, _⟩
  rw [h] at h2
  simp at h2

/-! ## The sample angles of an expansion -/

section Samples
variable {R : Type} [LinearOrderedField R]

end Samples

end astar
